import Mathlib

/-!
CHOPPER-2.0 agent kernel: Inbox, DecisionRouter ("Ralph"), registries, memory, Scheduler

A shallow embedding of `src/src/inbox.js`, `src/src/memory.js`, `src/src/tools.js`,
`src/src/skills.js`, `src/src/ralph.js`, `src/src/scheduler.js`,
`src/src/connectivity-watchdog.js` and the `GET /health` handler of `src/src/gateway.js`.

Conventions of the embedding

* module-level mutable variables become fields of an explicit state record that every
  function takes and returns;
* a JavaScript `throw` becomes `Except.error` carrying the error message; a handler
  given to the scheduler yields the value thrown itself (`Thrown`), of which the
  callback reads a property;
* the `maxLines` argument of `search-logs` is a JavaScript number (`JsNumber`), `NaN`
  and the infinities included;
* `Date.now()`, `new Date().toISOString()` and `crypto.randomUUID()` are read from the
  host, so their values are arguments of the function that reads them;
* `log(message, level)` appends a line to a log; the line is kept without its timestamp
  prefix;
* optional properties of a JavaScript object are `Option` fields; `x || d` on a string
  property is `orDefault x d` (absent and the empty string are both falsy);
* message priorities are finite numbers in the source; they are integers here;
* `persist()` of `inbox.js` rewrites `logs/inbox-queue.json`, a file the module never
  reads back; it is left out of the inbox state;
* objects are copied by value: where the source keeps a second reference to a message,
  the copy holds the message as it was when the reference was taken;
* `path.basename` and `path.resolve` are those of Node on a POSIX host, `cron.validate`
  of `node-cron` is an argument.
-/

namespace Chopper

/-! ## Common -/

/-- A log line `[tag] [level] message`, the timestamp prefix left out. -/
structure LogLine where
  tag : String
  level : String
  message : String
deriving DecidableEq, Repr

/-- JavaScript `x || d` for an optional string property: `d` when `x` is absent or empty. -/
def orDefault (x : Option String) (d : String) : String :=
  match x with
  | some s => if s = "" then d else s
  | none => d

/-- JavaScript `!s` for a string: true exactly for the empty string. -/
def falsy (s : String) : Bool := s == ""

/-! ## Inbox (`src/src/inbox.js`) -/

/-- A queued message, the object built by `normalize`. -/
structure Message where
  id : String
  source : String
  from_ : String
  subject : String
  body : String
  timestamp : String
  priority : Int
  status : String
deriving DecidableEq, Repr

/-- The object handed to `push`: every property may be missing. `priority` is `some p`
exactly when `Number.isFinite(input.priority)` holds. -/
structure RawMessage where
  id : Option String
  source : Option String
  from_ : Option String
  subject : Option String
  body : Option String
  timestamp : Option String
  priority : Option Int
  status : Option String
deriving DecidableEq, Repr

/-- The empty object `{}` that `push` substitutes for a missing argument. -/
def RawMessage.empty : RawMessage :=
  { id := none, source := none, from_ := none, subject := none, body := none,
    timestamp := none, priority := none, status := none }

/-- The constants `maxSize` and `ratePerMinute` read from the environment at load. -/
structure InboxConfig where
  maxSize : Nat
  ratePerMinute : Nat
deriving DecidableEq, Repr

/-- The module state of `inbox.js`: `queue`, `processedThisWindow`, `windowStarted`
(milliseconds), and the lines written by `log`. -/
structure Inbox where
  queue : List Message
  processedThisWindow : Nat
  windowStarted : Int
  log : List LogLine
deriving DecidableEq, Repr

/-- `normalize(input)`; `now` is the ISO time read, `uuid` the value of `randomUUID()`. -/
def normalize (now uuid : String) (input : RawMessage) : Message :=
  { id := orDefault input.id uuid
    source := orDefault input.source "internal"
    from_ := orDefault input.from_ "unknown"
    subject := orDefault input.subject ""
    body := orDefault input.body ""
    timestamp := orDefault input.timestamp now
    priority := match input.priority with
      | some p => p
      | none => 5
    status := orDefault input.status "pending" }

/-- The order induced by the comparator `(a, b) => a.priority - b.priority`:
`a` may stand before `b`. -/
def prioLE (a b : Message) : Prop := a.priority ≤ b.priority

instance prioLE_decidable : DecidableRel prioLE :=
  fun a b => inferInstanceAs (Decidable (a.priority ≤ b.priority))

instance prioLE_total : IsTotal Message prioLE :=
  ⟨fun a b => Int.le_total a.priority b.priority⟩

instance prioLE_trans : IsTrans Message prioLE :=
  ⟨fun _ _ _ hab hbc => Int.le_trans hab hbc⟩

/-- `queue.sort((a, b) => a.priority - b.priority)`. `Array.prototype.sort` is a stable
sort; the stable sort of a list is unique, and insertion sort computes it. -/
def sortQueue (q : List Message) : List Message :=
  List.insertionSort prioLE q

/-- The inbox log line written by `log(message, level)`. -/
def inboxLog (s : Inbox) (message : String) (level : String) : Inbox :=
  { s with log := s.log ++ [{ tag := "INBOX", level := level, message := message }] }

/-- `push(message)`: the result is the returned id or the thrown error, with the state
after the call. -/
def push (cfg : InboxConfig) (now uuid : String) (s : Inbox) (message : Option RawMessage) :
    Except String String × Inbox :=
  let item := normalize now uuid (message.getD RawMessage.empty)
  if falsy item.body && falsy item.subject then
    (Except.error "Message must include subject or body", s)
  else
    let sorted := sortQueue (s.queue ++ [item])
    if sorted.length > cfg.maxSize then
      match sorted with
      | dropped :: rest =>
        (Except.ok item.id,
          inboxLog { s with queue := rest }
            ("Queue overflow. Dropped oldest message " ++ dropped.id) "WARN")
      | [] => (Except.ok item.id, { s with queue := [] })
    else
      (Except.ok item.id, { s with queue := sorted })

/-- `_rateAllowed()` at time `now` (milliseconds). -/
def _rateAllowed (cfg : InboxConfig) (now : Int) (s : Inbox) : Bool × Inbox :=
  let s1 := if now - s.windowStarted ≥ 60000 then
      { s with processedThisWindow := 0, windowStarted := now }
    else s
  if s1.processedThisWindow ≥ cfg.ratePerMinute then
    (false, s1)
  else
    (true, { s1 with processedThisWindow := s1.processedThisWindow + 1 })

/-- `peek()`: `queue.find((q) => q.status === 'pending') || null`. -/
def peek (s : Inbox) : Option Message :=
  s.queue.find? (fun q => q.status == "pending")

/-- The assignment `item.status = 'processing'` on the object that
`queue.find((q) => q.status === 'pending')` returned: the first pending element of the
queue is updated in place. -/
def markFirstPending : List Message → List Message
  | [] => []
  | q :: rest =>
    if q.status == "pending" then { q with status := "processing" } :: rest
    else q :: markFirstPending rest

/-- `next()` at time `now`: the returned message (after its status was set) or `null`. -/
def next (cfg : InboxConfig) (now : Int) (s : Inbox) : Option Message × Inbox :=
  let r := _rateAllowed cfg now s
  if !r.1 then
    (none, inboxLog r.2 "Rate limit reached; delaying message processing" "WARN")
  else
    match r.2.queue.find? (fun q => q.status == "pending") with
    | none => (none, r.2)
    | some item =>
      (some { item with status := "processing" },
        { r.2 with queue := markFirstPending r.2.queue })

/-- `size()`. -/
def size (s : Inbox) : Nat := s.queue.length

/-- `drain()`: the snapshot and the emptied inbox. -/
def drain (s : Inbox) : List Message × Inbox :=
  (s.queue, { s with queue := [] })

/-! ## JavaScript string primitives used by `ralph.js` -/

/-- The characters `String.prototype.trim` strips: ECMAScript WhiteSpace and
LineTerminator code points. -/
def isJsWhitespace (c : Char) : Bool :=
  let n := c.toNat
  n == 9 || n == 10 || n == 11 || n == 12 || n == 13 || n == 32 || n == 160 ||
  n == 5760 || (8192 ≤ n && n ≤ 8202) || n == 8232 || n == 8233 || n == 8239 ||
  n == 8287 || n == 12288 || n == 65279

/-- `s.trim()` on the characters of `s`. -/
def trimChars (cs : List Char) : List Char :=
  ((cs.dropWhile isJsWhitespace).reverse.dropWhile isJsWhitespace).reverse

/-- `s.trim()`. -/
def jsTrim (s : String) : String := String.mk (trimChars s.data)

/-- `s.startsWith(p)`. -/
def jsStartsWith (s p : String) : Bool := p.data.isPrefixOf s.data

/-- `s.replace(p, '')` on characters: the first occurrence of `p` is removed, if any. -/
def removeFirstChars (p : List Char) : List Char → List Char
  | [] => []
  | c :: cs =>
    if p.isPrefixOf (c :: cs) then (c :: cs).drop p.length
    else c :: removeFirstChars p cs

/-- `s.replace(p, '')` for a non-empty string pattern `p`. -/
def jsRemoveFirst (s p : String) : String := String.mk (removeFirstChars p.data s.data)

/-- `xs.slice(-n)` for `n > 0`: the last `n` elements. -/
def sliceLast {α : Type} (n : Nat) (xs : List α) : List α := xs.drop (xs.length - n)

/-! ## Values exchanged with tools -/

/-- A JSON-like value: tool arguments and tool outputs. -/
inductive Value where
  | null : Value
  | bool (b : Bool) : Value
  | num (n : Int) : Value
  | str (s : String) : Value
  | arr (items : List Value) : Value
  | obj (fields : List (String × Value)) : Value

/-- JavaScript truthiness of a value: `null`, `false`, `0` and `''` are falsy. -/
def Value.truthy : Value → Bool
  | Value.null => false
  | Value.bool b => b
  | Value.num n => n != 0
  | Value.str s => s != ""
  | Value.arr _ => true
  | Value.obj _ => true

/-- JavaScript `x || d` for an optional property holding a value: `d` when `x` is absent
or falsy. -/
def jsOr (x : Option Value) (d : Value) : Value :=
  match x with
  | some v => if v.truthy then v else d
  | none => d

/-- A message as the object it is inside `{ message }`. -/
def Message.toValue (m : Message) : Value :=
  Value.obj [("id", Value.str m.id), ("source", Value.str m.source),
    ("from", Value.str m.from_), ("subject", Value.str m.subject),
    ("body", Value.str m.body), ("timestamp", Value.str m.timestamp),
    ("priority", Value.num m.priority), ("status", Value.str m.status)]

/-- One entry `{ step, output }` of a skill run. -/
structure StepResult where
  step : String
  output : Value

/-- The object `{ name, results, ranAt }` returned by `skills.execute`. -/
structure SkillRun where
  name : String
  results : List StepResult
  ranAt : String

/-- The `result` property of a decision: what `tools.invoke` or `skills.execute`
returned. -/
inductive Outcome where
  | tool (output : Value) : Outcome
  | skill (run : SkillRun) : Outcome

/-- A decision record of `processMessage`; `result`, `autosend` and `note` are the
properties that are only assigned on some paths. -/
structure Decision where
  id : String
  source : String
  action : String
  reason : String
  timestamp : String
  result : Option Outcome
  autosend : Option Bool
  note : Option String

/-- An entry `{ message, reason, queuedAt }` of the `pending-review` list. -/
structure ReviewEntry where
  message : Message
  reason : String
  queuedAt : String

/-! ## MemoryStore (`src/src/memory.js`) -/

/-- The `state` object of `memory.js`, restricted to the keys the agent kernel uses.
`_taskHistory` and `pendingReview` (key `'pending-review'`) are `none` when the key is
absent. -/
structure MemoryState where
  _version : String
  _lastBoot : String
  _taskHistory : Option (List Decision)
  pendingReview : Option (List ReviewEntry)

/-- The state of `memory.js`: the in-memory `state`, the `writeInProgress` flag, and the
content of the file at `memoryPath` (`none` while it does not exist). -/
structure MemoryStore where
  state : MemoryState
  writeInProgress : Bool
  disk : Option String

/-- What the modules read from their host: two environment variables,
`JSON.stringify(state, null, 2)`, and the outcome of writing the temporary file and
renaming it into place (`none` on success, `some message` when an I/O call throws). -/
structure Env where
  RALPH_AUTOSEND : Option String
  TOOLS_WRITE_ENABLED : Option String
  serialize : MemoryState → String
  fsWrite : String → Option String

/-- The state shared by `memory.js`, `tools.js`, `skills.js` and `ralph.js`: the memory
store and the lines these modules have logged. -/
structure Runtime where
  memory : MemoryStore
  log : List LogLine

/-- The log call `log(message, level)` of the module writing under `tag`. -/
def Runtime.logLine (rt : Runtime) (tag message level : String) : Runtime :=
  { rt with log := rt.log ++ [{ tag := tag, level := level, message := message }] }

/-- The constant `maxBytes`. -/
def maxBytes : Nat := 5 * 1024 * 1024

namespace memory

/-- The function `save()` of `memory.js`; `Buffer.byteLength(serialized, 'utf8')` is the
UTF-8 size of the serialized string. The flag `writeInProgress` is set for the duration
of the write and cleared in `finally`. -/
def save (env : Env) (rt : Runtime) : Bool × Runtime :=
  if rt.memory.writeInProgress then (false, rt)
  else
    let serialized := env.serialize rt.memory.state
    if serialized.utf8ByteSize > maxBytes then
      (false, rt.logLine "MEMORY" "Memory file exceeds 5MB; refusing write" "WARN")
    else
      match env.fsWrite serialized with
      | none =>
        (true, { rt with memory := { rt.memory with disk := some serialized,
                                                    writeInProgress := false } })
      | some err =>
        (false, (rt.logLine "MEMORY" ("Failed to save memory: " ++ err) "WARN"))

end memory

/-! ## ToolRegistry (`src/src/tools.js`) -/

/-- A registry entry `{ name, description, isReadOnly, handler }`. A handler is a
function of its argument object; what it reads from the host is part of the function,
and a handler that throws or rejects yields `Except.error`. -/
structure Tool where
  name : String
  description : String
  isReadOnly : Bool
  handler : Value → Except String Value

namespace tools

/-- `registry.set(name, tool)` on a `Map` kept as the list of its entries in insertion
order: an existing key keeps its position and gets the new value. -/
def mapSet (tool : Tool) : List Tool → List Tool
  | [] => [tool]
  | t :: rest => if t.name == tool.name then tool :: rest else t :: mapSet tool rest

/-- `register(name, description, handler, isReadOnly = true)`. -/
def register (registry : List Tool) (name description : String)
    (handler : Value → Except String Value) (isReadOnly : Bool) : List Tool :=
  mapSet { name := name, description := description, isReadOnly := isReadOnly,
           handler := handler } registry

/-- `registry.get(name)`. -/
def mapGet (registry : List Tool) (name : String) : Option Tool :=
  registry.find? (fun t => t.name == name)

/-- `invoke(name, args)`. -/
def invoke (env : Env) (registry : List Tool) (rt : Runtime) (name : String) (args : Value) :
    Except String Value × Runtime :=
  match mapGet registry name with
  | none => (Except.error ("Unknown tool: " ++ name), rt)
  | some tool =>
    if !tool.isReadOnly && env.TOOLS_WRITE_ENABLED != some "true" then
      (Except.error ("Tool '" ++ name ++ "' requires TOOLS_WRITE_ENABLED=true"), rt)
    else
      (tool.handler args, rt.logLine "TOOLS" ("Invoking tool '" ++ name ++ "'") "INFO")

end tools

/-! ## SkillRegistry (`src/src/skills.js`) -/

/-- A step `{ type, name, args }` of a skill; `args` may be missing. -/
structure Step where
  type : String
  name : String
  args : Option Value

/-- A registry entry `{ name, description, steps }`. -/
structure Skill where
  name : String
  description : String
  steps : List Step

namespace skills

/-- `skills.set(name, skill)`, the map kept as its entries in insertion order. -/
def mapSet (skill : Skill) : List Skill → List Skill
  | [] => [skill]
  | s :: rest => if s.name == skill.name then skill :: rest else s :: mapSet skill rest

/-- `register(name, description, steps)`. -/
def register (registry : List Skill) (name description : String) (steps : List Step) :
    List Skill :=
  mapSet { name := name, description := description, steps := steps } registry

/-- `skills.get(name)`. -/
def mapGet (registry : List Skill) (name : String) : Option Skill :=
  registry.find? (fun s => s.name == name)

/-- The `for (const step of skill.steps)` loop of `execute`, `results` being the entries
pushed so far: a step whose type is not `'tool'` is skipped, a failing invocation ends
the loop with its error. -/
def runSteps (env : Env) (toolRegistry : List Tool) (context : Value) :
    List Step → List StepResult → Runtime → Except String (List StepResult) × Runtime
  | [], results, rt => (Except.ok results, rt)
  | step :: rest, results, rt =>
    if step.type != "tool" then runSteps env toolRegistry context rest results rt
    else
      match tools.invoke env toolRegistry rt step.name (jsOr step.args context) with
      | (Except.error err, rt1) => (Except.error err, rt1)
      | (Except.ok output, rt1) =>
        runSteps env toolRegistry context rest
          (results ++ [{ step := step.name, output := output }]) rt1

/-- `execute(name, context)`; `ranAt` is the time read when the run ends. -/
def execute (env : Env) (toolRegistry : List Tool) (registry : List Skill) (ranAt : String)
    (rt : Runtime) (name : String) (context : Value) : Except String SkillRun × Runtime :=
  match mapGet registry name with
  | none => (Except.error ("Unknown skill: " ++ name), rt)
  | some skill =>
    match runSteps env toolRegistry context skill.steps []
        (rt.logLine "SKILLS" ("Executing skill '" ++ name ++ "'") "INFO") with
    | (Except.error err, rt1) => (Except.error err, rt1)
    | (Except.ok results, rt1) =>
      (Except.ok { name := name, results := results, ranAt := ranAt }, rt1)

end skills

/-! ## DecisionRouter (`src/src/ralph.js`) -/

/-- `memory.get('_taskHistory') || []`. -/
def taskHistory (rt : Runtime) : List Decision := rt.memory.state._taskHistory.getD []

/-- `memory.get('pending-review') || []`. -/
def pendingReview (rt : Runtime) : List ReviewEntry := rt.memory.state.pendingReview.getD []

/-- `rememberDecision(entry)`. -/
def rememberDecision (env : Env) (rt : Runtime) (entry : Decision) : Runtime :=
  let history := taskHistory rt ++ [entry]
  let rt1 : Runtime := { rt with memory := { rt.memory with
    state := { rt.memory.state with _taskHistory := some (sliceLast 500 history) } } }
  (memory.save env rt1).2

/-- `queueForReview(message, reason)`; `queuedAt` is the time read. -/
def queueForReview (env : Env) (queuedAt : String) (rt : Runtime) (message : Message)
    (reason : String) : Runtime :=
  let review := pendingReview rt ++
    [{ message := message, reason := reason, queuedAt := queuedAt }]
  let rt1 : Runtime := { rt with memory := { rt.memory with
    state := { rt.memory.state with pendingReview := some (sliceLast 500 review) } } }
  (memory.save env rt1).2

/-- The assignments under `if (process.env.RALPH_AUTOSEND !== 'true')`. -/
def annotateAutosend (env : Env) (decision : Decision) : Decision :=
  if env.RALPH_AUTOSEND != some "true" then
    { decision with autosend := some false,
                    note := some "No outbound actions without RALPH_AUTOSEND=true" }
  else decision

/-- The tail of the `try` block of `processMessage`, from the autosend check on. -/
def recordDecision (env : Env) (rt : Runtime) (message : Message) (decision : Decision) :
    Except String Decision × Runtime :=
  let decision := annotateAutosend env decision
  let rt1 := rememberDecision env rt decision
  (Except.ok decision,
    rt1.logLine "RALPH"
      ("Decision for " ++ message.id ++ ": " ++ decision.action ++ " (" ++ decision.reason ++ ")")
      "INFO")

/-- The `catch (err)` block of `processMessage`: `decision` is the record as it stands
when the error is thrown. -/
def recordFailure (env : Env) (rt : Runtime) (message : Message) (decision : Decision)
    (err : String) : Except String Decision × Runtime :=
  let failed := { decision with action := "failed", reason := err }
  let rt1 := rememberDecision env rt failed
  (Except.error err,
    rt1.logLine "RALPH" ("Decision failed for " ++ message.id ++ ": " ++ err) "ERROR")

/-- The object `decision` as `processMessage` first builds it; `now` is the time read. -/
def initialDecision (now : String) (message : Message) : Decision :=
  { id := message.id, source := message.source, action := "pending-review",
    reason := "No matching skill/tool command", timestamp := now,
    result := none, autosend := none, note := none }

/-- `processMessage(message)`: the returned decision or the error thrown to the caller.
`now` is the time read for `decision.timestamp`, `later` the time read by the callee
(`queuedAt` or `ranAt`). -/
def processMessage (env : Env) (toolRegistry : List Tool) (skillRegistry : List Skill)
    (now later : String) (rt : Runtime) (message : Message) :
    Except String Decision × Runtime :=
  let body := jsTrim message.body
  let decision : Decision := initialDecision now message
  if jsStartsWith body "skill:" then
    let name := jsTrim (jsRemoveFirst body "skill:")
    match skills.execute env toolRegistry skillRegistry later rt name
        (Value.obj [("message", message.toValue)]) with
    | (Except.error err, rt1) => recordFailure env rt1 message decision err
    | (Except.ok result, rt1) =>
      recordDecision env rt1 message
        { decision with action := "skill", reason := "Executed skill " ++ name,
                        result := some (Outcome.skill result) }
  else if jsStartsWith body "tool:" then
    let name := jsTrim (jsRemoveFirst body "tool:")
    match tools.invoke env toolRegistry rt name (Value.obj []) with
    | (Except.error err, rt1) => recordFailure env rt1 message decision err
    | (Except.ok result, rt1) =>
      recordDecision env rt1 message
        { decision with action := "tool", reason := "Executed tool " ++ name,
                        result := some (Outcome.tool result) }
  else
    recordDecision env (queueForReview env later rt message decision.reason) message decision

/-- The assignment `msg.status = status` in `processNext`, on the queue element at
position `i`: `msg` is the object `inbox.next()` returned, which is an element of the
queue. -/
def setStatusAt (status : String) : Nat → List Message → List Message
  | _, [] => []
  | 0, q :: rest => { q with status := status } :: rest
  | i + 1, q :: rest => q :: setStatusAt status i rest

/-- `processNext(inbox)`: the value the returned promise resolves to, or the error it
rejects with, then the inbox and the runtime after the call. `nowMs` is the time read by
`inbox.next()`, `now` and `later` the times read by `processMessage`. The element of the
queue that `next` returns is the first pending one, at the position computed here; the
copy of the message kept by a `pending-review` entry is not updated by the later
assignment to `msg.status`. -/
def processNext (env : Env) (toolRegistry : List Tool) (skillRegistry : List Skill)
    (cfg : InboxConfig) (nowMs : Int) (now later : String) (inbox : Inbox) (rt : Runtime) :
    Except String (Option Decision) × Inbox × Runtime :=
  match next cfg nowMs inbox with
  | (none, inbox1) => (Except.ok none, inbox1, rt)
  | (some msg, inbox1) =>
    let idx := inbox.queue.findIdx (fun q => q.status == "pending")
    match processMessage env toolRegistry skillRegistry now later rt msg with
    | (Except.ok result, rt1) =>
      (Except.ok (some result),
        { inbox1 with queue := setStatusAt "completed" idx inbox1.queue }, rt1)
    | (Except.error _, rt1) =>
      (Except.ok none, { inbox1 with queue := setStatusAt "failed" idx inbox1.queue }, rt1)

/-! ## The `search-logs` tool (`src/src/tools.js`) -/

/-- What the `search-logs` handler reads from its host: `process.cwd()`,
`fs.existsSync(path)`, and `fs.readFileSync(path, 'utf8')`, the latter returning the
content or throwing. -/
structure FsHost where
  cwd : String
  existsSync : String → Bool
  readFileSync : String → Except String String

/-- `path.basename(p)` of Node on a POSIX host, on characters: trailing slashes are
dropped, then what follows the last slash is kept. -/
def basenameChars (cs : List Char) : List Char :=
  ((cs.reverse.dropWhile (fun c => c == '/')).takeWhile (fun c => c != '/')).reverse

/-- `path.basename(p)` of Node on a POSIX host. -/
def pathBasename (p : String) : String := String.mk (basenameChars p.data)

/-- `s.split(sep)` for a one-character separator, on characters: the pieces between the
separators, one piece more than there are separators. -/
def splitOnChar (sep : Char) : List Char → List (List Char)
  | [] => [[]]
  | c :: cs =>
    if c == sep then [] :: splitOnChar sep cs
    else
      match splitOnChar sep cs with
      | [] => [[c]]
      | piece :: pieces => (c :: piece) :: pieces

/-- `s.split(sep)` for a one-character separator. -/
def jsSplit (s : String) (sep : Char) : List String :=
  (splitOnChar sep s.data).map String.mk

/-- `s.includes(p)` on characters. -/
def includesChars (p : List Char) : List Char → Bool
  | [] => p.isPrefixOf []
  | c :: cs => p.isPrefixOf (c :: cs) || includesChars p cs

/-- `s.includes(p)`. -/
def jsIncludes (s p : String) : Bool := includesChars p.data s.data

/-- The paths that the loop of `path.resolve` uses, given the arguments from the last to
the first followed by the working directory: empty paths are skipped, and the loop ends
at the first absolute path it meets. The result is in left-to-right order. -/
def collectParts : List String → List String
  | [] => []
  | p :: rest =>
    if p = "" then collectParts rest
    else if jsStartsWith p "/" then [p]
    else collectParts rest ++ [p]

/-- One segment of `normalizeString` in Node's `path`: empty and `.` segments are
dropped, `..` removes the segment before it (above the root it is dropped, or kept when
`allowAboveRoot`), any other segment is appended. -/
def normalizeStep (allowAboveRoot : Bool) (stack : List String) (seg : String) :
    List String :=
  if seg = "" ∨ seg = "." then stack
  else if seg = ".." then
    match stack.getLast? with
    | none => if allowAboveRoot then [".."] else []
    | some top =>
      if top = ".." then (if allowAboveRoot then stack ++ [".."] else stack)
      else stack.dropLast
  else stack ++ [seg]

/-- The segments of a list of paths, each split at its slashes. -/
def pathSegments (parts : List String) : List String :=
  parts.flatMap (fun p => jsSplit p '/')

/-- The segments joined by slashes. -/
def joinSegs : List String → String
  | [] => ""
  | [s] => s
  | s :: rest => s ++ "/" ++ joinSegs rest

/-- `path.resolve(...args)` of Node on a POSIX host whose working directory is `cwd`. -/
def pathResolve (cwd : String) (args : List String) : String :=
  let parts := collectParts (args.reverse ++ [cwd])
  let absolute := match parts with
    | [] => false
    | p :: _ => jsStartsWith p "/"
  let segs := (pathSegments parts).foldl (normalizeStep (!absolute)) []
  if absolute then "/" ++ joinSegs segs
  else if segs = [] then "." else joinSegs segs

/-- The path `path.resolve('logs')`. -/
def logsDir (fs : FsHost) : String := pathResolve fs.cwd ["logs"]

/-- The path `logPath` that the handler builds from its `file` argument. -/
def logPathOf (fs : FsHost) (file : String) : String :=
  pathResolve fs.cwd ["logs", pathBasename file]

/-- A JavaScript number: a finite value, `NaN`, `Infinity` or `-Infinity`. The finite
doubles are rationals, and the operations below are exact on the values they meet here
(comparisons, negation, truncation). -/
inductive JsNumber where
  | finite (q : Rat)
  | nan
  | posInf
  | negInf
deriving DecidableEq

instance (n : Nat) : OfNat JsNumber n := ⟨JsNumber.finite n⟩

/-- `Math.min(a, b)` on numbers: `NaN` when either is `NaN`, else the lesser. -/
def Math.min (a b : JsNumber) : JsNumber :=
  match a, b with
  | JsNumber.nan, _ => JsNumber.nan
  | _, JsNumber.nan => JsNumber.nan
  | JsNumber.negInf, _ => JsNumber.negInf
  | _, JsNumber.negInf => JsNumber.negInf
  | JsNumber.posInf, y => y
  | x, JsNumber.posInf => x
  | JsNumber.finite x, JsNumber.finite y =>
    if x ≤ y then JsNumber.finite x else JsNumber.finite y

/-- `Math.max(a, b)` on numbers: `NaN` when either is `NaN`, else the greater. -/
def Math.max (a b : JsNumber) : JsNumber :=
  match a, b with
  | JsNumber.nan, _ => JsNumber.nan
  | _, JsNumber.nan => JsNumber.nan
  | JsNumber.posInf, _ => JsNumber.posInf
  | _, JsNumber.posInf => JsNumber.posInf
  | JsNumber.negInf, y => y
  | x, JsNumber.negInf => x
  | JsNumber.finite x, JsNumber.finite y =>
    if x ≤ y then JsNumber.finite y else JsNumber.finite x

/-- The unary minus. -/
def JsNumber.neg : JsNumber → JsNumber
  | JsNumber.finite q => JsNumber.finite (-q)
  | JsNumber.nan => JsNumber.nan
  | JsNumber.posInf => JsNumber.negInf
  | JsNumber.negInf => JsNumber.posInf

/-- The results of the abstract operation `ToIntegerOrInfinity`. -/
inductive IntegerOrInfinity where
  | integer (n : Int)
  | posInf
  | negInf
deriving DecidableEq

/-- `ToIntegerOrInfinity`: `NaN` becomes 0, an infinity stays, a finite number is
truncated towards zero. -/
def toIntegerOrInfinity : JsNumber → IntegerOrInfinity
  | JsNumber.nan => IntegerOrInfinity.integer 0
  | JsNumber.posInf => IntegerOrInfinity.posInf
  | JsNumber.negInf => IntegerOrInfinity.negInf
  | JsNumber.finite q =>
    IntegerOrInfinity.integer (if 0 ≤ q then Int.floor q else Int.ceil q)

/-- `xs.slice(start)` of `Array.prototype.slice` with one argument: a negative start
counts from the end and stops at the first element, a start past the end gives the empty
array. -/
def arraySlice {α : Type} (start : JsNumber) (xs : List α) : List α :=
  match toIntegerOrInfinity start with
  | IntegerOrInfinity.negInf => xs
  | IntegerOrInfinity.posInf => []
  | IntegerOrInfinity.integer n =>
    if n < 0 then xs.drop (Int.toNat (max ((xs.length : Int) + n) 0))
    else xs.drop (Int.toNat (min n (xs.length : Int)))

/-- The number `Math.max(1, Math.min(500, maxLines))`. -/
def keptLines (maxLines : JsNumber) : JsNumber :=
  Math.max (JsNumber.finite 1) (Math.min (JsNumber.finite 500) maxLines)

/-- The handler of `search-logs` on its destructured arguments `file`, `pattern` and
`maxLines`: the returned lines, or the error thrown. `file` and `pattern` are strings.
The handler reads `maxLines` only as an argument of `Math.min`, which converts it to a
number: `maxLines` here is that number, `NaN` for a value that is no number, such as the
string `abc` (a value whose conversion raises, a BigInt or a Symbol, has no number and
is left out). The defaults `gateway.log`, `ERROR` and 50 stand in for a missing
property. -/
def searchLogs (fs : FsHost) (file pattern : String) (maxLines : JsNumber) :
    Except String (List String) :=
  if !jsStartsWith (logPathOf fs file) (logsDir fs) then
    Except.error "Only logs/ directory is allowed"
  else if !fs.existsSync (logPathOf fs file) then
    Except.ok []
  else
    match fs.readFileSync (logPathOf fs file) with
    | Except.error err => Except.error err
    | Except.ok content =>
      Except.ok (arraySlice (keptLines maxLines).neg
        ((jsSplit content '\n').filter (fun line => jsIncludes line pattern)))

/-! ## Scheduler (`src/src/scheduler.js`) -/

/-- A value that a handler throws, or the reason of the rejected promise it returns:
`undefined`, `null`, or any other value. Of another value the callback only evaluates
`err.message` inside a template literal: `message` is the text this yields (the message
of an `Error`, the text `undefined` for a value without the property), or the message of
the error that reading or converting the property raises. -/
inductive Thrown where
  | undefined
  | null
  | value (message : Except String String)

/-- The value `new Error(message)`. -/
def Thrown.ofError (message : String) : Thrown := Thrown.value (Except.ok message)

/-- A task created by `cron.schedule(cronExpr, callback)`: `id` tells the tasks created
so far apart, `name` and `handler` are the variables the callback closes over, and
`running` is false once `stop()` was called on the task. A handler acts on a world `W`
that the scheduler state is not part of; a handler that throws, or whose promise
rejects, yields `Except.error` with the value thrown. -/
structure CronTask (W : Type) where
  id : Nat
  name : String
  cronExpr : String
  handler : W → Except Thrown Unit × W
  running : Bool

/-- The module state of `scheduler.js`: the map `jobs` from a task name to the task
registered under it (kept as its entries in insertion order, a task given by its id),
the flag `started`, the lines logged, and every task `cron.schedule` has created, in
creation order. -/
structure Scheduler (W : Type) where
  jobs : List (String × Nat)
  tasks : List (CronTask W)
  started : Bool
  log : List LogLine

namespace scheduler

/-- The module state right after load. -/
def init (W : Type) : Scheduler W :=
  { jobs := [], tasks := [], started := false, log := [] }

/-- The log call `log(message, level)` of `scheduler.js`. -/
def logLine {W : Type} (s : Scheduler W) (message level : String) : Scheduler W :=
  { s with log := s.log ++ [{ tag := "SCHEDULER", level := level, message := message }] }

/-- `jobs.get(name)`; `jobs.has(name)` is whether this is `some`. -/
def jobsGet (jobs : List (String × Nat)) (name : String) : Option Nat :=
  (jobs.find? (fun e => e.1 == name)).map (fun e => e.2)

/-- `jobs.delete(name)`. -/
def jobsDelete (jobs : List (String × Nat)) (name : String) : List (String × Nat) :=
  jobs.filter (fun e => e.1 != name)

/-- `jobs.set(name, job)`: an existing key keeps its position and gets the new value, a
new key is appended. -/
def jobsSet (name : String) (id : Nat) : List (String × Nat) → List (String × Nat)
  | [] => [(name, id)]
  | e :: rest => if e.1 == name then (name, id) :: rest else e :: jobsSet name id rest

/-- `job.stop()` on the task with the given id. -/
def stopTask {W : Type} (id : Nat) (tasks : List (CronTask W)) : List (CronTask W) :=
  tasks.map (fun t => if t.id == id then { t with running := false } else t)

/-- The callback that `register` hands to `cron.schedule`, run once: `startMs` and `endMs`
are the two times read, `w` is the world the handler acts on. The result is what the
callback's promise settles to: it is rejected when the `catch` block itself raises, which
it does when it evaluates `err.message` on `undefined` or `null` (a `TypeError`, with the
message Node gives it) or when that evaluation raises; nothing is logged then after the
`started` line. -/
def guardedCallback {W : Type} (name : String) (handler : W → Except Thrown Unit × W)
    (startMs endMs : Int) (w : W) (s : Scheduler W) :
    Except String Unit × W × Scheduler W :=
  let s1 := logLine s ("Task '" ++ name ++ "' started") "INFO"
  match handler w with
  | (Except.ok _, w1) =>
    (Except.ok (), w1,
      logLine s1 ("Task '" ++ name ++ "' succeeded (" ++ toString (endMs - startMs) ++ "ms)")
        "INFO")
  | (Except.error Thrown.undefined, w1) =>
    (Except.error "Cannot read properties of undefined (reading 'message')", w1, s1)
  | (Except.error Thrown.null, w1) =>
    (Except.error "Cannot read properties of null (reading 'message')", w1, s1)
  | (Except.error (Thrown.value (Except.error raised)), w1) =>
    (Except.error raised, w1, s1)
  | (Except.error (Thrown.value (Except.ok message)), w1) =>
    (Except.ok (), w1,
      logLine s1
        ("Task '" ++ name ++ "' failed (" ++ toString (endMs - startMs) ++ "ms): " ++ message)
        "ERROR")

/-- `register(name, cronExpr, handler)`; `validate` is `cron.validate` of `node-cron`. -/
def register {W : Type} (validate : String → Bool) (s : Scheduler W) (name cronExpr : String)
    (handler : W → Except Thrown Unit × W) : Except String Bool × Scheduler W :=
  if !validate cronExpr then
    (Except.error ("Invalid cron expression for " ++ name ++ ": " ++ cronExpr), s)
  else
    let s1 : Scheduler W :=
      match jobsGet s.jobs name with
      | some old => { s with tasks := stopTask old s.tasks, jobs := jobsDelete s.jobs name }
      | none => s
    let job : CronTask W :=
      { id := s1.tasks.length, name := name, cronExpr := cronExpr, handler := handler,
        running := true }
    (Except.ok true,
      { s1 with tasks := s1.tasks ++ [job], jobs := jobsSet name job.id s1.jobs })

/-- `stop()`. -/
def stop {W : Type} (s : Scheduler W) : Scheduler W :=
  logLine
    { s with
      tasks := s.tasks.map (fun t =>
        if s.jobs.any (fun e => e.2 == t.id) then { t with running := false } else t)
      jobs := []
      started := false }
    "Scheduler stopped." "INFO"

/-- `listTasks()`. -/
def listTasks {W : Type} (s : Scheduler W) : List String := s.jobs.map (fun e => e.1)

end scheduler

/-- A call of `register` or of `stop`. -/
inductive SchedulerCall (W : Type) where
  | register (name cronExpr : String) (handler : W → Except Thrown Unit × W) :
      SchedulerCall W
  | stop : SchedulerCall W

/-- The scheduler after one call; a call of `register` that throws is caught by the
caller. -/
def scheduler.step {W : Type} (validate : String → Bool) (s : Scheduler W) :
    SchedulerCall W → Scheduler W
  | SchedulerCall.register name cronExpr handler =>
    (scheduler.register validate s name cronExpr handler).2
  | SchedulerCall.stop => scheduler.stop s

/-- The scheduler after the calls in `calls`, in order. -/
def scheduler.run {W : Type} (validate : String → Bool) (s : Scheduler W)
    (calls : List (SchedulerCall W)) : Scheduler W :=
  calls.foldl (scheduler.step validate) s

/-- The tasks that are running under the name `name`. -/
def scheduler.activeUnder {W : Type} (s : Scheduler W) (name : String) : List (CronTask W) :=
  s.tasks.filter (fun t => t.running && t.name == name)

/-! ## ConnectivityWatchdog (`src/src/connectivity-watchdog.js`) and `GET /health` -/

/-- `v[key]` for an object: the value of the first field named `key`, `none` when the
value is not an object or has no such property. -/
def Value.prop (v : Value) (key : String) : Option Value :=
  match v with
  | Value.obj fields => (fields.find? (fun f => f.1 == key)).map (fun f => f.2)
  | _ => none

/-- Whether the object has a property named `key`, as `toHaveProperty(key)` tests it. -/
def Value.hasProperty (v : Value) (key : String) : Bool :=
  match v with
  | Value.obj fields => fields.any (fun f => f.1 == key)
  | _ => false

/-- The property names of an object, in order. -/
def Value.keys (v : Value) : List String :=
  match v with
  | Value.obj fields => fields.map (fun f => f.1)
  | _ => []

/-- The fields of a `ConnectivityWatchdog`: `interval` is the handle of the timer or
`null`, `lastCheckAt` an ISO time or `null`; `emitted` lists the events emitted and `log`
the lines logged so far. -/
structure Watchdog where
  interval : Option Nat
  failures : Nat
  connected : Bool
  lastCheckAt : Option String
  emitted : List String
  log : List LogLine
deriving DecidableEq, Repr

namespace watchdog

/-- The object built by `new ConnectivityWatchdog()`. -/
def init : Watchdog :=
  { interval := none, failures := 0, connected := true, lastCheckAt := none, emitted := [],
    log := [] }

/-- The log call `_log(message, level)`. -/
def logLine (w : Watchdog) (message level : String) : Watchdog :=
  { w with log := w.log ++ [{ tag := "WATCHDOG", level := level, message := message }] }

/-- `_check()` run to its end: `now` is the time read, `probe` the outcome of the `HEAD`
request (`Except.error` with the message when `fetch` throws or the response is not
ok). -/
def _check (now : String) (probe : Except String Unit) (w : Watchdog) : Watchdog :=
  let w1 := { w with lastCheckAt := some now }
  match probe with
  | Except.ok _ =>
    let wasDisconnected := !w1.connected
    let w2 := { w1 with connected := true, failures := 0 }
    if wasDisconnected then
      logLine { w2 with emitted := w2.emitted ++ ["connectivity:restored"] }
        "Connectivity restored" "INFO"
    else w2
  | Except.error err =>
    let w2 := { w1 with failures := w1.failures + 1, connected := false }
    let w3 := logLine w2
      ("Connectivity check failed (" ++ toString w2.failures ++ "): " ++ err) "WARN"
    if w3.failures == 3 then
      logLine { w3 with emitted := w3.emitted ++ ["connectivity:lost"] }
        "Connectivity lost threshold reached" "ERROR"
    else w3

/-- `stop()`. -/
def stop (w : Watchdog) : Watchdog := { w with interval := none }

/-- `getStatus()`: the object literal `{ connected, failures, lastCheckAt }`. -/
def getStatus (w : Watchdog) : Value :=
  Value.obj [("connected", Value.bool w.connected),
    ("failures", Value.num w.failures),
    ("lastCheckAt", match w.lastCheckAt with
      | some t => Value.str t
      | none => Value.null)]

end watchdog

/-- The body that the `GET /health` handler of `gateway.js` sends: `uptime` is
`process.uptime()`, `schedulerStatus` and `lastBeat` are what `scheduler.getStatus()` and
`heartbeat.getLastBeat()` return. -/
def gatewayHealth (uptime schedulerStatus lastBeat : Value) (w : Watchdog) (inbox : Inbox) :
    Value :=
  Value.obj [("status", Value.str "ok"),
    ("uptime", uptime),
    ("subsystems", Value.obj [("scheduler", schedulerStatus),
      ("heartbeat", lastBeat),
      ("watchdog", watchdog.getStatus w),
      ("inbox", Value.obj [("size", Value.num (size inbox))])])]

/-! ## Sequences of calls -/

/-- The module state of `inbox.js` right after load, `t0` being the time read for
`windowStarted`. -/
def Inbox.init (t0 : Int) : Inbox :=
  { queue := [], processedThisWindow := 0, windowStarted := t0, log := [] }

/-- One call of `push`: the argument and the host values read during the call. -/
structure PushCall where
  now : String
  uuid : String
  message : Option RawMessage
deriving DecidableEq, Repr

/-- The item `normalize(message || {})` that a call of `push` builds. -/
def PushCall.item (c : PushCall) : Message :=
  normalize c.now c.uuid (c.message.getD RawMessage.empty)

/-- The inbox after the calls of `push` in `calls`, in order; a call that throws is
caught by the caller and the next call follows. -/
def pushAll (cfg : InboxConfig) (s : Inbox) (calls : List PushCall) : Inbox :=
  calls.foldl (fun st c => (push cfg c.now c.uuid st c.message).2) s

/-- The items of the calls in `calls` that `push` does not reject, in call order. -/
def acceptedItems (calls : List PushCall) : List Message :=
  (calls.map PushCall.item).filter (fun i => !(falsy i.body && falsy i.subject))

/-- The inbox after calls of `next` at the times `ts`, in order. -/
def nextAll (cfg : InboxConfig) (s : Inbox) (ts : List Int) : Inbox :=
  ts.foldl (fun st t => (next cfg t st).2) s

/-- The times, among the calls of `next` at `ts`, of the calls that `_rateAllowed`
admits. -/
def admittedTimes (cfg : InboxConfig) : Inbox → List Int → List Int
  | _, [] => []
  | s, t :: ts =>
    if (_rateAllowed cfg t s).1 then t :: admittedTimes cfg (next cfg t s).2 ts
    else admittedTimes cfg (next cfg t s).2 ts

/-- The results of the calls of `next` at the times `ts`, in order. -/
def nextResults (cfg : InboxConfig) : Inbox → List Int → List (Option Message)
  | _, [] => []
  | s, t :: ts => (next cfg t s).1 :: nextResults cfg (next cfg t s).2 ts

/-- The runtime after `rememberDecision` was called for each entry of `entries`, in
order. -/
def rememberAll (env : Env) (rt : Runtime) (entries : List Decision) : Runtime :=
  entries.foldl (fun r e => rememberDecision env r e) rt

/-- The runtime after `queueForReview` was called for each entry of `entries`, in order;
an entry gives the message, the reason and the time read. -/
def queueAll (env : Env) (rt : Runtime) (entries : List ReviewEntry) : Runtime :=
  entries.foldl (fun r e => queueForReview env e.queuedAt r e.message e.reason) rt

/-- The tool registry after the calls `register(t.name, t.description, t.handler,
t.isReadOnly)` for each `t` of `regs`, in order. -/
def tools.registerAll (registry : List Tool) (regs : List Tool) : List Tool :=
  regs.foldl (fun r t => tools.register r t.name t.description t.handler t.isReadOnly) registry

/-- The lines that one call `invoke(name, args)` of `tools.js` logs: the line
`Invoking tool '<name>'` when the handler is called, nothing when `invoke` throws before
calling it. -/
def tools.invokeLines (env : Env) (registry : List Tool) (name : String) : List LogLine :=
  match tools.mapGet registry name with
  | none => []
  | some tool =>
    if !tool.isReadOnly && env.TOOLS_WRITE_ENABLED != some "true" then []
    else [{ tag := "TOOLS", level := "INFO", message := "Invoking tool '" ++ name ++ "'" }]

/-- The skill registry after the three `register` calls at the end of `skills.js`. -/
def skills.builtin : List Skill :=
  skills.register
    (skills.register
      (skills.register [] "daily-summary" "Run system scan and save summary to memory"
        [{ type := "tool", name := "system-status", args := none },
         { type := "tool", name := "check-services", args := none }])
      "health-check" "Check health and connectivity"
      [{ type := "tool", name := "check-services", args := none },
       { type := "tool", name := "system-status", args := none }])
    "log-review" "Review errors and warnings from logs"
    [{ type := "tool", name := "search-logs",
       args := some (Value.obj [("file", Value.str "gateway.log"),
         ("pattern", Value.str "ERROR"), ("maxLines", Value.num 100)]) },
     { type := "tool", name := "search-logs",
       args := some (Value.obj [("file", Value.str "scheduler.log"),
         ("pattern", Value.str "WARN"), ("maxLines", Value.num 100)]) }]

/-- The steps of a skill that the loop of `execute` does not skip: those of type
`tool`. -/
def skills.toolSteps (steps : List Step) : List Step :=
  steps.filter (fun s => s.type == "tool")

/-- The lines logged by `tools.js` when `invoke` is called for each step of `steps` in
order. -/
def skills.stepLines (env : Env) (toolRegistry : List Tool) : List Step → List LogLine
  | [] => []
  | s :: rest => tools.invokeLines env toolRegistry s.name ++ stepLines env toolRegistry rest

/-- The consistency of the scheduler state: task ids count the tasks in creation order,
no name occurs twice in `jobs`, every running task is the one registered under its name,
and every entry of `jobs` stands for a running task of that name. -/
def scheduler.WellFormed {W : Type} (s : Scheduler W) : Prop :=
  s.tasks.map (fun t => t.id) = List.range s.tasks.length ∧
  (s.jobs.map (fun e => e.1)).Nodup ∧
  (∀ t ∈ s.tasks, t.running = true → (t.name, t.id) ∈ s.jobs) ∧
  (∀ e ∈ s.jobs, ∃ t ∈ s.tasks, t.id = e.2 ∧ t.name = e.1 ∧ t.running = true)

/-- The scheduler after the calls in `calls`, starting from the state at load. -/
def scheduler.after {W : Type} (validate : String → Bool) (calls : List (SchedulerCall W)) :
    Scheduler W :=
  scheduler.run validate (scheduler.init W) calls

/-- The watchdog after each probe outcome of `probes`, in order; a probe gives the time
read and the outcome of the request. -/
def watchdog.checkAll (w : Watchdog) (probes : List (String × Except String Unit)) : Watchdog :=
  probes.foldl (fun st p => watchdog._check p.1 p.2 st) w

/-! ## Concrete inputs -/

/-- A pending message with id `a` and the default priority 5. -/
def msgA : Message :=
  { id := "a", source := "internal", from_ := "unknown", subject := "", body := "first",
    timestamp := "t0", priority := 5, status := "pending" }

/-- An inbox holding `msgA` only. -/
def inboxA : Inbox :=
  { queue := [msgA], processedThisWindow := 0, windowStarted := 0, log := [] }

/-- The argument `{ id: 'b', body: 'second' }`. -/
def rawB : RawMessage :=
  { RawMessage.empty with id := some "b", body := some "second" }

/-- The argument `{ id: 'c', body: 'urgent', priority: 1 }`. -/
def rawUrgent : RawMessage :=
  { RawMessage.empty with id := some "c", body := some "urgent", priority := some 1 }

/-- The argument `{ id: 'a', body: 'again' }`, reusing the id of `msgA`. -/
def rawDupA : RawMessage :=
  { RawMessage.empty with id := some "a", body := some "again" }

/-- A pending message with id `b` and priority 5. -/
def msgB : Message :=
  { id := "b", source := "internal", from_ := "unknown", subject := "", body := "second",
    timestamp := "t0", priority := 5, status := "pending" }

/-- An inbox holding `msgA` and `msgB`, its rate window started at time 0. -/
def inboxAB : Inbox :=
  { queue := [msgA, msgB], processedThisWindow := 0, windowStarted := 0, log := [] }

/-- A configuration admitting one dequeue per minute. -/
def cfgOnePerMinute : InboxConfig := { maxSize := 100, ratePerMinute := 1 }

/-- A host with `RALPH_AUTOSEND` and `TOOLS_WRITE_ENABLED` unset, whose serializer lists
the recorded decisions and whose file writes succeed. -/
def envSafe : Env :=
  { RALPH_AUTOSEND := none
    TOOLS_WRITE_ENABLED := none
    serialize := fun st =>
      String.join ((st._taskHistory.getD []).map (fun d => d.id ++ ":" ++ d.action ++ ";"))
    fsWrite := fun _ => none }

/-- A tool registry holding `system-status`, its handler returning a fixed snapshot. -/
def demoTools : List Tool :=
  tools.register [] "system-status" "Return CPU, memory, load average and uptime"
    (fun _ => Except.ok (Value.obj [("hostname", Value.str "host-1")])) true

/-- A skill registry holding one skill of one `system-status` step. -/
def demoSkills : List Skill :=
  skills.register [] "status-only" "Run system scan"
    [{ type := "tool", name := "system-status", args := none }]

/-- The memory store of a fresh process, nothing logged yet. -/
def rtFresh : Runtime :=
  { memory :=
      { state := { _version := "1.0.0", _lastBoot := "t0", _taskHistory := some [],
                   pendingReview := none }
        writeInProgress := false
        disk := none }
    log := [] }

/-- A dequeued message whose body names the tool `system-status`. -/
def msgToolStatus : Message :=
  { id := "m1", source := "internal", from_ := "unknown", subject := "",
    body := "tool:system-status", timestamp := "t0", priority := 5, status := "processing" }

/-- A dequeued message whose command is surrounded by white space: two blanks before
`tool:`, two blanks after it, a blank and a line feed at the end. -/
def msgToolSpaced : Message :=
  { id := "m4", source := "internal", from_ := "unknown", subject := "",
    body := "  tool:  system-status \n", timestamp := "t0", priority := 5,
    status := "processing" }

/-- A dequeued message naming a skill, with a tab before `skill:` and blanks around the
name. -/
def msgSkillSpaced : Message :=
  { id := "m5", source := "internal", from_ := "unknown", subject := "",
    body := "\tskill: status-only  ", timestamp := "t0", priority := 5,
    status := "processing" }

/-- A dequeued message whose body names a tool that is not registered. -/
def msgToolNope : Message :=
  { id := "m2", source := "internal", from_ := "unknown", subject := "",
    body := "tool:nope", timestamp := "t0", priority := 5, status := "processing" }

/-- A dequeued message without a command. -/
def msgHelp : Message :=
  { id := "m3", source := "internal", from_ := "unknown", subject := "",
    body := "please help", timestamp := "t0", priority := 5, status := "processing" }

/-- A host with `TOOLS_WRITE_ENABLED=true`, otherwise as `envSafe`. -/
def envWrite : Env := { envSafe with TOOLS_WRITE_ENABLED := some "true" }

/-- A registry holding a tool `purge-logs` that is registered as not read-only. -/
def writeTools : List Tool :=
  tools.register demoTools "purge-logs" "Delete rotated logs"
    (fun _ => Except.ok (Value.str "purged")) false

/-- A skill registry holding one skill whose first step has a type other than `tool`. -/
def notedSkills : List Skill :=
  skills.register [] "annotated" "A note, then a system scan"
    [{ type := "note", name := "system-status", args := none },
     { type := "tool", name := "system-status", args := none }]

/-- A host whose working directory is `/app` and whose only file is
`/app/logs/passwd`. -/
def fsDemo : FsHost :=
  { cwd := "/app"
    existsSync := fun p => p == "/app/logs/passwd"
    readFileSync := fun p =>
      if p == "/app/logs/passwd" then Except.ok "boot ok\nERROR disk\nERROR net\n"
      else Except.error ("ENOENT: no such file or directory, open '" ++ p ++ "'") }

/-- A log of 600 lines `ERROR`, each ended by a line feed. -/
def logLong : String := String.join (List.replicate 600 "ERROR\n")

/-- A host whose working directory is `/app` and whose only file is
`/app/logs/gateway.log`, holding `logLong`. -/
def fsLong : FsHost :=
  { cwd := "/app"
    existsSync := fun p => p == "/app/logs/gateway.log"
    readFileSync := fun p =>
      if p == "/app/logs/gateway.log" then Except.ok logLong
      else Except.error ("ENOENT: no such file or directory, open '" ++ p ++ "'") }

/-- A stand-in for `cron.validate` that accepts two expressions. -/
def cronDemoValid (expr : String) : Bool := expr == "* * * * *" || expr == "0 * * * *"

/-- A handler that throws `new Error('boom')`. -/
def handlerBoom : Nat → Except Thrown Unit × Nat :=
  fun w => (Except.error (Thrown.ofError "boom"), w + 1)

/-- A handler that succeeds. -/
def handlerFine : Nat → Except Thrown Unit × Nat := fun w => (Except.ok (), w + 1)

/-- The handler `() => Promise.reject()`: its promise is rejected with `undefined`. -/
def handlerRejectUndefined : Nat → Except Thrown Unit × Nat :=
  fun w => (Except.error Thrown.undefined, w + 1)

/-- A handler that runs `throw null`. -/
def handlerThrowNull : Nat → Except Thrown Unit × Nat :=
  fun w => (Except.error Thrown.null, w + 1)

/-- A scheduler on which `memory-save` was registered once. -/
def schedulerOne : Scheduler Nat :=
  (scheduler.register cronDemoValid (scheduler.init Nat) "memory-save" "* * * * *"
    handlerFine).2

/-! ## Inbox: auxiliary facts -/

theorem falsy_iff (s : String) : falsy s = true ↔ s = "" := by
  simp [falsy]

theorem falsy_orDefault_empty (x : Option String) :
    falsy (orDefault x "") = true ↔ (x = none ∨ x = some "") := by
  unfold falsy orDefault
  cases x with
  | none => simp
  | some s => by_cases h : s = "" <;> simp [h]

theorem sortQueue_length (q : List Message) : (sortQueue q).length = q.length :=
  List.length_insertionSort _ q

theorem sortQueue_sorted (q : List Message) : List.Sorted prioLE (sortQueue q) :=
  List.sorted_insertionSort _ q

theorem sortQueue_perm (q : List Message) : List.Perm (sortQueue q) q :=
  List.perm_insertionSort _ q

/-- A rejected call of `push` leaves the state as it was. -/
theorem push_rejected (cfg : InboxConfig) (now uuid : String) (s : Inbox)
    (message : Option RawMessage)
    (h : (falsy (normalize now uuid (message.getD RawMessage.empty)).body &&
          falsy (normalize now uuid (message.getD RawMessage.empty)).subject) = true) :
    push cfg now uuid s message = (Except.error "Message must include subject or body", s) := by
  simp [push, h]

/-- An accepted call of `push` below the bound stores the re-sorted queue. -/
theorem push_accepted_fits (cfg : InboxConfig) (now uuid : String) (s : Inbox)
    (message : Option RawMessage)
    (h : (falsy (normalize now uuid (message.getD RawMessage.empty)).body &&
          falsy (normalize now uuid (message.getD RawMessage.empty)).subject) = false)
    (hfit : s.queue.length + 1 ≤ cfg.maxSize) :
    push cfg now uuid s message =
      (Except.ok (normalize now uuid (message.getD RawMessage.empty)).id,
        { s with queue :=
            sortQueue (s.queue ++ [normalize now uuid (message.getD RawMessage.empty)]) }) := by
  have hl : ¬ (sortQueue (s.queue ++
      [normalize now uuid (message.getD RawMessage.empty)])).length > cfg.maxSize := by
    rw [sortQueue_length]; simp; omega
  simp only [push, h]
  simp [hl]

/-- An accepted call of `push` that exceeds the bound drops the head of the re-sorted
queue and logs its id. -/
theorem push_accepted_overflow (cfg : InboxConfig) (now uuid : String) (s : Inbox)
    (message : Option RawMessage) (dropped : Message) (rest : List Message)
    (h : (falsy (normalize now uuid (message.getD RawMessage.empty)).body &&
          falsy (normalize now uuid (message.getD RawMessage.empty)).subject) = false)
    (hover : cfg.maxSize < s.queue.length + 1)
    (hsorted : sortQueue (s.queue ++ [normalize now uuid (message.getD RawMessage.empty)]) =
      dropped :: rest) :
    push cfg now uuid s message =
      (Except.ok (normalize now uuid (message.getD RawMessage.empty)).id,
        inboxLog { s with queue := rest }
          ("Queue overflow. Dropped oldest message " ++ dropped.id) "WARN") := by
  have hl : (sortQueue (s.queue ++
      [normalize now uuid (message.getD RawMessage.empty)])).length > cfg.maxSize := by
    rw [sortQueue_length]; simp; omega
  have hl2 : ¬ (rest.length + 1 ≤ cfg.maxSize) := by
    rw [hsorted] at hl; simp at hl; omega
  simp only [push, h]
  simp only [hl, hsorted]
  simp [hl2]

/-- The re-sorted queue of an accepted push is never empty. -/
theorem sortQueue_append_ne_nil (q : List Message) (item : Message) :
    ∃ d rest, sortQueue (q ++ [item]) = d :: rest := by
  have hl := sortQueue_length (q ++ [item])
  cases hs : sortQueue (q ++ [item]) with
  | nil => rw [hs] at hl; simp at hl
  | cons d rest => exact ⟨d, rest, rfl⟩

theorem valid_of_ne (item : Message) (h : item.body ≠ "" ∨ item.subject ≠ "") :
    (falsy item.body && falsy item.subject) = false := by
  simp only [falsy]
  rcases h with h | h <;> simp [h]

/-! ## Inbox: `push` -/

/-- C1. For a queue of length at most `maxSize` and a message with a subject or a body,
the queue after `push` still has length at most `maxSize`. When the insertion fits, the
stored queue is the re-sorted queue; when it exceeds `maxSize`, exactly one element is
evicted: the element at index 0 of the queue after the insertion and the re-sort, which
no remaining message precedes in priority, and whose id the overflow warning names. -/
theorem push_bounded_evicts_front (cfg : InboxConfig) (now uuid : String) (s : Inbox)
    (message : Option RawMessage)
    (hlen : s.queue.length ≤ cfg.maxSize)
    (hvalid : (normalize now uuid (message.getD RawMessage.empty)).body ≠ "" ∨
      (normalize now uuid (message.getD RawMessage.empty)).subject ≠ "") :
    (push cfg now uuid s message).2.queue.length ≤ cfg.maxSize ∧
    (s.queue.length + 1 ≤ cfg.maxSize →
      (push cfg now uuid s message).2.queue =
        sortQueue (s.queue ++ [normalize now uuid (message.getD RawMessage.empty)])) ∧
    (cfg.maxSize < s.queue.length + 1 →
      ∃ dropped : Message,
        (sortQueue (s.queue ++ [normalize now uuid (message.getD RawMessage.empty)]))[0]? =
          some dropped ∧
        sortQueue (s.queue ++ [normalize now uuid (message.getD RawMessage.empty)]) =
          dropped :: (push cfg now uuid s message).2.queue ∧
        (push cfg now uuid s message).2.queue.length = s.queue.length ∧
        (∀ m ∈ (push cfg now uuid s message).2.queue, dropped.priority ≤ m.priority) ∧
        (push cfg now uuid s message).2.log = s.log ++
          [{ tag := "INBOX", level := "WARN",
             message := "Queue overflow. Dropped oldest message " ++ dropped.id }]) := by
  have hv := valid_of_ne _ hvalid
  by_cases hfit : s.queue.length + 1 ≤ cfg.maxSize
  · rw [push_accepted_fits cfg now uuid s message hv hfit]
    refine ⟨?_, fun _ => rfl, fun h => absurd hfit (by omega)⟩
    simp only [sortQueue_length, List.length_append, List.length_singleton]
    exact hfit
  · have hover : cfg.maxSize < s.queue.length + 1 := by omega
    obtain ⟨d, rest, hs⟩ := sortQueue_append_ne_nil s.queue
      (normalize now uuid (message.getD RawMessage.empty))
    have hl := sortQueue_length
      (s.queue ++ [normalize now uuid (message.getD RawMessage.empty)])
    rw [hs] at hl
    simp only [List.length_cons, List.length_append, List.length_nil] at hl
    have hsd := sortQueue_sorted
      (s.queue ++ [normalize now uuid (message.getD RawMessage.empty)])
    rw [hs] at hsd
    rw [push_accepted_overflow cfg now uuid s message d rest hv hover hs]
    refine ⟨?_, fun h => absurd h hfit, fun _ => ⟨d, ?_, ?_, ?_, ?_, ?_⟩⟩
    · simp only [inboxLog]; omega
    · rw [hs]; simp
    · rw [hs]; rfl
    · simp only [inboxLog]; omega
    · intro m hm
      exact List.rel_of_sorted_cons hsd m hm
    · rfl

/-- Witness for C1: a full queue of one message receives a more urgent one. -/
theorem push_bounded_evicts_front_witness :
    (push { maxSize := 1, ratePerMinute := 10 } "t1" "u1" inboxA
      (some rawUrgent)).2.queue.length ≤ 1 :=
  (push_bounded_evicts_front { maxSize := 1, ratePerMinute := 10 } "t1" "u1" inboxA
      (some rawUrgent) (by decide) (by decide)).1

/-- C3, counterexample. With `maxSize = 1` and one message queued, a push that does not
throw leaves `size()` at 1 instead of raising it to 2. -/
theorem push_size_counterexample :
    (push { maxSize := 1, ratePerMinute := 10 } "t1" "u1" inboxA (some rawB)).1
      = Except.ok "b" ∧
    ¬ (size (push { maxSize := 1, ratePerMinute := 10 } "t1" "u1" inboxA (some rawB)).2
      = size inboxA + 1) := by
  constructor
  · rfl
  · decide

/-- C3, amended. `size()` after `push` is the size before when the push throws (subject
and body both empty) or when the insertion would exceed `maxSize` (one element is then
evicted), and exactly one more in every other case. -/
theorem push_size (cfg : InboxConfig) (now uuid : String) (s : Inbox)
    (message : Option RawMessage) :
    size (push cfg now uuid s message).2 =
      if (normalize now uuid (message.getD RawMessage.empty)).body = "" ∧
          (normalize now uuid (message.getD RawMessage.empty)).subject = "" then size s
      else if cfg.maxSize < size s + 1 then size s
      else size s + 1 := by
  by_cases hb : (normalize now uuid (message.getD RawMessage.empty)).body = "" ∧
      (normalize now uuid (message.getD RawMessage.empty)).subject = ""
  · rw [if_pos hb]
    rw [push_rejected cfg now uuid s message (by simp [falsy, hb.1, hb.2])]
  · rw [if_neg hb]
    have hv : (falsy (normalize now uuid (message.getD RawMessage.empty)).body &&
          falsy (normalize now uuid (message.getD RawMessage.empty)).subject) = false := by
      apply valid_of_ne
      by_contra hc
      push_neg at hc
      exact hb hc
    by_cases hfit : size s + 1 ≤ cfg.maxSize
    · rw [if_neg (by omega)]
      rw [push_accepted_fits cfg now uuid s message hv hfit]
      simp [size, sortQueue_length]
    · have hover : cfg.maxSize < s.queue.length + 1 := by simp only [size] at hfit; omega
      rw [if_pos (by simp only [size]; exact hover)]
      obtain ⟨d, rest, hs⟩ := sortQueue_append_ne_nil s.queue
        (normalize now uuid (message.getD RawMessage.empty))
      have hl := sortQueue_length
        (s.queue ++ [normalize now uuid (message.getD RawMessage.empty)])
      rw [hs] at hl
      simp only [List.length_cons, List.length_append, List.length_nil] at hl
      rw [push_accepted_overflow cfg now uuid s message d rest hv hover hs]
      simp only [size, inboxLog]
      omega

/-- C5. `push` throws its validation error exactly when subject and body of the
argument are both absent or empty; the state is then unchanged. In every other case it
returns the id of the normalized message, which is the given id when that is present
and non-empty and the generated one otherwise. -/
theorem push_validation (cfg : InboxConfig) (now uuid : String) (s : Inbox)
    (message : Option RawMessage) :
    ((push cfg now uuid s message).1 = Except.error "Message must include subject or body" ↔
      (((message.getD RawMessage.empty).subject = none ∨
          (message.getD RawMessage.empty).subject = some "") ∧
        ((message.getD RawMessage.empty).body = none ∨
          (message.getD RawMessage.empty).body = some ""))) ∧
    ((((message.getD RawMessage.empty).subject = none ∨
          (message.getD RawMessage.empty).subject = some "") ∧
        ((message.getD RawMessage.empty).body = none ∨
          (message.getD RawMessage.empty).body = some "")) →
      (push cfg now uuid s message).2 = s) ∧
    (¬ (((message.getD RawMessage.empty).subject = none ∨
          (message.getD RawMessage.empty).subject = some "") ∧
        ((message.getD RawMessage.empty).body = none ∨
          (message.getD RawMessage.empty).body = some "")) →
      (push cfg now uuid s message).1 =
        Except.ok (normalize now uuid (message.getD RawMessage.empty)).id) ∧
    (∀ i : String, (message.getD RawMessage.empty).id = some i → i ≠ "" →
      (normalize now uuid (message.getD RawMessage.empty)).id = i) ∧
    (((message.getD RawMessage.empty).id = none ∨ (message.getD RawMessage.empty).id = some "") →
      (normalize now uuid (message.getD RawMessage.empty)).id = uuid) := by
  have hblank : (falsy (normalize now uuid (message.getD RawMessage.empty)).body &&
      falsy (normalize now uuid (message.getD RawMessage.empty)).subject) = true ↔
      (((message.getD RawMessage.empty).subject = none ∨
          (message.getD RawMessage.empty).subject = some "") ∧
        ((message.getD RawMessage.empty).body = none ∨
          (message.getD RawMessage.empty).body = some "")) := by
    rw [Bool.and_eq_true]
    simp only [normalize, falsy_orDefault_empty]
    exact And.comm
  have hok : (falsy (normalize now uuid (message.getD RawMessage.empty)).body &&
      falsy (normalize now uuid (message.getD RawMessage.empty)).subject) = false →
      (push cfg now uuid s message).1 =
        Except.ok (normalize now uuid (message.getD RawMessage.empty)).id := by
    intro hv
    simp only [push, hv]
    simp only [Bool.false_eq_true, if_false]
    split
    · split <;> rfl
    · rfl
  refine ⟨⟨?_, ?_⟩, ?_, ?_, ?_, ?_⟩
  · intro herr
    by_contra hnb
    have hv : (falsy (normalize now uuid (message.getD RawMessage.empty)).body &&
        falsy (normalize now uuid (message.getD RawMessage.empty)).subject) = false := by
      cases hc : (falsy (normalize now uuid (message.getD RawMessage.empty)).body &&
        falsy (normalize now uuid (message.getD RawMessage.empty)).subject) with
      | false => rfl
      | true => exact absurd (hblank.mp hc) hnb
    rw [hok hv] at herr
    cases herr
  · intro hb
    rw [push_rejected cfg now uuid s message (hblank.mpr hb)]
  · intro hb
    rw [push_rejected cfg now uuid s message (hblank.mpr hb)]
  · intro hnb
    apply hok
    cases hc : (falsy (normalize now uuid (message.getD RawMessage.empty)).body &&
        falsy (normalize now uuid (message.getD RawMessage.empty)).subject) with
    | false => rfl
    | true => exact absurd (hblank.mp hc) hnb
  · intro i hi hne
    simp [normalize, orDefault, hi, hne]
  · intro h
    rcases h with h | h <;> simp [normalize, orDefault, h]

/-! ## Inbox: sequences of `push` -/

/-- The queue after a call of `push`: unchanged when the item is rejected, else the
re-sorted queue or its tail. -/
theorem push_queue_cases (cfg : InboxConfig) (c : PushCall) (s : Inbox) :
    ((falsy c.item.body && falsy c.item.subject) = true ∧
      (push cfg c.now c.uuid s c.message).2.queue = s.queue) ∨
    ((falsy c.item.body && falsy c.item.subject) = false ∧
      ((push cfg c.now c.uuid s c.message).2.queue = sortQueue (s.queue ++ [c.item]) ∨
       (push cfg c.now c.uuid s c.message).2.queue =
         (sortQueue (s.queue ++ [c.item])).tail)) := by
  cases hv : (falsy c.item.body && falsy c.item.subject) with
  | true =>
    left
    refine ⟨rfl, ?_⟩
    rw [push_rejected cfg c.now c.uuid s c.message hv]
  | false =>
    right
    refine ⟨rfl, ?_⟩
    by_cases hfit : s.queue.length + 1 ≤ cfg.maxSize
    · left
      rw [push_accepted_fits cfg c.now c.uuid s c.message hv hfit]
      rfl
    · right
      obtain ⟨d, rest, hs⟩ := sortQueue_append_ne_nil s.queue c.item
      rw [push_accepted_overflow cfg c.now c.uuid s c.message d rest hv (by omega) hs]
      rw [hs]
      rfl

/-- A stable sort keeps the messages of one priority in their order. -/
theorem filter_sortQueue (p : Int) (q : List Message) :
    (sortQueue q).filter (fun m => m.priority == p) = q.filter (fun m => m.priority == p) := by
  have hsub : List.Sublist (q.filter (fun m => m.priority == p)) q := List.filter_sublist q
  have hpw : (q.filter (fun m => m.priority == p)).Pairwise prioLE := by
    rw [List.pairwise_iff_forall_sublist]
    intro a b hab
    have ha : a ∈ q.filter (fun m => m.priority == p) := hab.subset (by simp)
    have hb : b ∈ q.filter (fun m => m.priority == p) := hab.subset (by simp)
    simp only [List.mem_filter, beq_iff_eq] at ha hb
    simp only [prioLE, ha.2, hb.2, le_refl]
  have h1 : List.Sublist (q.filter (fun m => m.priority == p)) (sortQueue q) :=
    List.sublist_insertionSort hpw hsub
  have h2 := h1.filter (fun m => m.priority == p)
  rw [List.filter_filter] at h2
  simp only [Bool.and_self] at h2
  have h3 : ((sortQueue q).filter (fun m => m.priority == p)).length =
      (q.filter (fun m => m.priority == p)).length :=
    ((sortQueue_perm q).filter _).length_eq
  exact (h2.eq_of_length h3.symm).symm

theorem acceptedItems_cons (c : PushCall) (cs : List PushCall) :
    acceptedItems (c :: cs) =
      (if (falsy c.item.body && falsy c.item.subject) = true then [] else [c.item]) ++
        acceptedItems cs := by
  simp only [acceptedItems, List.map_cons, List.filter_cons]
  cases (falsy c.item.body && falsy c.item.subject) <;> simp

theorem pushAll_cons (cfg : InboxConfig) (s : Inbox) (c : PushCall) (cs : List PushCall) :
    pushAll cfg s (c :: cs) = pushAll cfg (push cfg c.now c.uuid s c.message).2 cs := rfl

/-- The invariant of a sequence of pushes: relative to the list `acc` of the items accepted
so far, the queue is sorted by priority, holds only accepted items, and holds the items of
each priority in their order of acceptance. -/
theorem pushAll_invariant (cfg : InboxConfig) (calls : List PushCall) :
    ∀ (s : Inbox) (acc : List Message),
      List.Sorted prioLE s.queue → s.queue.Subperm acc →
      (∀ p : Int, List.Sublist (s.queue.filter (fun m => m.priority == p))
        (acc.filter (fun m => m.priority == p))) →
      List.Sorted prioLE (pushAll cfg s calls).queue ∧
      (pushAll cfg s calls).queue.Subperm (acc ++ acceptedItems calls) ∧
      (∀ p : Int, List.Sublist ((pushAll cfg s calls).queue.filter (fun m => m.priority == p))
        ((acc ++ acceptedItems calls).filter (fun m => m.priority == p))) := by
  induction calls with
  | nil =>
    intro s acc hs hp hf
    simpa [pushAll, acceptedItems] using ⟨hs, hp, hf⟩
  | cons c cs ih =>
    intro s acc hs hp hf
    rw [pushAll_cons, acceptedItems_cons]
    rcases push_queue_cases cfg c s with ⟨hv, hq⟩ | ⟨hv, hq⟩
    · have := ih (push cfg c.now c.uuid s c.message).2 acc (by rw [hq]; exact hs)
        (by rw [hq]; exact hp) (by rw [hq]; exact hf)
      simpa [hv] using this
    · have hsort : List.Sorted prioLE (sortQueue (s.queue ++ [c.item])) := sortQueue_sorted _
      have hperm : (sortQueue (s.queue ++ [c.item])).Subperm (acc ++ [c.item]) :=
        (sortQueue_perm _).subperm.trans ((List.subperm_append_right [c.item]).mpr hp)
      have hfil : ∀ p : Int,
          List.Sublist ((sortQueue (s.queue ++ [c.item])).filter (fun m => m.priority == p))
            ((acc ++ [c.item]).filter (fun m => m.priority == p)) := by
        intro p
        rw [filter_sortQueue, List.filter_append, List.filter_append]
        exact (hf p).append (List.Sublist.refl _)
      have key : List.Sorted prioLE (push cfg c.now c.uuid s c.message).2.queue ∧
          (push cfg c.now c.uuid s c.message).2.queue.Subperm (acc ++ [c.item]) ∧
          (∀ p : Int, List.Sublist ((push cfg c.now c.uuid s c.message).2.queue.filter
              (fun m => m.priority == p))
            ((acc ++ [c.item]).filter (fun m => m.priority == p))) := by
        rcases hq with hq | hq
        · rw [hq]; exact ⟨hsort, hperm, hfil⟩
        · rw [hq]
          refine ⟨hsort.tail, (List.tail_sublist _).subperm.trans hperm, fun p => ?_⟩
          exact ((List.tail_sublist _).filter _).trans (hfil p)
      have := ih (push cfg c.now c.uuid s c.message).2 (acc ++ [c.item]) key.1 key.2.1 key.2.2
      simpa [hv, List.append_assoc] using this

/-- C2. After each push of a sequence of calls starting from the empty queue (the state
after the first `n` calls, for every `n`), the queue is sorted by ascending priority, and
for every priority the queued messages of that priority appear in the order in which
they were pushed: they form a subsequence of the accepted messages of that priority,
taken in call order. -/
theorem push_sorted_stable (cfg : InboxConfig) (t0 : Int) (calls : List PushCall) (n : Nat) :
    List.Sorted prioLE (pushAll cfg (Inbox.init t0) (calls.take n)).queue ∧
    ∀ p : Int,
      List.Sublist
        ((pushAll cfg (Inbox.init t0) (calls.take n)).queue.filter (fun m => m.priority == p))
        ((acceptedItems (calls.take n)).filter (fun m => m.priority == p)) := by
  have h := pushAll_invariant cfg (calls.take n) (Inbox.init t0) []
    (by simp [Inbox.init]) (by simp [Inbox.init]) (by simp [Inbox.init])
  simp only [List.nil_append] at h
  exact ⟨h.1, h.2.2⟩

/-- C7, counterexample. Two pushes with the same caller-supplied id leave two queued
messages with that id. -/
theorem push_ids_counterexample :
    ¬ ((pushAll { maxSize := 100, ratePerMinute := 10 } (Inbox.init 0)
        [{ now := "t1", uuid := "u1", message := some rawDupA },
         { now := "t2", uuid := "u2", message := some rawDupA }]).queue.map Message.id).Nodup := by
  decide

/-- C7, amended. The queue holds pairwise distinct ids whenever the ids of the accepted
messages (the caller-supplied ids and the generated ones) are pairwise distinct; `push`
itself does not compare ids. -/
theorem push_ids_nodup (cfg : InboxConfig) (t0 : Int) (calls : List PushCall)
    (hids : ((acceptedItems calls).map Message.id).Nodup) :
    ((pushAll cfg (Inbox.init t0) calls).queue.map Message.id).Nodup := by
  have h := pushAll_invariant cfg calls (Inbox.init t0) []
    (by simp [Inbox.init]) (by simp [Inbox.init]) (by simp [Inbox.init])
  simp only [List.nil_append] at h
  obtain ⟨l, hl, hsub⟩ := h.2.1
  have h1 : (l.map Message.id).Nodup := List.Nodup.sublist (hsub.map Message.id) hids
  exact ((hl.map Message.id).nodup_iff).mp h1

/-- Witness for C7: an id supplied by the caller and a generated id. -/
theorem push_ids_nodup_witness :
    ((pushAll { maxSize := 100, ratePerMinute := 10 } (Inbox.init 0)
        [{ now := "t1", uuid := "u1", message := some rawB },
         { now := "t2", uuid := "u2",
           message := some { RawMessage.empty with subject := some "hello" } }]).queue.map
      Message.id).Nodup :=
  push_ids_nodup { maxSize := 100, ratePerMinute := 10 } 0
    [{ now := "t1", uuid := "u1", message := some rawB },
     { now := "t2", uuid := "u2",
       message := some { RawMessage.empty with subject := some "hello" } }] (by decide)

/-! ## Inbox: `next` and `peek` -/

theorem rateAllowed_queue (cfg : InboxConfig) (now : Int) (s : Inbox) :
    (_rateAllowed cfg now s).2.queue = s.queue := by
  unfold _rateAllowed
  by_cases h1 : now - s.windowStarted ≥ 60000 <;> simp only [h1, if_true, if_false] <;>
    split <;> rfl

theorem rateAllowed_log (cfg : InboxConfig) (now : Int) (s : Inbox) :
    (_rateAllowed cfg now s).2.log = s.log := by
  unfold _rateAllowed
  by_cases h1 : now - s.windowStarted ≥ 60000 <;> simp only [h1, if_true, if_false] <;>
    split <;> rfl

/-- Inside the current window `_rateAllowed` compares the counter with the quota and
counts an admitted call. -/
theorem rateAllowed_in_window (cfg : InboxConfig) (now : Int) (s : Inbox)
    (hwin : now - s.windowStarted < 60000) :
    _rateAllowed cfg now s =
      if s.processedThisWindow ≥ cfg.ratePerMinute then (false, s)
      else (true, { s with processedThisWindow := s.processedThisWindow + 1 }) := by
  have h1 : ¬ (now - s.windowStarted ≥ 60000) := by omega
  simp only [_rateAllowed, h1, if_false]

/-- A refused call of `next` returns nothing and leaves the queue as it was. -/
theorem next_refused (cfg : InboxConfig) (now : Int) (s : Inbox)
    (h : (_rateAllowed cfg now s).1 = false) :
    (next cfg now s).1 = none ∧ (next cfg now s).2.queue = s.queue := by
  simp only [next, h, Bool.not_false, if_true, inboxLog, rateAllowed_queue, and_self]

/-- The rate-limiter fields after `next` are those `_rateAllowed` leaves. -/
theorem next_rate_fields (cfg : InboxConfig) (now : Int) (s : Inbox) :
    (next cfg now s).2.processedThisWindow = (_rateAllowed cfg now s).2.processedThisWindow ∧
    (next cfg now s).2.windowStarted = (_rateAllowed cfg now s).2.windowStarted := by
  cases h : (_rateAllowed cfg now s).1
  · simp [next, h, inboxLog]
  · simp only [next, h, Bool.not_true, Bool.false_eq_true, if_false]
    split <;> simp

/-- Decomposition of the queue at its first pending message. -/
theorem find_pending_split (q : List Message) (m : Message)
    (h : q.find? (fun x => x.status == "pending") = some m) :
    m.status = "pending" ∧
    ∃ pre post : List Message, q = pre ++ m :: post ∧
      (∀ x ∈ pre, x.status ≠ "pending") ∧
      markFirstPending q = pre ++ { m with status := "processing" } :: post := by
  induction q with
  | nil => simp at h
  | cons a rest ih =>
    by_cases ha : a.status = "pending"
    · have hm : a = m := by
        rw [List.find?_cons_of_pos rest (by simp [ha])] at h
        exact Option.some.inj h
      subst hm
      refine ⟨ha, [], rest, rfl, by simp, ?_⟩
      simp [markFirstPending, ha]
    · have hrest : rest.find? (fun x => x.status == "pending") = some m := by
        rw [List.find?_cons_of_neg rest (by simp [ha])] at h
        exact h
      obtain ⟨hst, pre, post, hq, hpre, hmark⟩ := ih hrest
      refine ⟨hst, a :: pre, post, by simp [hq], ?_, ?_⟩
      · intro x hx
        rcases List.mem_cons.mp hx with hx | hx
        · rw [hx]; exact ha
        · exact hpre x hx
      · simp [markFirstPending, ha, hmark]

/-- C4, counterexample. With a quota of one call per minute and the window started at
time 0, the calls of `next` at 59999 ms and 60000 ms are both admitted although they lie
in one 60-second interval; the second, excess call returns a message and sets its
status. -/
theorem next_rate_counterexample :
    ¬ (((admittedTimes cfgOnePerMinute inboxAB [59999, 60000]).filter
          (fun t => decide (59999 ≤ t ∧ t < 59999 + 60000))).length
        ≤ cfgOnePerMinute.ratePerMinute) ∧
    nextResults cfgOnePerMinute inboxAB [59999, 60000] =
      [some { msgA with status := "processing" }, some { msgB with status := "processing" }] ∧
    (nextAll cfgOnePerMinute inboxAB [59999, 60000]).queue =
      [{ msgA with status := "processing" }, { msgB with status := "processing" }] := by
  refine ⟨by decide, by decide, by decide⟩

/-- C4, amended. The limiter counts per fixed window: among calls of `next` made before
the current window expires (less than 60000 ms after `windowStarted`), the calls admitted
so far in the window and the newly admitted ones together number at most
`ratePerMinute`; once the quota is used up every further call in the window is refused;
and a refused call returns nothing and leaves every message of the queue as it was. -/
theorem next_rate_fixed_window (cfg : InboxConfig) (s : Inbox) (ts : List Int)
    (hcount : s.processedThisWindow ≤ cfg.ratePerMinute)
    (hwin : ∀ t ∈ ts, t - s.windowStarted < 60000) :
    s.processedThisWindow + (admittedTimes cfg s ts).length ≤ cfg.ratePerMinute ∧
    (∀ (s1 : Inbox) (t : Int), cfg.ratePerMinute ≤ s1.processedThisWindow →
      t - s1.windowStarted < 60000 → (_rateAllowed cfg t s1).1 = false) ∧
    (∀ (s1 : Inbox) (t : Int), (_rateAllowed cfg t s1).1 = false →
      (next cfg t s1).1 = none ∧ (next cfg t s1).2.queue = s1.queue) := by
  refine ⟨?_, ?_, fun s1 t h => next_refused cfg t s1 h⟩
  · induction ts generalizing s with
    | nil => simpa [admittedTimes] using hcount
    | cons t ts ih =>
      have ht : t - s.windowStarted < 60000 := hwin t (by simp)
      have hf := next_rate_fields cfg t s
      rw [rateAllowed_in_window cfg t s ht] at hf
      simp only [admittedTimes]
      rw [rateAllowed_in_window cfg t s ht]
      by_cases hq : s.processedThisWindow ≥ cfg.ratePerMinute
      · rw [if_pos hq] at hf ⊢
        simp only [Bool.false_eq_true, if_false]
        have := ih (next cfg t s).2 (by rw [hf.1]; exact hcount)
          (fun u hu => by rw [hf.2]; exact hwin u (by simp [hu]))
        rw [hf.1] at this
        exact this
      · rw [if_neg hq] at hf ⊢
        simp only [if_true, List.length_cons]
        have := ih (next cfg t s).2 (by rw [hf.1]; simp only; omega)
          (fun u hu => by rw [hf.2]; exact hwin u (by simp [hu]))
        rw [hf.1] at this
        simp only at this
        omega
  · intro s1 t hfull ht
    rw [rateAllowed_in_window cfg t s1 ht]
    simp [hfull]

/-- Witness for C4: three calls in the first window under a quota of one. -/
theorem next_rate_fixed_window_witness :
    inboxAB.processedThisWindow +
      (admittedTimes cfgOnePerMinute inboxAB [10, 20, 59999]).length
        ≤ cfgOnePerMinute.ratePerMinute :=
  (next_rate_fixed_window cfgOnePerMinute inboxAB [10, 20, 59999] (by decide)
    (by decide)).1

/-- C6. When the rate limiter admits the call, `next` returns the message `peek` returns
in the same state, with its status set to `processing`. That message is the first
message of the queue whose status is `pending`; the queue after the call differs from the
queue before only at that position, where the status went from `pending` to
`processing`. When no message is pending both return nothing and the queue is unchanged.
`peek` is a function of the state alone and returns no new state. -/
theorem next_returns_peeked (cfg : InboxConfig) (now : Int) (s : Inbox)
    (hadm : (_rateAllowed cfg now s).1 = true) :
    (next cfg now s).1 = (peek s).map (fun m => { m with status := "processing" }) ∧
    (next cfg now s).2.log = s.log ∧
    (peek s = none →
      (∀ m ∈ s.queue, m.status ≠ "pending") ∧ (next cfg now s).2.queue = s.queue) ∧
    (∀ m : Message, peek s = some m →
      m.status = "pending" ∧
      ∃ pre post : List Message,
        s.queue = pre ++ m :: post ∧
        (∀ x ∈ pre, x.status ≠ "pending") ∧
        (next cfg now s).2.queue = pre ++ { m with status := "processing" } :: post) := by
  have hq := rateAllowed_queue cfg now s
  have hlog := rateAllowed_log cfg now s
  cases hp : s.queue.find? (fun q => q.status == "pending") with
  | none =>
    have hn : next cfg now s = (none, (_rateAllowed cfg now s).2) := by
      simp only [next, hadm, Bool.not_true, Bool.false_eq_true, if_false, hq, hp]
    rw [hn]
    refine ⟨by simp [peek, hp], hlog, fun _ => ⟨?_, hq⟩, fun m hm => ?_⟩
    · intro m hm
      have := List.find?_eq_none.mp hp m hm
      simpa using this
    · simp [peek, hp] at hm
  | some item =>
    have hn : next cfg now s = (some { item with status := "processing" },
        { (_rateAllowed cfg now s).2 with
          queue := markFirstPending (_rateAllowed cfg now s).2.queue }) := by
      simp only [next, hadm, Bool.not_true, Bool.false_eq_true, if_false, hq, hp]
    rw [hn]
    refine ⟨by simp [peek, hp], hlog, fun h => ?_, fun m hm => ?_⟩
    · simp [peek, hp] at h
    · have hm2 : item = m := by simpa [peek, hp] using hm
      subst hm2
      obtain ⟨hst, pre, post, hsplit, hpre, hmark⟩ := find_pending_split s.queue item hp
      refine ⟨hst, pre, post, hsplit, hpre, ?_⟩
      simp only [hq]
      exact hmark

/-- Witness for C6: the first call on an inbox with two pending messages. -/
theorem next_returns_peeked_witness :
    (next cfgOnePerMinute 10 inboxAB).1 =
      (peek inboxAB).map (fun m => { m with status := "processing" }) :=
  (next_returns_peeked cfgOnePerMinute 10 inboxAB (by decide)).1

/-! ## MemoryStore, registries: auxiliary facts -/

theorem logLine_memory (rt : Runtime) (tag message level : String) :
    (rt.logLine tag message level).memory = rt.memory := rfl

theorem logLine_log (rt : Runtime) (tag message level : String) :
    (rt.logLine tag message level).log =
      rt.log ++ [{ tag := tag, level := level, message := message }] := rfl

/-- The function `save` leaves the in-memory state and the flag as they were. -/
theorem save_state (env : Env) (rt : Runtime) :
    (memory.save env rt).2.memory.state = rt.memory.state ∧
    (memory.save env rt).2.memory.writeInProgress = rt.memory.writeInProgress := by
  by_cases hflag : rt.memory.writeInProgress = true
  · simp only [memory.save, hflag, if_true, and_self]
  · have hf : rt.memory.writeInProgress = false := by simpa using hflag
    by_cases hs : (env.serialize rt.memory.state).utf8ByteSize > maxBytes
    · simp only [memory.save, hf, Bool.false_eq_true, if_false, hs, if_true, logLine_memory,
        and_self]
    · cases hio : env.fsWrite (env.serialize rt.memory.state) with
      | none => simp only [memory.save, hf, Bool.false_eq_true, if_false, hs, hio, and_self]
      | some err =>
        simp only [memory.save, hf, Bool.false_eq_true, if_false, hs, hio, logLine_memory,
          and_self]

/-- When no write is in progress, the serialized state is within `maxBytes` and the file
system accepts the write, `save` leaves the serialized state on disk. -/
theorem save_disk (env : Env) (rt : Runtime)
    (hflag : rt.memory.writeInProgress = false)
    (hsize : (env.serialize rt.memory.state).utf8ByteSize ≤ maxBytes)
    (hio : env.fsWrite (env.serialize rt.memory.state) = none) :
    (memory.save env rt).2.memory.disk = some (env.serialize rt.memory.state) := by
  have hs : ¬ ((env.serialize rt.memory.state).utf8ByteSize > maxBytes) := by omega
  simp only [memory.save, hflag, Bool.false_eq_true, if_false, hs, hio]

/-- The function `save` logs under the tag `MEMORY` only. -/
theorem save_log (env : Env) (rt : Runtime) :
    ∃ extra : List LogLine, (memory.save env rt).2.log = rt.log ++ extra ∧
      ∀ l ∈ extra, l.tag = "MEMORY" := by
  by_cases hflag : rt.memory.writeInProgress = true
  · simp only [memory.save, hflag, if_true]
    exact ⟨[], by simp, by simp⟩
  · have hf : rt.memory.writeInProgress = false := by simpa using hflag
    by_cases hs : (env.serialize rt.memory.state).utf8ByteSize > maxBytes
    · simp only [memory.save, hf, Bool.false_eq_true, if_false, hs, if_true]
      exact ⟨[_], rfl, by simp⟩
    · cases hio : env.fsWrite (env.serialize rt.memory.state) with
      | none =>
        simp only [memory.save, hf, Bool.false_eq_true, if_false, hs, hio]
        exact ⟨[], by simp, by simp⟩
      | some err =>
        simp only [memory.save, hf, Bool.false_eq_true, if_false, hs, hio]
        exact ⟨[_], rfl, by simp⟩

/-- The call `tools.invoke` leaves the memory store as it was and logs under `TOOLS`. -/
theorem invoke_memory (env : Env) (registry : List Tool) (rt : Runtime) (name : String)
    (args : Value) :
    (tools.invoke env registry rt name args).2.memory = rt.memory := by
  unfold tools.invoke
  split
  · rfl
  · split <;> rfl

/-- The loop of `skills.execute` leaves the memory store as it was. -/
theorem runSteps_memory (env : Env) (toolRegistry : List Tool) (context : Value)
    (steps : List Step) :
    ∀ (results : List StepResult) (rt : Runtime),
      (skills.runSteps env toolRegistry context steps results rt).2.memory = rt.memory := by
  induction steps with
  | nil => intro results rt; rfl
  | cons step rest ih =>
    intro results rt
    unfold skills.runSteps
    split
    · exact ih results rt
    · have hm := invoke_memory env toolRegistry rt step.name (jsOr step.args context)
      split
      · rename_i err rt1 heq
        rw [heq] at hm
        exact hm
      · rename_i output rt1 heq
        rw [heq] at hm
        rw [ih]
        exact hm

/-- The call `skills.execute` leaves the memory store as it was. -/
theorem execute_memory (env : Env) (toolRegistry : List Tool) (registry : List Skill)
    (ranAt : String) (rt : Runtime) (name : String) (context : Value) :
    (skills.execute env toolRegistry registry ranAt rt name context).2.memory = rt.memory := by
  unfold skills.execute
  split
  · rfl
  · rename_i skill _
    have hm := runSteps_memory env toolRegistry context skill.steps []
      (rt.logLine "SKILLS" ("Executing skill '" ++ name ++ "'") "INFO")
    split
    · rename_i err rt1 heq
      rw [heq] at hm
      exact hm
    · rename_i results rt1 heq
      rw [heq] at hm
      exact hm

/-! ## DecisionRouter: auxiliary facts -/

/-- After `rememberDecision` the history is the old one with the entry appended, cut to
its last 500 entries; the review list and the flag are as before. -/
theorem rememberDecision_history (env : Env) (rt : Runtime) (entry : Decision) :
    taskHistory (rememberDecision env rt entry) = sliceLast 500 (taskHistory rt ++ [entry]) ∧
    pendingReview (rememberDecision env rt entry) = pendingReview rt ∧
    (rememberDecision env rt entry).memory.writeInProgress = rt.memory.writeInProgress := by
  unfold rememberDecision
  simp only [taskHistory, pendingReview, (save_state env _).1, (save_state env _).2]
  simp

/-- After `rememberDecision` the file holds the state, when `save` is not refused. -/
theorem rememberDecision_disk (env : Env) (rt : Runtime) (entry : Decision)
    (hflag : rt.memory.writeInProgress = false)
    (hsize : (env.serialize (rememberDecision env rt entry).memory.state).utf8ByteSize
      ≤ maxBytes)
    (hio : env.fsWrite (env.serialize (rememberDecision env rt entry).memory.state) = none) :
    (rememberDecision env rt entry).memory.disk =
      some (env.serialize (rememberDecision env rt entry).memory.state) := by
  unfold rememberDecision at hsize hio ⊢
  simp only [(save_state env _).1] at hsize hio ⊢
  exact save_disk env _ hflag hsize hio

/-- The function `rememberDecision` logs under the tag `MEMORY` only. -/
theorem rememberDecision_log (env : Env) (rt : Runtime) (entry : Decision) :
    ∃ extra : List LogLine, (rememberDecision env rt entry).log = rt.log ++ extra ∧
      ∀ l ∈ extra, l.tag = "MEMORY" := by
  unfold rememberDecision
  exact save_log env _

/-- After `queueForReview` the review list is the old one with the entry appended, cut to
its last 500 entries; the history and the flag are as before. -/
theorem queueForReview_lists (env : Env) (queuedAt : String) (rt : Runtime)
    (message : Message) (reason : String) :
    pendingReview (queueForReview env queuedAt rt message reason) =
      sliceLast 500 (pendingReview rt ++
        [{ message := message, reason := reason, queuedAt := queuedAt }]) ∧
    taskHistory (queueForReview env queuedAt rt message reason) = taskHistory rt ∧
    (queueForReview env queuedAt rt message reason).memory.writeInProgress =
      rt.memory.writeInProgress := by
  unfold queueForReview
  simp only [taskHistory, pendingReview, (save_state env _).1, (save_state env _).2]
  simp

/-- The function `queueForReview` logs under the tag `MEMORY` only. -/
theorem queueForReview_log (env : Env) (queuedAt : String) (rt : Runtime)
    (message : Message) (reason : String) :
    ∃ extra : List LogLine,
      (queueForReview env queuedAt rt message reason).log = rt.log ++ extra ∧
      ∀ l ∈ extra, l.tag = "MEMORY" := by
  unfold queueForReview
  exact save_log env _

/-- On a string that starts with the pattern, `replace(pattern, '')` drops the pattern. -/
theorem removeFirstChars_of_starts (p cs : List Char) (hp : p ≠ [])
    (h : p.isPrefixOf cs = true) : removeFirstChars p cs = cs.drop p.length := by
  cases cs with
  | nil =>
    cases p with
    | nil => exact absurd rfl hp
    | cons a p => simp at h
  | cons c cs => simp [removeFirstChars, h]

theorem jsRemoveFirst_of_starts (s p : String) (hp : p.data ≠ [])
    (h : jsStartsWith s p = true) :
    jsRemoveFirst s p = String.mk (s.data.drop p.length) := by
  unfold jsRemoveFirst
  rw [removeFirstChars_of_starts p.data s.data hp h]
  rfl

/-! ## DecisionRouter: the paths of `processMessage` -/

theorem annotateAutosend_fields (env : Env) (d : Decision) :
    (annotateAutosend env d).id = d.id ∧ (annotateAutosend env d).action = d.action ∧
    (annotateAutosend env d).reason = d.reason ∧ (annotateAutosend env d).result = d.result := by
  unfold annotateAutosend
  split <;> exact ⟨rfl, rfl, rfl, rfl⟩

/-- The skill path without failure. -/
theorem processMessage_skill_ok (env : Env) (toolRegistry : List Tool)
    (skillRegistry : List Skill) (now later : String) (rt : Runtime) (message : Message)
    (run : SkillRun) (rt1 : Runtime)
    (hs : jsStartsWith (jsTrim message.body) "skill:" = true)
    (hx : skills.execute env toolRegistry skillRegistry later rt
        (jsTrim (jsRemoveFirst (jsTrim message.body) "skill:"))
        (Value.obj [("message", message.toValue)]) = (Except.ok run, rt1)) :
    processMessage env toolRegistry skillRegistry now later rt message =
      recordDecision env rt1 message
        { initialDecision now message with
          action := "skill"
          reason := "Executed skill " ++ jsTrim (jsRemoveFirst (jsTrim message.body) "skill:")
          result := some (Outcome.skill run) } := by
  simp only [processMessage, hs, if_true, hx]

/-- The skill path when `skills.execute` throws. -/
theorem processMessage_skill_err (env : Env) (toolRegistry : List Tool)
    (skillRegistry : List Skill) (now later : String) (rt : Runtime) (message : Message)
    (err : String) (rt1 : Runtime)
    (hs : jsStartsWith (jsTrim message.body) "skill:" = true)
    (hx : skills.execute env toolRegistry skillRegistry later rt
        (jsTrim (jsRemoveFirst (jsTrim message.body) "skill:"))
        (Value.obj [("message", message.toValue)]) = (Except.error err, rt1)) :
    processMessage env toolRegistry skillRegistry now later rt message =
      recordFailure env rt1 message (initialDecision now message) err := by
  simp only [processMessage, hs, if_true, hx]

/-- The tool path without failure. -/
theorem processMessage_tool_ok (env : Env) (toolRegistry : List Tool)
    (skillRegistry : List Skill) (now later : String) (rt : Runtime) (message : Message)
    (out : Value) (rt1 : Runtime)
    (hs : jsStartsWith (jsTrim message.body) "skill:" = false)
    (ht : jsStartsWith (jsTrim message.body) "tool:" = true)
    (hx : tools.invoke env toolRegistry rt
        (jsTrim (jsRemoveFirst (jsTrim message.body) "tool:")) (Value.obj []) =
          (Except.ok out, rt1)) :
    processMessage env toolRegistry skillRegistry now later rt message =
      recordDecision env rt1 message
        { initialDecision now message with
          action := "tool"
          reason := "Executed tool " ++ jsTrim (jsRemoveFirst (jsTrim message.body) "tool:")
          result := some (Outcome.tool out) } := by
  simp only [processMessage, hs, ht, Bool.false_eq_true, if_false, if_true, hx]

/-- The tool path when `tools.invoke` throws. -/
theorem processMessage_tool_err (env : Env) (toolRegistry : List Tool)
    (skillRegistry : List Skill) (now later : String) (rt : Runtime) (message : Message)
    (err : String) (rt1 : Runtime)
    (hs : jsStartsWith (jsTrim message.body) "skill:" = false)
    (ht : jsStartsWith (jsTrim message.body) "tool:" = true)
    (hx : tools.invoke env toolRegistry rt
        (jsTrim (jsRemoveFirst (jsTrim message.body) "tool:")) (Value.obj []) =
          (Except.error err, rt1)) :
    processMessage env toolRegistry skillRegistry now later rt message =
      recordFailure env rt1 message (initialDecision now message) err := by
  simp only [processMessage, hs, ht, Bool.false_eq_true, if_false, if_true, hx]

/-- The path of a body without command. -/
theorem processMessage_review (env : Env) (toolRegistry : List Tool)
    (skillRegistry : List Skill) (now later : String) (rt : Runtime) (message : Message)
    (hs : jsStartsWith (jsTrim message.body) "skill:" = false)
    (ht : jsStartsWith (jsTrim message.body) "tool:" = false) :
    processMessage env toolRegistry skillRegistry now later rt message =
      recordDecision env
        (queueForReview env later rt message (initialDecision now message).reason)
        message (initialDecision now message) := by
  simp only [processMessage, hs, ht, Bool.false_eq_true, if_false]

/-- Every call of `processMessage` ends in `recordDecision` or in `recordFailure`, on a
runtime whose history and write flag are those of the start, for a decision carrying the
id of the message. -/
theorem processMessage_shape (env : Env) (toolRegistry : List Tool)
    (skillRegistry : List Skill) (now later : String) (rt : Runtime) (message : Message) :
    ∃ (rt1 : Runtime) (d : Decision),
      taskHistory rt1 = taskHistory rt ∧
      rt1.memory.writeInProgress = rt.memory.writeInProgress ∧
      d.id = message.id ∧
      (processMessage env toolRegistry skillRegistry now later rt message =
          recordDecision env rt1 message d ∨
        ∃ err : String, processMessage env toolRegistry skillRegistry now later rt message =
          recordFailure env rt1 message d err) := by
  cases hs : jsStartsWith (jsTrim message.body) "skill:" with
  | true =>
    have hm := execute_memory env toolRegistry skillRegistry later rt
      (jsTrim (jsRemoveFirst (jsTrim message.body) "skill:"))
      (Value.obj [("message", message.toValue)])
    cases hx : skills.execute env toolRegistry skillRegistry later rt
      (jsTrim (jsRemoveFirst (jsTrim message.body) "skill:"))
      (Value.obj [("message", message.toValue)]) with
    | mk res rt1 =>
      rw [hx] at hm
      have hm1 : rt1.memory = rt.memory := hm
      cases res with
      | ok run =>
        exact ⟨rt1, _, by simp only [taskHistory, hm1], by rw [hm1], rfl,
          Or.inl (processMessage_skill_ok env toolRegistry skillRegistry now later rt message
            run rt1 hs hx)⟩
      | error err =>
        exact ⟨rt1, _, by simp only [taskHistory, hm1], by rw [hm1], rfl,
          Or.inr ⟨err, processMessage_skill_err env toolRegistry skillRegistry now later rt
            message err rt1 hs hx⟩⟩
  | false =>
    cases ht : jsStartsWith (jsTrim message.body) "tool:" with
    | true =>
      have hm := invoke_memory env toolRegistry rt
        (jsTrim (jsRemoveFirst (jsTrim message.body) "tool:")) (Value.obj [])
      cases hx : tools.invoke env toolRegistry rt
        (jsTrim (jsRemoveFirst (jsTrim message.body) "tool:")) (Value.obj []) with
      | mk res rt1 =>
        rw [hx] at hm
        have hm1 : rt1.memory = rt.memory := hm
        cases res with
        | ok out =>
          exact ⟨rt1, _, by simp only [taskHistory, hm1], by rw [hm1], rfl,
            Or.inl (processMessage_tool_ok env toolRegistry skillRegistry now later rt message
              out rt1 hs ht hx)⟩
        | error err =>
          exact ⟨rt1, _, by simp only [taskHistory, hm1], by rw [hm1], rfl,
            Or.inr ⟨err, processMessage_tool_err env toolRegistry skillRegistry now later rt
              message err rt1 hs ht hx⟩⟩
    | false =>
      have hq := queueForReview_lists env later rt message (initialDecision now message).reason
      exact ⟨_, _, hq.2.1, hq.2.2, rfl,
        Or.inl (processMessage_review env toolRegistry skillRegistry now later rt message hs ht)⟩

/-! ## DecisionRouter: `processMessage` -/

theorem sliceLast_of_le {α : Type} (n : Nat) (xs : List α) (h : xs.length ≤ n) :
    sliceLast n xs = xs := by
  unfold sliceLast
  rw [Nat.sub_eq_zero_of_le h]
  rfl

theorem sliceLast_append_last {α : Type} (n : Nat) (xs : List α) (x : α) (hn : 0 < n) :
    (sliceLast n (xs ++ [x])).getLast? = some x := by
  unfold sliceLast
  rw [List.drop_append_of_le_length (by simp; omega)]
  simp

theorem recordDecision_result (env : Env) (rt : Runtime) (message : Message) (d : Decision) :
    (recordDecision env rt message d).1 = Except.ok (annotateAutosend env d) ∧
    (recordDecision env rt message d).2.memory =
      (rememberDecision env rt (annotateAutosend env d)).memory ∧
    (recordDecision env rt message d).2.log =
      (rememberDecision env rt (annotateAutosend env d)).log ++
        [{ tag := "RALPH", level := "INFO",
           message := "Decision for " ++ message.id ++ ": " ++ (annotateAutosend env d).action ++
             " (" ++ (annotateAutosend env d).reason ++ ")" }] :=
  ⟨rfl, rfl, rfl⟩

theorem recordFailure_result (env : Env) (rt : Runtime) (message : Message) (d : Decision)
    (err : String) :
    (recordFailure env rt message d err).1 = Except.error err ∧
    (recordFailure env rt message d err).2.memory =
      (rememberDecision env rt { d with action := "failed", reason := err }).memory :=
  ⟨rfl, rfl⟩

theorem taskHistory_congr (rt1 rt2 : Runtime) (h : rt1.memory = rt2.memory) :
    taskHistory rt1 = taskHistory rt2 := by
  simp only [taskHistory, h]

theorem pendingReview_congr (rt1 rt2 : Runtime) (h : rt1.memory = rt2.memory) :
    pendingReview rt1 = pendingReview rt2 := by
  simp only [pendingReview, h]

/-- C10. Every call of `processMessage` records exactly one decision `d`: the history
after the call is the history before with `d` appended (cut to its last 500 entries, so
`d` is its last entry, and nothing is cut below 500 entries), and `d` carries the id of
the message. Either `d` is the decision returned, or the call throws, `d` has action
`failed`, and the error thrown is the reason recorded; an error of `skills.execute` or
`tools.invoke` is the error thrown. The store is saved before the call returns: when no
write is in progress and `save` does not refuse the write (size within `maxBytes`, file
system accepting it), the memory file holds the serialization of the final state. -/
theorem processMessage_records_once (env : Env) (toolRegistry : List Tool)
    (skillRegistry : List Skill) (now later : String) (rt : Runtime) (message : Message) :
    (∃ d : Decision,
      d.id = message.id ∧
      taskHistory (processMessage env toolRegistry skillRegistry now later rt message).2 =
        sliceLast 500 (taskHistory rt ++ [d]) ∧
      (taskHistory (processMessage env toolRegistry skillRegistry now later rt message).2).getLast?
        = some d ∧
      ((taskHistory rt).length < 500 →
        taskHistory (processMessage env toolRegistry skillRegistry now later rt message).2 =
          taskHistory rt ++ [d]) ∧
      ((processMessage env toolRegistry skillRegistry now later rt message).1 = Except.ok d ∨
        ((processMessage env toolRegistry skillRegistry now later rt message).1 =
            Except.error d.reason ∧ d.action = "failed"))) ∧
    (∀ (err : String) (rt1 : Runtime),
      jsStartsWith (jsTrim message.body) "skill:" = true →
      skills.execute env toolRegistry skillRegistry later rt
        (jsTrim (jsRemoveFirst (jsTrim message.body) "skill:"))
        (Value.obj [("message", message.toValue)]) = (Except.error err, rt1) →
      (processMessage env toolRegistry skillRegistry now later rt message).1 =
        Except.error err) ∧
    (∀ (err : String) (rt1 : Runtime),
      jsStartsWith (jsTrim message.body) "skill:" = false →
      jsStartsWith (jsTrim message.body) "tool:" = true →
      tools.invoke env toolRegistry rt
        (jsTrim (jsRemoveFirst (jsTrim message.body) "tool:")) (Value.obj []) =
          (Except.error err, rt1) →
      (processMessage env toolRegistry skillRegistry now later rt message).1 =
        Except.error err) ∧
    (rt.memory.writeInProgress = false →
      (env.serialize
        (processMessage env toolRegistry skillRegistry now later rt message).2.memory.state
        ).utf8ByteSize ≤ maxBytes →
      env.fsWrite (env.serialize
        (processMessage env toolRegistry skillRegistry now later rt message).2.memory.state)
        = none →
      (processMessage env toolRegistry skillRegistry now later rt message).2.memory.disk =
        some (env.serialize
          (processMessage env toolRegistry skillRegistry now later rt message).2.memory.state))
    := by
  obtain ⟨rt1, d, hhist, hflag, hid, hshape⟩ :=
    processMessage_shape env toolRegistry skillRegistry now later rt message
  refine ⟨?_, ?_, ?_, ?_⟩
  · rcases hshape with h | ⟨err, h⟩
    · rw [h]
      have hr := recordDecision_result env rt1 message d
      have hh := (rememberDecision_history env rt1 (annotateAutosend env d)).1
      rw [hhist] at hh
      have hth := taskHistory_congr _ _ hr.2.1
      refine ⟨annotateAutosend env d, ?_, ?_, ?_, ?_, Or.inl hr.1⟩
      · rw [(annotateAutosend_fields env d).1]; exact hid
      · rw [hth]; exact hh
      · rw [hth, hh]; exact sliceLast_append_last 500 _ _ (by decide)
      · intro hlen
        rw [hth, hh]
        exact sliceLast_of_le 500 _ (by simp; omega)
    · rw [h]
      have hr := recordFailure_result env rt1 message d err
      have hh := (rememberDecision_history env rt1
        { d with action := "failed", reason := err }).1
      rw [hhist] at hh
      have hth := taskHistory_congr _ _ hr.2
      refine ⟨{ d with action := "failed", reason := err }, hid, ?_, ?_, ?_,
        Or.inr ⟨hr.1, rfl⟩⟩
      · rw [hth]; exact hh
      · rw [hth, hh]; exact sliceLast_append_last 500 _ _ (by decide)
      · intro hlen
        rw [hth, hh]
        exact sliceLast_of_le 500 _ (by simp; omega)
  · intro err rt2 hs hx
    rw [processMessage_skill_err env toolRegistry skillRegistry now later rt message err rt2
      hs hx]
    rfl
  · intro err rt2 hs ht hx
    rw [processMessage_tool_err env toolRegistry skillRegistry now later rt message err rt2
      hs ht hx]
    rfl
  · intro hf
    have hf1 : rt1.memory.writeInProgress = false := by rw [hflag]; exact hf
    rcases hshape with h | ⟨err, h⟩
    · rw [h, (recordDecision_result env rt1 message d).2.1]
      exact rememberDecision_disk env rt1 _ hf1
    · rw [h, (recordFailure_result env rt1 message d err).2]
      exact rememberDecision_disk env rt1 _ hf1

/-- Witness for C10: a message naming an unregistered tool, on a fresh store whose
writes succeed. -/
theorem processMessage_records_once_witness :
    (processMessage envSafe demoTools demoSkills "t1" "t2" rtFresh msgToolNope).2.memory.disk =
      some (envSafe.serialize
        (processMessage envSafe demoTools demoSkills "t1" "t2" rtFresh
          msgToolNope).2.memory.state) :=
  (processMessage_records_once envSafe demoTools demoSkills "t1" "t2" rtFresh
    msgToolNope).2.2.2 (by decide) (by decide) (by decide)

theorem dropWhile_append_all {α : Type} (p : α → Bool) (pre rest : List α)
    (h : ∀ c ∈ pre, p c = true) : (pre ++ rest).dropWhile p = rest.dropWhile p := by
  induction pre with
  | nil => rfl
  | cons a as ih =>
    have ha : p a = true := h a (List.mem_cons_self a as)
    rw [List.cons_append, List.dropWhile_cons, ha]
    simp only [if_true]
    exact ih (fun c hc => h c (List.mem_cons_of_mem a hc))

theorem dropWhile_all {α : Type} (p : α → Bool) (xs : List α)
    (h : ∀ c ∈ xs, p c = true) : xs.dropWhile p = [] := by
  have := dropWhile_append_all p xs [] h
  rwa [List.append_nil] at this

theorem dropWhile_head_false {α : Type} (p : α → Bool) (xs : List α)
    (h : ∀ c, xs.head? = some c → p c = false) : xs.dropWhile p = xs := by
  cases xs with
  | nil => rfl
  | cons a as =>
    have ha : p a = false := h a rfl
    rw [List.dropWhile_cons, ha]
    simp

/-- What `trim` returns: the part between the leading and the trailing run of white
space. -/
theorem trimChars_spec (pre core post : List Char)
    (hpre : ∀ c ∈ pre, isJsWhitespace c = true)
    (hpost : ∀ c ∈ post, isJsWhitespace c = true)
    (hhead : ∀ c, core.head? = some c → isJsWhitespace c = false)
    (hlast : ∀ c, core.getLast? = some c → isJsWhitespace c = false) :
    trimChars (pre ++ core ++ post) = core := by
  unfold trimChars
  rw [List.append_assoc, dropWhile_append_all _ pre _ hpre]
  cases core with
  | nil =>
    rw [List.nil_append, dropWhile_all _ post hpost]
    rfl
  | cons a as =>
    rw [dropWhile_head_false _ ((a :: as) ++ post) (fun c hc => hhead c (by simpa using hc))]
    rw [List.reverse_append,
      dropWhile_append_all _ post.reverse _ (fun c hc => hpost c (List.mem_reverse.mp hc)),
      dropWhile_head_false _ (a :: as).reverse
        (fun c hc => hlast c (by rw [List.getLast?_eq_head?_reverse]; exact hc)),
      List.reverse_reverse]

/-- The white space of `String.prototype.trim`: the ECMAScript WhiteSpace and LineTerminator
code points. -/
theorem isJsWhitespace_iff (c : Char) :
    isJsWhitespace c = true ↔
      c.toNat ∈ [9, 10, 11, 12, 13, 32, 160, 5760, 8192, 8193, 8194, 8195, 8196, 8197, 8198,
        8199, 8200, 8201, 8202, 8232, 8233, 8239, 8287, 12288, 65279] := by
  unfold isJsWhitespace
  simp only [Bool.or_eq_true, Bool.and_eq_true, beq_iff_eq, decide_eq_true_eq, List.mem_cons,
    List.mem_singleton, List.not_mem_nil, or_false]
  omega

theorem filter_dispatch_memory (extra : List LogLine) (h : ∀ l ∈ extra, l.tag = "MEMORY") :
    extra.filter (fun l => l.tag == "TOOLS" || l.tag == "SKILLS") = [] := by
  rw [List.filter_eq_nil_iff]
  intro l hl
  rw [h l hl]
  decide

/-- C8. `processMessage` classifies by the first matching prefix of the trimmed body.
Trimming removes the leading and the trailing run of white space (the code points listed,
those of `String.prototype.trim`) and nothing else: a string made of white space, a core
that neither starts nor ends with white space, and white space, is trimmed to that core.
So a body made of white space, `skill:` or `tool:`, white space, a name without white
space at its ends, and white space, has a trimmed body that starts with that prefix (and
not with `skill:` when the prefix is `tool:`), and the name handed over is that name.
If the trimmed body starts with `skill:`, the rest of the trimmed body, trimmed, is the
name handed to `skills.execute`, and when that call does not fail the decision returned
has action `skill` and carries its result. Else, if it starts with `tool:`, the rest of
the trimmed body, trimmed, is the name handed to `tools.invoke` with the empty argument
object, and when that call does not fail the decision returned has action `tool`, the
reason `Executed tool <name>`, and carries its result. Otherwise the decision returned
has action `pending-review` and no result, the message is appended to the
`pending-review` list (kept to its last 500 entries), and neither `tools.js` nor
`skills.js` logs an invocation. -/
theorem processMessage_classifies (env : Env) (toolRegistry : List Tool)
    (skillRegistry : List Skill) (now later : String) (rt : Runtime) (message : Message) :
    (∀ c : Char, isJsWhitespace c = true ↔
      c.toNat ∈ [9, 10, 11, 12, 13, 32, 160, 5760, 8192, 8193, 8194, 8195, 8196, 8197, 8198,
        8199, 8200, 8201, 8202, 8232, 8233, 8239, 8287, 12288, 65279]) ∧
    (∀ (s : String) (pre core post : List Char),
      s.data = pre ++ core ++ post →
      (∀ c ∈ pre, isJsWhitespace c = true) → (∀ c ∈ post, isJsWhitespace c = true) →
      (∀ c, core.head? = some c → isJsWhitespace c = false) →
      (∀ c, core.getLast? = some c → isJsWhitespace c = false) →
      jsTrim s = String.mk core) ∧
    (∀ (p : String) (pre mid name post : List Char),
      p = "skill:" ∨ p = "tool:" →
      message.body.data = pre ++ p.data ++ mid ++ name ++ post →
      (∀ c ∈ pre, isJsWhitespace c = true) → (∀ c ∈ mid, isJsWhitespace c = true) →
      (∀ c ∈ post, isJsWhitespace c = true) → name ≠ [] →
      (∀ c, name.head? = some c → isJsWhitespace c = false) →
      (∀ c, name.getLast? = some c → isJsWhitespace c = false) →
      jsTrim message.body = String.mk (p.data ++ mid ++ name) ∧
      jsStartsWith (jsTrim message.body) p = true ∧
      (p = "tool:" → jsStartsWith (jsTrim message.body) "skill:" = false) ∧
      jsTrim (String.mk ((jsTrim message.body).data.drop p.length)) = String.mk name) ∧
    (jsStartsWith (jsTrim message.body) "skill:" = true →
      jsRemoveFirst (jsTrim message.body) "skill:" =
        String.mk ((jsTrim message.body).data.drop 6) ∧
      ∀ (run : SkillRun) (rt1 : Runtime),
        skills.execute env toolRegistry skillRegistry later rt
          (jsTrim (String.mk ((jsTrim message.body).data.drop 6)))
          (Value.obj [("message", message.toValue)]) = (Except.ok run, rt1) →
        ∃ d : Decision,
          (processMessage env toolRegistry skillRegistry now later rt message).1 =
            Except.ok d ∧
          d.id = message.id ∧ d.action = "skill" ∧
          d.reason = "Executed skill " ++
            jsTrim (String.mk ((jsTrim message.body).data.drop 6)) ∧
          d.result = some (Outcome.skill run)) ∧
    (jsStartsWith (jsTrim message.body) "skill:" = false →
      jsStartsWith (jsTrim message.body) "tool:" = true →
      jsRemoveFirst (jsTrim message.body) "tool:" =
        String.mk ((jsTrim message.body).data.drop 5) ∧
      ∀ (out : Value) (rt1 : Runtime),
        tools.invoke env toolRegistry rt
          (jsTrim (String.mk ((jsTrim message.body).data.drop 5))) (Value.obj []) =
            (Except.ok out, rt1) →
        ∃ d : Decision,
          (processMessage env toolRegistry skillRegistry now later rt message).1 =
            Except.ok d ∧
          d.id = message.id ∧ d.action = "tool" ∧
          d.reason = "Executed tool " ++
            jsTrim (String.mk ((jsTrim message.body).data.drop 5)) ∧
          d.result = some (Outcome.tool out)) ∧
    (jsStartsWith (jsTrim message.body) "skill:" = false →
      jsStartsWith (jsTrim message.body) "tool:" = false →
      ∃ d : Decision,
        (processMessage env toolRegistry skillRegistry now later rt message).1 =
          Except.ok d ∧
        d.id = message.id ∧ d.action = "pending-review" ∧
        d.reason = "No matching skill/tool command" ∧ d.result = none ∧
        pendingReview (processMessage env toolRegistry skillRegistry now later rt message).2 =
          sliceLast 500 (pendingReview rt ++
            [{ message := message, reason := "No matching skill/tool command",
               queuedAt := later }]) ∧
        (pendingReview
          (processMessage env toolRegistry skillRegistry now later rt message).2).getLast? =
          some { message := message, reason := "No matching skill/tool command",
                 queuedAt := later } ∧
        (processMessage env toolRegistry skillRegistry now later rt message).2.log.filter
            (fun l => l.tag == "TOOLS" || l.tag == "SKILLS") =
          rt.log.filter (fun l => l.tag == "TOOLS" || l.tag == "SKILLS")) := by
  refine ⟨isJsWhitespace_iff, ?_, ?_, ?_, ?_, ?_⟩
  · intro s pre core post hs hpre hpost hhead hlast
    unfold jsTrim
    rw [hs, trimChars_spec pre core post hpre hpost hhead hlast]
  · intro p pre mid name post hp hb hpre hmid hpost hne hhead hlast
    obtain ⟨a, as, hpd, hpa, hpl, hsk⟩ : ∃ a as, p.data = a :: as ∧
        isJsWhitespace a = false ∧ p.length = (a :: as).length ∧
        (p = "tool:" → ∀ rest : List Char, "skill:".data.isPrefixOf (a :: rest) = false) := by
      rcases hp with rfl | rfl
      · exact ⟨'s', _, rfl, by decide, rfl, fun h => absurd h (by decide)⟩
      · exact ⟨'t', _, rfl, by decide, rfl, fun _ rest => by
          show (('s' :: "kill:".data).isPrefixOf ('t' :: rest)) = false
          rw [List.isPrefixOf]
          simp⟩
    have hcore : trimChars message.body.data = p.data ++ mid ++ name := by
      have hb2 : message.body.data = pre ++ (p.data ++ mid ++ name) ++ post := by
        rw [hb]; simp only [List.append_assoc]
      rw [hb2]
      refine trimChars_spec pre _ post hpre hpost ?_ ?_
      · intro c hc
        rw [hpd] at hc
        simp only [List.cons_append, List.head?_cons, Option.some.injEq] at hc
        rw [← hc]; exact hpa
      · intro c hc
        rw [List.getLast?_append_of_ne_nil _ hne] at hc
        exact hlast c hc
    have htrim : jsTrim message.body = String.mk (p.data ++ mid ++ name) := by
      unfold jsTrim; rw [hcore]
    refine ⟨htrim, ?_, ?_, ?_⟩
    · rw [htrim]; unfold jsStartsWith
      rw [List.append_assoc]
      exact ( List.isPrefixOf_iff_prefix).mpr (List.prefix_append _ _)
    · intro ht
      rw [htrim]; unfold jsStartsWith
      show "skill:".data.isPrefixOf (p.data ++ mid ++ name) = false
      rw [hpd]
      exact hsk ht _
    · rw [htrim]
      show jsTrim (String.mk ((p.data ++ mid ++ name).drop p.length)) = String.mk name
      have hd : (p.data ++ mid ++ name).drop p.length = mid ++ name := by
        rw [List.append_assoc]
        exact List.drop_left _ _
      rw [hd]
      unfold jsTrim
      have := trimChars_spec mid name [] hmid (fun c hc => absurd hc (List.not_mem_nil c))
        hhead hlast
      rw [List.append_nil] at this
      rw [this]
  · intro hs
    have hrem : jsRemoveFirst (jsTrim message.body) "skill:" =
        String.mk ((jsTrim message.body).data.drop 6) :=
      jsRemoveFirst_of_starts (jsTrim message.body) "skill:" (by decide) hs
    refine ⟨hrem, fun run rt1 hx => ?_⟩
    rw [← hrem] at hx ⊢
    rw [processMessage_skill_ok env toolRegistry skillRegistry now later rt message run rt1
      hs hx]
    refine ⟨_, (recordDecision_result env rt1 message _).1, ?_, ?_, ?_, ?_⟩
    · rw [(annotateAutosend_fields env _).1]; rfl
    · rw [(annotateAutosend_fields env _).2.1]
    · rw [(annotateAutosend_fields env _).2.2.1]
    · rw [(annotateAutosend_fields env _).2.2.2]
  · intro hs ht
    have hrem : jsRemoveFirst (jsTrim message.body) "tool:" =
        String.mk ((jsTrim message.body).data.drop 5) :=
      jsRemoveFirst_of_starts (jsTrim message.body) "tool:" (by decide) ht
    refine ⟨hrem, fun out rt1 hx => ?_⟩
    rw [← hrem] at hx ⊢
    rw [processMessage_tool_ok env toolRegistry skillRegistry now later rt message out rt1
      hs ht hx]
    refine ⟨_, (recordDecision_result env rt1 message _).1, ?_, ?_, ?_, ?_⟩
    · rw [(annotateAutosend_fields env _).1]; rfl
    · rw [(annotateAutosend_fields env _).2.1]
    · rw [(annotateAutosend_fields env _).2.2.1]
    · rw [(annotateAutosend_fields env _).2.2.2]
  · intro hs ht
    rw [processMessage_review env toolRegistry skillRegistry now later rt message hs ht]
    have hr := recordDecision_result env
      (queueForReview env later rt message (initialDecision now message).reason) message
      (initialDecision now message)
    have hq := queueForReview_lists env later rt message (initialDecision now message).reason
    have hrem := rememberDecision_history env
      (queueForReview env later rt message (initialDecision now message).reason)
      (annotateAutosend env (initialDecision now message))
    have hpr := pendingReview_congr _ _ hr.2.1
    refine ⟨_, hr.1, ?_, ?_, ?_, ?_, ?_, ?_, ?_⟩
    · rw [(annotateAutosend_fields env _).1]; rfl
    · rw [(annotateAutosend_fields env _).2.1]; rfl
    · rw [(annotateAutosend_fields env _).2.2.1]; rfl
    · rw [(annotateAutosend_fields env _).2.2.2]; rfl
    · rw [hpr, hrem.2.1, hq.1]; rfl
    · rw [hpr, hrem.2.1, hq.1]
      exact sliceLast_append_last 500 _ _ (by decide)
    · obtain ⟨e1, hl1, he1⟩ := queueForReview_log env later rt message
        (initialDecision now message).reason
      obtain ⟨e2, hl2, he2⟩ := rememberDecision_log env
        (queueForReview env later rt message (initialDecision now message).reason)
        (annotateAutosend env (initialDecision now message))
      rw [hr.2.2, hl2, hl1]
      simp only [List.filter_append, filter_dispatch_memory e1 he1,
        filter_dispatch_memory e2 he2, List.append_nil]
      simp

/-- Witness for C8. The body of two blanks, `tool:`, two blanks, `system-status`, a blank
and a line feed is trimmed to `tool:  system-status`, yields a `tool` decision whose
reason is `Executed tool system-status` and whose result carries the hostname; the body
of a tab, `skill:`, a blank, `status-only` and two blanks yields a `skill` decision whose
reason is `Executed skill status-only`; the body `please help` yields a `pending-review` decision and the message is the last entry of the
`pending-review` list. -/
theorem processMessage_classifies_witness :
    (jsTrim msgToolSpaced.body = "tool:  system-status" ∧
      jsStartsWith (jsTrim msgToolSpaced.body) "tool:" = true ∧
      jsStartsWith (jsTrim msgToolSpaced.body) "skill:" = false ∧
      jsTrim (String.mk ((jsTrim msgToolSpaced.body).data.drop 5)) = "system-status") ∧
    (∃ d : Decision,
      (processMessage envSafe demoTools demoSkills "t1" "t2" rtFresh msgToolSpaced).1 =
        Except.ok d ∧
      d.id = "m4" ∧ d.action = "tool" ∧
      d.reason = "Executed tool system-status" ∧
      d.result = some (Outcome.tool (Value.obj [("hostname", Value.str "host-1")]))) ∧
    (∃ d : Decision,
      (processMessage envSafe demoTools demoSkills "t1" "t2" rtFresh msgSkillSpaced).1 =
        Except.ok d ∧
      d.id = "m5" ∧ d.action = "skill" ∧
      d.reason = "Executed skill status-only" ∧
      d.result = some (Outcome.skill
        { name := "status-only",
          results := [{ step := "system-status",
                        output := Value.obj [("hostname", Value.str "host-1")] }],
          ranAt := "t2" })) ∧
    (∃ d : Decision,
      (processMessage envSafe demoTools demoSkills "t1" "t2" rtFresh msgHelp).1 =
        Except.ok d ∧
      d.id = "m3" ∧ d.action = "pending-review" ∧
      d.reason = "No matching skill/tool command" ∧ d.result = none ∧
      pendingReview (processMessage envSafe demoTools demoSkills "t1" "t2" rtFresh msgHelp).2 =
        sliceLast 500 (pendingReview rtFresh ++
          [{ message := msgHelp, reason := "No matching skill/tool command",
             queuedAt := "t2" }]) ∧
      (pendingReview
        (processMessage envSafe demoTools demoSkills "t1" "t2" rtFresh msgHelp).2).getLast? =
        some { message := msgHelp, reason := "No matching skill/tool command",
               queuedAt := "t2" } ∧
      (processMessage envSafe demoTools demoSkills "t1" "t2" rtFresh msgHelp).2.log.filter
          (fun l => l.tag == "TOOLS" || l.tag == "SKILLS") =
        rtFresh.log.filter (fun l => l.tag == "TOOLS" || l.tag == "SKILLS")) :=
  ⟨(fun h => ⟨h.1, h.2.1, h.2.2.1 rfl, h.2.2.2⟩)
      ((processMessage_classifies envSafe demoTools demoSkills "t1" "t2" rtFresh
        msgToolSpaced).2.2.1 "tool:" [' ', ' '] [' ', ' '] "system-status".data [' ', '\n']
        (Or.inr rfl) rfl (by decide) (by decide) (by decide) (by decide) (by decide)
        (by decide)),
   ((processMessage_classifies envSafe demoTools demoSkills "t1" "t2" rtFresh
      msgToolSpaced).2.2.2.2.1 (by decide) (by decide)).2
      (Value.obj [("hostname", Value.str "host-1")])
      (rtFresh.logLine "TOOLS" "Invoking tool 'system-status'" "INFO") rfl,
   ((processMessage_classifies envSafe demoTools demoSkills "t1" "t2" rtFresh
      msgSkillSpaced).2.2.2.1 (by decide)).2
      { name := "status-only",
        results := [{ step := "system-status",
                      output := Value.obj [("hostname", Value.str "host-1")] }],
        ranAt := "t2" }
      (skills.execute envSafe demoTools demoSkills "t2" rtFresh "status-only"
        (Value.obj [("message", msgSkillSpaced.toValue)])).2 rfl,
   (processMessage_classifies envSafe demoTools demoSkills "t1" "t2" rtFresh
      msgHelp).2.2.2.2.2 (by decide) (by decide)⟩

/-- C9, the failing input. With `RALPH_AUTOSEND` unset, a message naming an unregistered
tool makes `tools.invoke` throw; the decision that `processMessage` then records has
action `failed` and carries neither `autosend` nor `note`, while the decision recorded for
a registered tool carries `autosend = false` and the note. -/
theorem processMessage_failed_lacks_autosend :
    envSafe.RALPH_AUTOSEND ≠ some "true" ∧
    (taskHistory
        (processMessage envSafe demoTools demoSkills "t1" "t2" rtFresh msgToolNope).2).map
      (fun d => (d.id, d.action, d.reason, d.autosend, d.note)) =
      [("m2", "failed", "Unknown tool: nope", none, none)] ∧
    (taskHistory
        (processMessage envSafe demoTools demoSkills "t1" "t2" rtFresh msgToolStatus).2).map
      (fun d => (d.id, d.action, d.autosend, d.note)) =
      [("m1", "tool", some false, some "No outbound actions without RALPH_AUTOSEND=true")] := by
  refine ⟨by decide, by decide, by decide⟩

/-- The decision recorded on the failure path is the initial decision with action and
reason replaced: whatever `RALPH_AUTOSEND` is, it carries neither `autosend` nor
`note`. -/
theorem processMessage_error_entry (env : Env) (toolRegistry : List Tool)
    (skillRegistry : List Skill) (now later : String) (rt : Runtime) (message : Message)
    (err : String)
    (h : (processMessage env toolRegistry skillRegistry now later rt message).1 =
      Except.error err) :
    (taskHistory
      (processMessage env toolRegistry skillRegistry now later rt message).2).getLast? =
      some { initialDecision now message with action := "failed", reason := err } := by
  have key : ∀ (rt1 : Runtime) (e : String),
      processMessage env toolRegistry skillRegistry now later rt message =
        recordFailure env rt1 message (initialDecision now message) e →
      (taskHistory
        (processMessage env toolRegistry skillRegistry now later rt message).2).getLast? =
        some { initialDecision now message with action := "failed", reason := err } := by
    intro rt1 e hp
    rw [hp] at h ⊢
    have he : e = err := by
      have := (recordFailure_result env rt1 message (initialDecision now message) e).1
      rw [this] at h
      exact Except.error.inj h
    subst he
    rw [taskHistory_congr _ _
      (recordFailure_result env rt1 message (initialDecision now message) e).2,
      (rememberDecision_history env rt1 _).1]
    exact sliceLast_append_last 500 _ _ (by decide)
  have nok : ∀ (rt1 : Runtime) (d : Decision),
      processMessage env toolRegistry skillRegistry now later rt message =
        recordDecision env rt1 message d → False := by
    intro rt1 d hp
    rw [hp, (recordDecision_result env rt1 message d).1] at h
    cases h
  cases hs : jsStartsWith (jsTrim message.body) "skill:" with
  | true =>
    cases hx : skills.execute env toolRegistry skillRegistry later rt
      (jsTrim (jsRemoveFirst (jsTrim message.body) "skill:"))
      (Value.obj [("message", message.toValue)]) with
    | mk res rt1 =>
      cases res with
      | ok run =>
        exact (nok _ _ (processMessage_skill_ok env toolRegistry skillRegistry now later rt
          message run rt1 hs hx)).elim
      | error e =>
        exact key rt1 e (processMessage_skill_err env toolRegistry skillRegistry now later rt
          message e rt1 hs hx)
  | false =>
    cases ht : jsStartsWith (jsTrim message.body) "tool:" with
    | true =>
      cases hx : tools.invoke env toolRegistry rt
        (jsTrim (jsRemoveFirst (jsTrim message.body) "tool:")) (Value.obj []) with
      | mk res rt1 =>
        cases res with
        | ok out =>
          exact (nok _ _ (processMessage_tool_ok env toolRegistry skillRegistry now later rt
            message out rt1 hs ht hx)).elim
        | error e =>
          exact key rt1 e (processMessage_tool_err env toolRegistry skillRegistry now later
            rt message e rt1 hs ht hx)
    | false =>
      exact (nok _ _ (processMessage_review env toolRegistry skillRegistry now later rt
        message hs ht)).elim

/-- The decision returned on a path without failure is the last entry of the history and,
unless `RALPH_AUTOSEND` is `true`, carries `autosend = false` and the note. -/
theorem processMessage_ok_entry (env : Env) (toolRegistry : List Tool)
    (skillRegistry : List Skill) (now later : String) (rt : Runtime) (message : Message)
    (d : Decision)
    (hflag : env.RALPH_AUTOSEND ≠ some "true")
    (h : (processMessage env toolRegistry skillRegistry now later rt message).1 =
      Except.ok d) :
    (taskHistory
      (processMessage env toolRegistry skillRegistry now later rt message).2).getLast? =
      some d ∧
    d.autosend = some false ∧
    d.note = some "No outbound actions without RALPH_AUTOSEND=true" := by
  obtain ⟨rt1, d0, _, _, _, hshape⟩ :=
    processMessage_shape env toolRegistry skillRegistry now later rt message
  rcases hshape with hp | ⟨e, hp⟩
  · rw [hp] at h ⊢
    have hd : annotateAutosend env d0 = d := by
      rw [(recordDecision_result env rt1 message d0).1] at h
      exact Except.ok.inj h
    refine ⟨?_, ?_, ?_⟩
    · rw [taskHistory_congr _ _ (recordDecision_result env rt1 message d0).2.1,
        (rememberDecision_history env rt1 _).1, hd]
      exact sliceLast_append_last 500 _ _ (by decide)
    · rw [← hd]
      simp [annotateAutosend, hflag]
    · rw [← hd]
      simp [annotateAutosend, hflag]
  · rw [hp, (recordFailure_result env rt1 message d0 e).1] at h
    cases h

/-! ## Capped lists -/

theorem sliceLast_length_le {α : Type} (n : Nat) (xs : List α) :
    (sliceLast n xs).length ≤ n := by
  unfold sliceLast
  rw [List.length_drop]
  omega

/-- Keeping the last `n` entries after an append: the oldest `n - 1` survivors come from
the old list. -/
theorem sliceLast_append_one {α : Type} (n : Nat) (xs : List α) (x : α) (hn : 0 < n) :
    sliceLast n (xs ++ [x]) = sliceLast (n - 1) xs ++ [x] := by
  unfold sliceLast
  rw [List.drop_append_of_le_length (by simp; omega)]
  congr 2
  simp
  omega

/-- Cutting twice is cutting once. -/
theorem sliceLast_sliceLast_append {α : Type} (n : Nat) (xs ys : List α) :
    sliceLast n (sliceLast n xs ++ ys) = sliceLast n (xs ++ ys) := by
  unfold sliceLast
  simp only [List.length_append, List.length_drop, List.drop_append_eq_append_drop,
    List.drop_drop]
  congr 2 <;> omega

theorem rememberAll_cons (env : Env) (rt : Runtime) (e : Decision) (es : List Decision) :
    rememberAll env rt (e :: es) = rememberAll env (rememberDecision env rt e) es := rfl

theorem queueAll_cons (env : Env) (rt : Runtime) (e : ReviewEntry) (es : List ReviewEntry) :
    queueAll env rt (e :: es) =
      queueAll env (queueForReview env e.queuedAt rt e.message e.reason) es := rfl

/-- The history after a non-empty run of `rememberDecision` calls. -/
theorem rememberAll_history (env : Env) (es : List Decision) :
    ∀ (rt : Runtime) (e : Decision),
      taskHistory (rememberAll env rt (e :: es)) = sliceLast 500 (taskHistory rt ++ e :: es) := by
  induction es with
  | nil =>
    intro rt e
    exact (rememberDecision_history env rt e).1
  | cons e2 es ih =>
    intro rt e
    rw [rememberAll_cons, ih, (rememberDecision_history env rt e).1,
      sliceLast_sliceLast_append]
    simp

/-- The review list after a non-empty run of `queueForReview` calls. -/
theorem queueAll_review (env : Env) (es : List ReviewEntry) :
    ∀ (rt : Runtime) (e : ReviewEntry),
      pendingReview (queueAll env rt (e :: es)) =
        sliceLast 500 (pendingReview rt ++ e :: es) := by
  induction es with
  | nil =>
    intro rt e
    exact (queueForReview_lists env e.queuedAt rt e.message e.reason).1
  | cons e2 es ih =>
    intro rt e
    rw [queueAll_cons, ih, (queueForReview_lists env e.queuedAt rt e.message e.reason).1,
      sliceLast_sliceLast_append]
    simp

/-- C11. After `rememberDecision` the `_taskHistory` list has at most 500 entries, its
last entry is the new one, and it is the old list followed by the new entry, cut to its
last 500 entries: the last 499 entries of the old list followed by the new entry, and the
whole old list followed by the new entry when the old list has fewer than 500 entries.
The same holds for `queueForReview` and the `pending-review` list. After any non-empty
run of such calls the list is the old list followed by all new entries, cut to its last
500 entries, so the oldest entries go first. -/
theorem capped_lists (env : Env) (rt : Runtime) (entry : Decision) (more : List Decision)
    (message : Message) (reason queuedAt : String) (moreReviews : List ReviewEntry) :
    ((taskHistory (rememberDecision env rt entry)).length ≤ 500 ∧
      (taskHistory (rememberDecision env rt entry)).getLast? = some entry ∧
      taskHistory (rememberDecision env rt entry) =
        sliceLast 500 (taskHistory rt ++ [entry]) ∧
      taskHistory (rememberDecision env rt entry) =
        sliceLast 499 (taskHistory rt) ++ [entry] ∧
      ((taskHistory rt).length < 500 →
        taskHistory (rememberDecision env rt entry) = taskHistory rt ++ [entry])) ∧
    ((pendingReview (queueForReview env queuedAt rt message reason)).length ≤ 500 ∧
      (pendingReview (queueForReview env queuedAt rt message reason)).getLast? =
        some { message := message, reason := reason, queuedAt := queuedAt } ∧
      pendingReview (queueForReview env queuedAt rt message reason) =
        sliceLast 500 (pendingReview rt ++
          [{ message := message, reason := reason, queuedAt := queuedAt }]) ∧
      pendingReview (queueForReview env queuedAt rt message reason) =
        sliceLast 499 (pendingReview rt) ++
          [{ message := message, reason := reason, queuedAt := queuedAt }] ∧
      ((pendingReview rt).length < 500 →
        pendingReview (queueForReview env queuedAt rt message reason) =
          pendingReview rt ++
            [{ message := message, reason := reason, queuedAt := queuedAt }])) ∧
    (taskHistory (rememberAll env rt (entry :: more)) =
        sliceLast 500 (taskHistory rt ++ entry :: more) ∧
      (taskHistory (rememberAll env rt (entry :: more))).length ≤ 500) ∧
    (pendingReview (queueAll env rt
        ({ message := message, reason := reason, queuedAt := queuedAt } :: moreReviews)) =
        sliceLast 500 (pendingReview rt ++
          { message := message, reason := reason, queuedAt := queuedAt } :: moreReviews) ∧
      (pendingReview (queueAll env rt
        ({ message := message, reason := reason, queuedAt := queuedAt } ::
          moreReviews))).length ≤ 500) := by
  have h1 := (rememberDecision_history env rt entry).1
  have h2 := (queueForReview_lists env queuedAt rt message reason).1
  refine ⟨⟨?_, ?_, h1, ?_, ?_⟩, ⟨?_, ?_, h2, ?_, ?_⟩, ⟨?_, ?_⟩, ⟨?_, ?_⟩⟩
  · rw [h1]; exact sliceLast_length_le 500 _
  · rw [h1]; exact sliceLast_append_last 500 _ _ (by decide)
  · rw [h1]; exact sliceLast_append_one 500 _ _ (by decide)
  · intro hlen
    rw [h1]
    exact sliceLast_of_le 500 _ (by simp; omega)
  · rw [h2]; exact sliceLast_length_le 500 _
  · rw [h2]; exact sliceLast_append_last 500 _ _ (by decide)
  · rw [h2]; exact sliceLast_append_one 500 _ _ (by decide)
  · intro hlen
    rw [h2]
    exact sliceLast_of_le 500 _ (by simp; omega)
  · exact rememberAll_history env more rt entry
  · rw [rememberAll_history env more rt entry]; exact sliceLast_length_le 500 _
  · exact queueAll_review env moreReviews rt _
  · rw [queueAll_review env moreReviews rt _]; exact sliceLast_length_le 500 _

/-! ## DecisionRouter: `processNext` -/

theorem setStatusAt_split (status : String) (pre post : List Message) (m2 : Message) :
    setStatusAt status pre.length (pre ++ m2 :: post) =
      pre ++ { m2 with status := status } :: post := by
  induction pre with
  | nil => rfl
  | cons a pre ih => simp [setStatusAt, ih]

theorem findIdx_pending_split (pre post : List Message) (m : Message)
    (hm : m.status = "pending") (hpre : ∀ x ∈ pre, x.status ≠ "pending") :
    (pre ++ m :: post).findIdx (fun q => q.status == "pending") = pre.length := by
  induction pre with
  | nil => simp [List.findIdx_cons, hm]
  | cons a pre ih =>
    have ha : a.status ≠ "pending" := hpre a (by simp)
    rw [List.cons_append, List.findIdx_cons]
    have hb : (a.status == "pending") = false := by simp [ha]
    rw [hb, ih (fun x hx => hpre x (by simp [hx]))]
    rfl

/-- An admitted call of `next` with a pending message. -/
theorem next_admitted_some (cfg : InboxConfig) (now : Int) (s : Inbox) (m : Message)
    (hadm : (_rateAllowed cfg now s).1 = true) (hpeek : peek s = some m) :
    next cfg now s = (some { m with status := "processing" },
      { (_rateAllowed cfg now s).2 with queue := markFirstPending s.queue }) := by
  have hq := rateAllowed_queue cfg now s
  have hp : s.queue.find? (fun q => q.status == "pending") = some m := hpeek
  simp only [next, hadm, Bool.not_true, Bool.false_eq_true, if_false, hq, hp]

/-- A call of `next` that yields nothing leaves the queue as it was and the rate-limiter
fields as `_rateAllowed` left them. -/
theorem next_none (cfg : InboxConfig) (now : Int) (s : Inbox)
    (h : (next cfg now s).1 = none) :
    (next cfg now s).2.queue = s.queue ∧
    (next cfg now s).2.processedThisWindow = (_rateAllowed cfg now s).2.processedThisWindow ∧
    (next cfg now s).2.windowStarted = (_rateAllowed cfg now s).2.windowStarted := by
  refine ⟨?_, (next_rate_fields cfg now s).1, (next_rate_fields cfg now s).2⟩
  cases hadm : (_rateAllowed cfg now s).1 with
  | false => exact (next_refused cfg now s hadm).2
  | true =>
    cases hp : peek s with
    | none =>
      have hq := rateAllowed_queue cfg now s
      have hp2 : s.queue.find? (fun q => q.status == "pending") = none := hp
      simp only [next, hadm, Bool.not_true, Bool.false_eq_true, if_false, hq, hp2]
    | some m =>
      rw [next_admitted_some cfg now s m hadm hp] at h
      cases h

/-- C12. `processNext` never rejects. For a message `m` that `next` dequeues (the call is
admitted and `m` is the first pending message of the queue): when `processMessage`
returns a decision, `processNext` returns that decision and the status of `m` in the
queue is `completed`; when `processMessage` throws, `processNext` returns nothing and the
status of `m` in the queue is `failed`. In both cases the rest of the queue is as
before and the runtime is the one `processMessage` leaves. -/
theorem processNext_marks_status (env : Env) (toolRegistry : List Tool)
    (skillRegistry : List Skill) (cfg : InboxConfig) (nowMs : Int) (now later : String)
    (inbox : Inbox) (rt : Runtime) (m : Message)
    (hadm : (_rateAllowed cfg nowMs inbox).1 = true) (hpeek : peek inbox = some m) :
    (∀ e : String,
      (processNext env toolRegistry skillRegistry cfg nowMs now later inbox rt).1 ≠
        Except.error e) ∧
    ∃ pre post : List Message,
      inbox.queue = pre ++ m :: post ∧
      (∀ x ∈ pre, x.status ≠ "pending") ∧
      m.status = "pending" ∧
      (∀ (d : Decision) (rt1 : Runtime),
        processMessage env toolRegistry skillRegistry now later rt
          { m with status := "processing" } = (Except.ok d, rt1) →
        (processNext env toolRegistry skillRegistry cfg nowMs now later inbox rt).1 =
          Except.ok (some d) ∧
        (processNext env toolRegistry skillRegistry cfg nowMs now later inbox rt).2.1.queue =
          pre ++ { m with status := "completed" } :: post ∧
        (processNext env toolRegistry skillRegistry cfg nowMs now later inbox rt).2.2 = rt1) ∧
      (∀ (e : String) (rt1 : Runtime),
        processMessage env toolRegistry skillRegistry now later rt
          { m with status := "processing" } = (Except.error e, rt1) →
        (processNext env toolRegistry skillRegistry cfg nowMs now later inbox rt).1 =
          Except.ok none ∧
        (processNext env toolRegistry skillRegistry cfg nowMs now later inbox rt).2.1.queue =
          pre ++ { m with status := "failed" } :: post ∧
        (processNext env toolRegistry skillRegistry cfg nowMs now later inbox rt).2.2 = rt1) := by
  have hnext := next_admitted_some cfg nowMs inbox m hadm hpeek
  obtain ⟨hst, pre, post, hsplit, hpre, hmark⟩ := find_pending_split inbox.queue m hpeek
  have hidx : inbox.queue.findIdx (fun q => q.status == "pending") = pre.length := by
    rw [hsplit]; exact findIdx_pending_split pre post m hst hpre
  refine ⟨?_, pre, post, hsplit, hpre, hst, ?_, ?_⟩
  · intro e
    simp only [processNext, hnext]
    cases hx : processMessage env toolRegistry skillRegistry now later rt
        { m with status := "processing" } with
    | mk res rt1 =>
      cases res with
      | ok d => simp
      | error e2 => simp
  · intro d rt1 hx
    simp only [processNext, hnext, hx, hidx, hmark, setStatusAt_split, and_self]
  · intro e rt1 hx
    simp only [processNext, hnext, hx, hidx, hmark, setStatusAt_split, and_self]

/-- Witness for C12: the first of two pending messages is dequeued. -/
theorem processNext_marks_status_witness :
    (processNext envSafe demoTools demoSkills cfgOnePerMinute 10 "t1" "t2"
        inboxAB rtFresh).1 ≠ Except.error "boom" ∧
    ∃ pre post : List Message,
      inboxAB.queue = pre ++ msgA :: post ∧
      (∀ x ∈ pre, x.status ≠ "pending") ∧
      msgA.status = "pending" :=
  let h := processNext_marks_status envSafe demoTools demoSkills cfgOnePerMinute 10 "t1" "t2"
    inboxAB rtFresh msgA (by decide) (by decide)
  ⟨h.1 "boom",
    let ⟨pre, post, h1, h2, h3, _⟩ := h.2
    ⟨pre, post, h1, h2, h3⟩⟩

/-- C13, counterexample. On an empty queue an admitted call of `next` yields no message,
`processNext` returns nothing, and the dequeue counter has gone from 0 to 1. -/
theorem processNext_idle_counterexample :
    (next cfgOnePerMinute 10 (Inbox.init 0)).1 = none ∧
    (processNext envSafe demoTools demoSkills cfgOnePerMinute 10 "t1" "t2"
      (Inbox.init 0) rtFresh).2.1.processedThisWindow = 1 ∧
    (Inbox.init 0).processedThisWindow = 0 ∧
    ¬ ((processNext envSafe demoTools demoSkills cfgOnePerMinute 10 "t1" "t2"
      (Inbox.init 0) rtFresh).2.1.processedThisWindow =
        (Inbox.init 0).processedThisWindow) := by
  refine ⟨by decide, by decide, by decide, by decide⟩

/-- C13, amended. When `next` yields no message, `processNext` returns nothing and leaves
the queue and the runtime (memory store included) as they were. The rate-limiter state is
the one `_rateAllowed` leaves: unchanged when the call is refused inside the current
window, but an admitted call that finds no pending message has counted against the quota
(and has restarted the window if it had expired). -/
theorem processNext_idle (env : Env) (toolRegistry : List Tool)
    (skillRegistry : List Skill) (cfg : InboxConfig) (nowMs : Int) (now later : String)
    (inbox : Inbox) (rt : Runtime)
    (hnone : (next cfg nowMs inbox).1 = none) :
    (processNext env toolRegistry skillRegistry cfg nowMs now later inbox rt).1 =
      Except.ok none ∧
    (processNext env toolRegistry skillRegistry cfg nowMs now later inbox rt).2.1.queue =
      inbox.queue ∧
    (processNext env toolRegistry skillRegistry cfg nowMs now later inbox rt).2.2 = rt ∧
    ((_rateAllowed cfg nowMs inbox).1 = false → nowMs - inbox.windowStarted < 60000 →
      (processNext env toolRegistry skillRegistry cfg nowMs now later
          inbox rt).2.1.processedThisWindow = inbox.processedThisWindow ∧
      (processNext env toolRegistry skillRegistry cfg nowMs now later
          inbox rt).2.1.windowStarted = inbox.windowStarted) ∧
    ((_rateAllowed cfg nowMs inbox).1 = true →
      (processNext env toolRegistry skillRegistry cfg nowMs now later
          inbox rt).2.1.processedThisWindow =
        (if nowMs - inbox.windowStarted ≥ 60000 then 0 else inbox.processedThisWindow) + 1 ∧
      (processNext env toolRegistry skillRegistry cfg nowMs now later
          inbox rt).2.1.windowStarted =
        (if nowMs - inbox.windowStarted ≥ 60000 then nowMs else inbox.windowStarted)) := by
  have hpn : processNext env toolRegistry skillRegistry cfg nowMs now later inbox rt =
      (Except.ok none, (next cfg nowMs inbox).2, rt) := by
    cases hx : next cfg nowMs inbox with
    | mk res inbox1 =>
      rw [hx] at hnone
      have : res = none := hnone
      subst this
      simp only [processNext, hx]
  have hn := next_none cfg nowMs inbox hnone
  rw [hpn]
  refine ⟨rfl, hn.1, rfl, ?_, ?_⟩
  · intro href hwin
    have hr := rateAllowed_in_window cfg nowMs inbox hwin
    simp only [hn.2.1, hn.2.2]
    rw [hr] at href ⊢
    by_cases hq : inbox.processedThisWindow ≥ cfg.ratePerMinute
    · rw [if_pos hq]; exact ⟨rfl, rfl⟩
    · rw [if_neg hq] at href; cases href
  · intro hadm
    simp only [hn.2.1, hn.2.2]
    unfold _rateAllowed at hadm ⊢
    by_cases hexp : nowMs - inbox.windowStarted ≥ 60000
    · simp only [hexp, if_true] at hadm ⊢
      split at hadm
      · cases hadm
      · rename_i hq
        rw [if_neg hq]
        exact ⟨rfl, rfl⟩
    · simp only [hexp, if_false] at hadm ⊢
      split at hadm
      · cases hadm
      · rename_i hq
        rw [if_neg hq]
        exact ⟨rfl, rfl⟩

/-- Witness for C13: the quota of one is used up, the next call in the window is
refused. -/
theorem processNext_idle_witness :
    (processNext envSafe demoTools demoSkills cfgOnePerMinute 20 "t1" "t2"
      { inboxAB with processedThisWindow := 1 } rtFresh).2.1.queue = inboxAB.queue :=
  (processNext_idle envSafe demoTools demoSkills cfgOnePerMinute 20 "t1" "t2"
    { inboxAB with processedThisWindow := 1 } rtFresh (by decide)).2.1

/-! ## ToolRegistry: `register` and `invoke` -/

theorem logLine_ne (rt : Runtime) (tag message level : String) :
    rt.logLine tag message level ≠ rt := by
  intro h
  have hl := congrArg (fun r => r.log.length) h
  simp [Runtime.logLine] at hl

theorem tools_mapGet_mapSet (tool : Tool) (registry : List Tool) (name : String) :
    tools.mapGet (tools.mapSet tool registry) name =
      if tool.name = name then some tool else tools.mapGet registry name := by
  induction registry with
  | nil =>
    by_cases h : tool.name = name <;> simp [tools.mapSet, tools.mapGet, h]
  | cons t rest ih =>
    unfold tools.mapGet at ih ⊢
    by_cases ht : t.name = tool.name
    · by_cases h : tool.name = name
      · simp [tools.mapSet, ht, h]
      · have h2 : ¬ t.name = name := by rw [ht]; exact h
        simp [tools.mapSet, ht, h]
    · by_cases h2 : t.name = name
      · have h : ¬ tool.name = name := by
          intro hc; exact ht (h2.trans hc.symm)
        have h3 : ¬ name = tool.name := fun hc => h hc.symm
        simp [tools.mapSet, h, h2, h3]
      · simp only [tools.mapSet, beq_iff_eq, ht, if_false, List.find?_cons, h2]
        have hb : (t.name == name) = false := by simp [h2]
        simp only [hb]
        exact ih

theorem tools_registerAll_cons (registry : List Tool) (t : Tool) (regs : List Tool) :
    tools.registerAll registry (t :: regs) =
      tools.registerAll (tools.mapSet t registry) regs := rfl

/-- The entry of a name after a run of registrations is the last registration under that
name, or the earlier entry when there is none. -/
theorem tools_mapGet_registerAll (regs : List Tool) :
    ∀ (registry : List Tool) (name : String),
      tools.mapGet (tools.registerAll registry regs) name =
        (regs.reverse.find? (fun t => t.name == name)).or (tools.mapGet registry name) := by
  induction regs with
  | nil => intro registry name; simp [tools.registerAll]
  | cons t regs ih =>
    intro registry name
    rw [tools_registerAll_cons, ih, tools_mapGet_mapSet, List.reverse_cons, List.find?_append]
    cases List.find? (fun t => t.name == name) regs.reverse with
    | some x => simp
    | none =>
      by_cases h : t.name = name <;> simp [h]

/-- C14. `invoke(name, args)` throws `Unknown tool: <name>`, without logging an
invocation, exactly when the registry has no entry for `name`. For a registered tool it
throws the write-guard error, without logging an invocation, exactly when the tool is
not read-only and `TOOLS_WRITE_ENABLED` is not `true`; in every other case it logs the
invocation and returns what the handler of the entry returns on `args`. The entry of a
name is the one registered last under that name. -/
theorem invoke_cases (env : Env) (registry : List Tool) (rt : Runtime) (name : String)
    (args : Value) (regs : List Tool) :
    (((tools.invoke env registry rt name args).1 = Except.error ("Unknown tool: " ++ name) ∧
        (tools.invoke env registry rt name args).2 = rt) ↔
      tools.mapGet registry name = none) ∧
    (∀ tool : Tool, tools.mapGet registry name = some tool →
      ((((tools.invoke env registry rt name args).1 =
            Except.error ("Tool '" ++ name ++ "' requires TOOLS_WRITE_ENABLED=true") ∧
          (tools.invoke env registry rt name args).2 = rt) ↔
        (tool.isReadOnly = false ∧ env.TOOLS_WRITE_ENABLED ≠ some "true")) ∧
      (¬ (tool.isReadOnly = false ∧ env.TOOLS_WRITE_ENABLED ≠ some "true") →
        (tools.invoke env registry rt name args).1 = tool.handler args ∧
        (tools.invoke env registry rt name args).2 =
          rt.logLine "TOOLS" ("Invoking tool '" ++ name ++ "'") "INFO"))) ∧
    (tools.mapGet (tools.registerAll [] regs) name =
      regs.reverse.find? (fun t => t.name == name)) := by
  refine ⟨?_, ?_, ?_⟩
  · cases hg : tools.mapGet registry name with
    | none => simp [tools.invoke, hg]
    | some tool =>
      simp only [reduceCtorEq, iff_false, not_and]
      intro h1
      by_cases hguard : (!tool.isReadOnly && env.TOOLS_WRITE_ENABLED != some "true") = true
      · simp only [tools.invoke, hg, hguard, if_true] at h1
        have := Except.error.inj h1
        have hlen := congrArg String.length this
        have l1 : "Tool '".length = 6 := by decide
        have l2 : "' requires TOOLS_WRITE_ENABLED=true".length = 35 := by decide
        have l3 : "Unknown tool: ".length = 14 := by decide
        simp only [String.length_append, l1, l2, l3] at hlen
        omega
      · simp only [tools.invoke, hg, hguard, if_false]
        exact logLine_ne rt _ _ _
  · intro tool hg
    have hcond : (!tool.isReadOnly && env.TOOLS_WRITE_ENABLED != some "true") = true ↔
        (tool.isReadOnly = false ∧ env.TOOLS_WRITE_ENABLED ≠ some "true") := by
      simp
    constructor
    · constructor
      · intro h
        by_contra hn
        have hguard : ¬ (!tool.isReadOnly && env.TOOLS_WRITE_ENABLED != some "true") = true :=
          fun hc => hn (hcond.mp hc)
        simp only [tools.invoke, hg, hguard, if_false] at h
        exact logLine_ne rt _ _ _ h.2
      · intro h
        simp only [tools.invoke, hg, hcond.mpr h, if_true, and_self]
    · intro hn
      have hguard : ¬ (!tool.isReadOnly && env.TOOLS_WRITE_ENABLED != some "true") = true :=
        fun hc => hn (hcond.mp hc)
      simp only [tools.invoke, hg, hguard, Bool.false_eq_true, if_false, and_self]
  · rw [tools_mapGet_registerAll]
    simp [tools.mapGet]

/-- Witness for C14: a tool registered as not read-only, invoked with the write flag
set. -/
theorem invoke_cases_witness :
    (tools.invoke envWrite writeTools rtFresh "purge-logs" (Value.obj [])).1 =
        (fun _ => Except.ok (Value.str "purged")) (Value.obj []) ∧
    (tools.invoke envWrite writeTools rtFresh "purge-logs" (Value.obj [])).2 =
      rtFresh.logLine "TOOLS" ("Invoking tool '" ++ "purge-logs" ++ "'") "INFO" :=
  ((invoke_cases envWrite writeTools rtFresh "purge-logs" (Value.obj []) []).2.1
    { name := "purge-logs", description := "Delete rotated logs", isReadOnly := false,
      handler := fun _ => Except.ok (Value.str "purged") } rfl).2 (by decide)

/-! ## SkillRegistry: `execute` -/

/-- The call `invoke` appends its lines to the log and changes nothing else. -/
theorem invoke_runtime (env : Env) (registry : List Tool) (rt : Runtime) (name : String)
    (args : Value) :
    (tools.invoke env registry rt name args).2 =
      { rt with log := rt.log ++ tools.invokeLines env registry name } := by
  unfold tools.invoke tools.invokeLines
  cases tools.mapGet registry name with
  | none => simp
  | some tool =>
    by_cases hg : (!tool.isReadOnly && env.TOOLS_WRITE_ENABLED != some "true") = true
    · simp [hg]
    · simp only [hg, Bool.false_eq_true, if_false]
      rfl

/-- The result of `invoke` does not depend on the runtime. -/
theorem invoke_result_indep (env : Env) (registry : List Tool) (rt rt2 : Runtime)
    (name : String) (args : Value) :
    (tools.invoke env registry rt name args).1 =
      (tools.invoke env registry rt2 name args).1 := by
  unfold tools.invoke
  cases tools.mapGet registry name with
  | none => rfl
  | some tool =>
    by_cases hg : (!tool.isReadOnly && env.TOOLS_WRITE_ENABLED != some "true") = true
    · simp [hg]
    · simp [hg]

/-- The loop of `execute` when every step of type `tool` succeeds. -/
theorem runSteps_ok (env : Env) (toolRegistry : List Tool) (context : Value)
    (steps : List Step) :
    ∀ (results : List StepResult) (rt : Runtime),
      (∀ step ∈ skills.toolSteps steps, ∃ out : Value, ∀ rt2 : Runtime,
        (tools.invoke env toolRegistry rt2 step.name (jsOr step.args context)).1 =
          Except.ok out) →
      ∃ outs : List StepResult,
        skills.runSteps env toolRegistry context steps results rt =
          (Except.ok (results ++ outs),
            { rt with log := rt.log ++
                skills.stepLines env toolRegistry (skills.toolSteps steps) }) ∧
        List.Forall₂ (fun (r : StepResult) (s : Step) => r.step = s.name ∧
            ∀ rt2 : Runtime,
              (tools.invoke env toolRegistry rt2 s.name (jsOr s.args context)).1 =
                Except.ok r.output)
          outs (skills.toolSteps steps) := by
  induction steps with
  | nil =>
    intro results rt _
    exact ⟨[], by simp [skills.runSteps, skills.toolSteps, skills.stepLines], List.Forall₂.nil⟩
  | cons step rest ih =>
    intro results rt hall
    by_cases ht : step.type = "tool"
    · have hf : skills.toolSteps (step :: rest) =
          step :: skills.toolSteps rest := by
        simp [skills.toolSteps, List.filter_cons, ht]
      rw [hf] at hall ⊢
      obtain ⟨out, hout⟩ := hall step (by simp)
      have hinv : tools.invoke env toolRegistry rt step.name (jsOr step.args context) =
          (Except.ok out,
            { rt with log := rt.log ++ tools.invokeLines env toolRegistry step.name }) := by
        rw [← invoke_runtime, ← hout rt]
      obtain ⟨outs, hrun, hfa⟩ := ih (results ++ [{ step := step.name, output := out }])
        { rt with log := rt.log ++ tools.invokeLines env toolRegistry step.name }
        (fun s hs => hall s (by simp [hs]))
      refine ⟨{ step := step.name, output := out } :: outs, ?_, ?_⟩
      · have hb : (step.type != "tool") = false := by simp [ht]
        simp only [skills.runSteps, hb, Bool.false_eq_true, if_false, hinv, hrun]
        simp [List.append_assoc, skills.stepLines]
      · exact List.Forall₂.cons ⟨rfl, hout⟩ hfa
    · have hf : skills.toolSteps (step :: rest) =
          skills.toolSteps rest := by
        simp [skills.toolSteps, List.filter_cons, ht]
      rw [hf] at hall ⊢
      obtain ⟨outs, hrun, hfa⟩ := ih results rt hall
      refine ⟨outs, ?_, hfa⟩
      have hb : (step.type != "tool") = true := by simp [ht]
      simp only [skills.runSteps, hb, if_true, hrun]

/-- The loop of `execute` when a step of type `tool` fails after the steps before it
succeeded: the error is that of the failing step, and only the steps up to it have
logged. -/
theorem runSteps_err (env : Env) (toolRegistry : List Tool) (context : Value)
    (steps : List Step) :
    ∀ (pre : List Step) (bad : Step) (post : List Step) (e : String)
      (results : List StepResult) (rt : Runtime),
      skills.toolSteps steps = pre ++ bad :: post →
      (∀ step ∈ pre, ∃ out : Value, ∀ rt2 : Runtime,
        (tools.invoke env toolRegistry rt2 step.name (jsOr step.args context)).1 =
          Except.ok out) →
      (∀ rt2 : Runtime,
        (tools.invoke env toolRegistry rt2 bad.name (jsOr bad.args context)).1 =
          Except.error e) →
      skills.runSteps env toolRegistry context steps results rt =
        (Except.error e,
          { rt with log := rt.log ++ skills.stepLines env toolRegistry (pre ++ [bad]) }) := by
  induction steps with
  | nil =>
    intro pre bad post e results rt hsplit
    simp [skills.toolSteps] at hsplit
  | cons step rest ih =>
    intro pre bad post e results rt hsplit hpre hbad
    by_cases ht : step.type = "tool"
    · have hf : skills.toolSteps (step :: rest) =
          step :: skills.toolSteps rest := by
        simp [skills.toolSteps, List.filter_cons, ht]
      rw [hf] at hsplit
      have hb : (step.type != "tool") = false := by simp [ht]
      cases pre with
      | nil =>
        have hs : step = bad := by
          simp only [List.nil_append, List.cons.injEq] at hsplit
          exact hsplit.1
        subst hs
        have hinv : tools.invoke env toolRegistry rt step.name (jsOr step.args context) =
            (Except.error e,
              { rt with log := rt.log ++ tools.invokeLines env toolRegistry step.name }) := by
          rw [← invoke_runtime, ← hbad rt]
        simp only [skills.runSteps, hb, Bool.false_eq_true, if_false, hinv]
        simp [skills.stepLines]
      | cons p pre2 =>
        simp only [List.cons_append, List.cons.injEq] at hsplit
        obtain ⟨hp, hrest⟩ := hsplit
        subst hp
        obtain ⟨out, hout⟩ := hpre step (by simp)
        have hinv : tools.invoke env toolRegistry rt step.name (jsOr step.args context) =
            (Except.ok out,
              { rt with log := rt.log ++ tools.invokeLines env toolRegistry step.name }) := by
          rw [← invoke_runtime, ← hout rt]
        have := ih pre2 bad post e (results ++ [{ step := step.name, output := out }])
          { rt with log := rt.log ++ tools.invokeLines env toolRegistry step.name }
          hrest (fun s hs => hpre s (by simp [hs])) hbad
        simp only [skills.runSteps, hb, Bool.false_eq_true, if_false, hinv, this]
        simp [List.append_assoc, skills.stepLines]
    · have hf : skills.toolSteps (step :: rest) =
          skills.toolSteps rest := by
        simp [skills.toolSteps, List.filter_cons, ht]
      rw [hf] at hsplit
      have hb : (step.type != "tool") = true := by simp [ht]
      simp only [skills.runSteps, hb, if_true]
      exact ih pre bad post e results rt hsplit hpre hbad

/-- The number of entries the loop of `execute` returns. -/
theorem runSteps_length (env : Env) (toolRegistry : List Tool) (context : Value)
    (steps : List Step) :
    ∀ (results out : List StepResult) (rt rt1 : Runtime),
      skills.runSteps env toolRegistry context steps results rt = (Except.ok out, rt1) →
      out.length = results.length + (skills.toolSteps steps).length := by
  induction steps with
  | nil =>
    intro results out rt rt1 h
    simp only [skills.runSteps, Prod.mk.injEq, Except.ok.injEq] at h
    simp [h.1, skills.toolSteps]
  | cons step rest ih =>
    intro results out rt rt1 h
    by_cases ht : step.type = "tool"
    · have hb : (step.type != "tool") = false := by simp [ht]
      simp only [skills.runSteps, hb, Bool.false_eq_true, if_false] at h
      cases hx : tools.invoke env toolRegistry rt step.name (jsOr step.args context) with
      | mk res rt2 =>
        rw [hx] at h
        cases res with
        | error err => simp at h
        | ok o =>
          have := ih _ out rt2 rt1 h
          simp [skills.toolSteps, List.filter_cons, ht] at this ⊢
          omega
    · have hb : (step.type != "tool") = true := by simp [ht]
      simp only [skills.runSteps, hb, if_true] at h
      have := ih results out rt rt1 h
      simp [skills.toolSteps, List.filter_cons, ht] at this ⊢
      omega

/-- C15, counterexample. A registered skill of two steps whose first step has type
`note`: `execute` succeeds and returns one result entry, for the second step only. -/
theorem execute_steps_counterexample :
    (skills.mapGet notedSkills "annotated").map (fun s => s.steps.length) = some 2 ∧
    (skills.execute envSafe demoTools notedSkills "t2" rtFresh "annotated"
        (Value.obj [])).1.toOption.map (fun r => r.results.map (fun e => e.step)) =
      some ["system-status"] ∧
    ¬ ((skills.execute envSafe demoTools notedSkills "t2" rtFresh "annotated"
        (Value.obj [])).1.toOption.map (fun r => r.results.length) = some 2) := by
  refine ⟨by decide, by decide, by decide⟩

/-- C15, amended. `execute(name, context)` throws `Unknown skill: <name>` when `name` is
not registered. Otherwise it goes through the steps of the skill in their registered
order, skips every step whose type is not `tool`, and calls `tools.invoke(step.name,
step.args || context)` for each of the others, one at a time. When all those calls
succeed it returns `name`, the time read, and a results list with exactly one
`{ step, output }` entry per step of type `tool`, in that order (two entries for the
built-in `log-review` skill). When one of those calls fails after the calls before it
succeeded, `execute` throws that same error, and `tools.js` has logged for the steps up
to the failing one only. `step.args || context` is `step.args` when it is an object and
`context` when it is absent. -/
theorem execute_runs_steps (env : Env) (toolRegistry : List Tool) (registry : List Skill)
    (ranAt : String) (rt : Runtime) (name : String) (context : Value) :
    (skills.mapGet registry name = none →
      skills.execute env toolRegistry registry ranAt rt name context =
        (Except.error ("Unknown skill: " ++ name), rt)) ∧
    (∀ skill : Skill, skills.mapGet registry name = some skill →
      ((∀ step ∈ skills.toolSteps skill.steps, ∃ out : Value, ∀ rt2 : Runtime,
          (tools.invoke env toolRegistry rt2 step.name (jsOr step.args context)).1 =
            Except.ok out) →
        ∃ results : List StepResult,
          (skills.execute env toolRegistry registry ranAt rt name context).1 =
            Except.ok { name := name, results := results, ranAt := ranAt } ∧
          List.Forall₂ (fun (r : StepResult) (s : Step) => r.step = s.name ∧
              ∀ rt2 : Runtime,
                (tools.invoke env toolRegistry rt2 s.name (jsOr s.args context)).1 =
                  Except.ok r.output)
            results (skills.toolSteps skill.steps) ∧
          (skills.execute env toolRegistry registry ranAt rt name context).2.log =
            rt.log ++ [{ tag := "SKILLS", level := "INFO",
                         message := "Executing skill '" ++ name ++ "'" }] ++
              skills.stepLines env toolRegistry (skills.toolSteps skill.steps)) ∧
      (∀ (pre : List Step) (bad : Step) (post : List Step) (e : String),
        skills.toolSteps skill.steps = pre ++ bad :: post →
        (∀ step ∈ pre, ∃ out : Value, ∀ rt2 : Runtime,
          (tools.invoke env toolRegistry rt2 step.name (jsOr step.args context)).1 =
            Except.ok out) →
        (∀ rt2 : Runtime,
          (tools.invoke env toolRegistry rt2 bad.name (jsOr bad.args context)).1 =
            Except.error e) →
        (skills.execute env toolRegistry registry ranAt rt name context).1 =
          Except.error e ∧
        (skills.execute env toolRegistry registry ranAt rt name context).2.log =
          rt.log ++ [{ tag := "SKILLS", level := "INFO",
                       message := "Executing skill '" ++ name ++ "'" }] ++
            skills.stepLines env toolRegistry (pre ++ [bad]))) ∧
    (∀ (run : SkillRun) (rt1 : Runtime),
      skills.execute env toolRegistry skills.builtin ranAt rt "log-review" context =
        (Except.ok run, rt1) →
      run.results.length = 2) ∧
    (jsOr none context = context ∧
      ∀ fields : List (String × Value),
        jsOr (some (Value.obj fields)) context = Value.obj fields) := by
  refine ⟨?_, ?_, ?_, ⟨rfl, fun _ => rfl⟩⟩
  · intro hnone
    simp only [skills.execute, hnone]
  · intro skill hsk
    constructor
    · intro hall
      obtain ⟨outs, hrun, hfa⟩ := runSteps_ok env toolRegistry context skill.steps []
        (rt.logLine "SKILLS" ("Executing skill '" ++ name ++ "'") "INFO") hall
      refine ⟨outs, ?_, hfa, ?_⟩
      · simp only [skills.execute, hsk, hrun, List.nil_append]
      · simp only [skills.execute, hsk, hrun, logLine_log]
    · intro pre bad post e hsplit hpre hbad
      have hrun := runSteps_err env toolRegistry context skill.steps pre bad post e []
        (rt.logLine "SKILLS" ("Executing skill '" ++ name ++ "'") "INFO") hsplit hpre hbad
      simp only [skills.execute, hsk, hrun, logLine_log, and_self]
  · intro run rt1 hx
    have hsk : skills.mapGet skills.builtin "log-review" =
        some { name := "log-review", description := "Review errors and warnings from logs",
               steps :=
                [{ type := "tool", name := "search-logs",
                   args := some (Value.obj [("file", Value.str "gateway.log"),
                     ("pattern", Value.str "ERROR"), ("maxLines", Value.num 100)]) },
                 { type := "tool", name := "search-logs",
                   args := some (Value.obj [("file", Value.str "scheduler.log"),
                     ("pattern", Value.str "WARN"), ("maxLines", Value.num 100)]) }] } := by
      rfl
    simp only [skills.execute, hsk] at hx
    cases hr : skills.runSteps env toolRegistry context
        [{ type := "tool", name := "search-logs",
           args := some (Value.obj [("file", Value.str "gateway.log"),
             ("pattern", Value.str "ERROR"), ("maxLines", Value.num 100)]) },
         { type := "tool", name := "search-logs",
           args := some (Value.obj [("file", Value.str "scheduler.log"),
             ("pattern", Value.str "WARN"), ("maxLines", Value.num 100)]) }] []
        (rt.logLine "SKILLS" ("Executing skill '" ++ "log-review" ++ "'") "INFO") with
    | mk res rt2 =>
      rw [hr] at hx
      cases res with
      | error err => simp at hx
      | ok out =>
        have hlen := runSteps_length env toolRegistry context _ [] out _ rt2 hr
        simp only [Prod.mk.injEq, Except.ok.injEq] at hx
        rw [← hx.1]
        simpa [skills.toolSteps] using hlen

/-- Witness for C15: the demo skill of one step on the demo tool registry. -/
theorem execute_runs_steps_witness :
    ∃ results : List StepResult,
      (skills.execute envSafe demoTools demoSkills "t2" rtFresh "status-only"
        (Value.obj [])).1 =
        Except.ok { name := "status-only", results := results, ranAt := "t2" } ∧
      List.Forall₂ (fun (r : StepResult) (s : Step) => r.step = s.name ∧
          ∀ rt2 : Runtime,
            (tools.invoke envSafe demoTools rt2 s.name (jsOr s.args (Value.obj []))).1 =
              Except.ok r.output)
        results
        (skills.toolSteps [{ type := "tool", name := "system-status", args := none }]) ∧
      (skills.execute envSafe demoTools demoSkills "t2" rtFresh "status-only"
        (Value.obj [])).2.log =
        rtFresh.log ++ [{ tag := "SKILLS", level := "INFO",
                          message := "Executing skill '" ++ "status-only" ++ "'" }] ++
          skills.stepLines envSafe demoTools
            (skills.toolSteps [{ type := "tool", name := "system-status", args := none }]) :=
  ((execute_runs_steps envSafe demoTools demoSkills "t2" rtFresh "status-only"
      (Value.obj [])).2.1
    { name := "status-only", description := "Run system scan",
      steps := [{ type := "tool", name := "system-status", args := none }] } rfl).1
    (fun step hstep => by
      have hs : step = { type := "tool", name := "system-status", args := none } := by
        simpa [skills.toolSteps] using hstep
      subst hs
      exact ⟨Value.obj [("hostname", Value.str "host-1")], fun _ => rfl⟩)

/-! ## The `search-logs` tool -/

/-- `includes` is the substring test. -/
theorem includesChars_iff (p cs : List Char) :
    includesChars p cs = true ↔ ∃ pre post : List Char, cs = pre ++ p ++ post := by
  induction cs with
  | nil =>
    simp only [includesChars]
    constructor
    · intro h
      have hp : p = [] := by
        cases p with
        | nil => rfl
        | cons a p => simp at h
      exact ⟨[], [], by simp [hp]⟩
    · rintro ⟨pre, post, h⟩
      have hp : p = [] := by
        have := congrArg List.length h
        simp at this
        exact List.eq_nil_of_length_eq_zero (by omega)
      simp [hp]
  | cons c cs ih =>
    simp only [includesChars, Bool.or_eq_true]
    constructor
    · rintro (h | h)
      · obtain ⟨t, ht⟩ := ( List.isPrefixOf_iff_prefix).mp h
        exact ⟨[], t, by simp [ht]⟩
      · obtain ⟨pre, post, hpp⟩ := ih.mp h
        exact ⟨c :: pre, post, by simp [hpp]⟩
    · rintro ⟨pre, post, h⟩
      cases pre with
      | nil =>
        left
        exact ( List.isPrefixOf_iff_prefix).mpr ⟨post, by simp [h]⟩
      | cons a pre =>
        right
        simp only [List.cons_append, List.cons.injEq] at h
        exact ih.mpr ⟨pre, post, h.2⟩

theorem keptLines_finite (q : Rat) :
    keptLines (JsNumber.finite q) = JsNumber.finite (max 1 (min 500 q)) := by
  unfold keptLines
  show Math.max (JsNumber.finite 1) (Math.min (JsNumber.finite 500) (JsNumber.finite q)) = _
  by_cases h : (500 : Rat) ≤ q
  · have h1 : Math.min (JsNumber.finite 500) (JsNumber.finite q) = JsNumber.finite 500 := by
      simp only [Math.min, h, if_true]
    rw [h1, min_eq_left h]
    have h2 : (1 : Rat) ≤ 500 := by norm_num
    simp only [Math.max, h2, if_true, max_eq_right h2]
  · have h1 : Math.min (JsNumber.finite 500) (JsNumber.finite q) = JsNumber.finite q := by
      simp only [Math.min, h, if_false]
    rw [h1, min_eq_right (le_of_not_le h)]
    by_cases h2 : (1 : Rat) ≤ q
    · simp only [Math.max, h2, if_true, max_eq_right h2]
    · simp only [Math.max, h2, if_false, max_eq_left (le_of_not_le h2)]

theorem arraySlice_neg_finite {α : Type} (c : Rat) (hc : 1 ≤ c) (xs : List α) :
    arraySlice (JsNumber.finite c).neg xs = sliceLast (Int.toNat (Int.floor c)) xs := by
  have hneg : ¬ (0 : Rat) ≤ -c := by
    intro h
    have : c ≤ 0 := neg_nonneg.mp h
    linarith
  have hfl : 1 ≤ Int.floor c := Int.le_floor.mpr (by simpa using hc)
  unfold arraySlice sliceLast
  simp only [JsNumber.neg, toIntegerOrInfinity, hneg, if_false, Int.ceil_neg]
  have hlt : -Int.floor c < 0 := by omega
  rw [if_pos hlt]
  congr 1
  omega

theorem arraySlice_neg_keptLines {α : Type} (maxLines : JsNumber) (xs : List α) :
    arraySlice (keptLines maxLines).neg xs =
      match maxLines with
      | JsNumber.nan => xs
      | JsNumber.posInf => sliceLast 500 xs
      | JsNumber.negInf => sliceLast 1 xs
      | JsNumber.finite q => sliceLast (Int.toNat (Int.floor (max 1 (min 500 q)))) xs := by
  cases maxLines with
  | nan =>
    show List.drop (Int.toNat (min 0 (xs.length : Int))) xs = xs
    have : Int.toNat (min 0 (xs.length : Int)) = 0 := by omega
    rw [this]; rfl
  | posInf =>
    have hk : keptLines JsNumber.posInf = JsNumber.finite 500 := by
      unfold keptLines
      have h2 : (1 : Rat) ≤ 500 := by norm_num
      simp only [Math.min, Math.max, h2, if_true]
    rw [hk, arraySlice_neg_finite 500 (by norm_num)]
    have : Int.floor (500 : Rat) = 500 := by
      simp
    rw [this]; rfl
  | negInf =>
    have hk : keptLines JsNumber.negInf = JsNumber.finite 1 := by
      unfold keptLines
      simp only [Math.min, Math.max]
    rw [hk, arraySlice_neg_finite 1 (le_refl _)]
    have : Int.floor (1 : Rat) = 1 := Int.floor_one
    rw [this]; rfl
  | finite q =>
    rw [keptLines_finite, arraySlice_neg_finite _ (le_max_left _ _)]

theorem floor_clamp_int (n : Int) :
    Int.floor (max (1 : Rat) (min 500 (n : Rat))) = min 500 (max 1 n) := by
  have : max (1 : Rat) (min 500 (n : Rat)) = ((max 1 (min 500 n) : Int) : Rat) := by
    push_cast; rfl
  rw [this, Int.floor_intCast]
  omega

theorem floor_clamp_bounds (q : Rat) :
    1 ≤ Int.toNat (Int.floor (max 1 (min 500 q))) ∧
    Int.toNat (Int.floor (max 1 (min 500 q))) ≤ 500 := by
  have h1 : (1 : Int) ≤ Int.floor (max 1 (min 500 q)) :=
    Int.le_floor.mpr (by simp)
  have h2 : Int.floor (max 1 (min 500 q)) ≤ 500 := by
    have : max 1 (min 500 q) ≤ ((500 : Int) : Rat) := by
      simp only [Int.cast_ofNat]
      exact max_le (by norm_num) (min_le_left _ _)
    have := Int.floor_le_floor this
    rwa [Int.floor_intCast] at this
  omega

theorem sliceLast_suffix {α : Type} (n : Nat) (xs : List α) :
    ∃ dropped : List α, xs = dropped ++ sliceLast n xs :=
  ⟨xs.take (xs.length - n), (List.take_append_drop _ xs).symm⟩

theorem sliceLast_length {α : Type} (n : Nat) (xs : List α) :
    (sliceLast n xs).length = min n xs.length := by
  unfold sliceLast
  rw [List.length_drop]
  omega

/-- What `split` returns: pieces without the separator which, joined by the separator,
give the string back. -/
theorem splitOnChar_join (sep : Char) (cs : List Char) :
    List.intercalate [sep] (splitOnChar sep cs) = cs ∧
    (∀ piece ∈ splitOnChar sep cs, sep ∉ piece) ∧
    (splitOnChar sep cs).length = (cs.filter (fun c => c == sep)).length + 1 := by
  induction cs with
  | nil =>
    refine ⟨rfl, ?_, rfl⟩
    intro piece hp
    simp only [splitOnChar, List.mem_singleton] at hp
    rw [hp]; exact List.not_mem_nil sep
  | cons c cs ih =>
    obtain ⟨hj, hn, hl⟩ := ih
    by_cases hc : c = sep
    · have hb : (c == sep) = true := by simp [hc]
      simp only [splitOnChar, hb, if_true, List.filter_cons, List.length_cons]
      refine ⟨?_, ?_, by rw [hl]⟩
      · cases hsp : splitOnChar sep cs with
        | nil => rw [hsp] at hl; simp at hl
        | cons piece pieces =>
          rw [hsp] at hj
          rw [← hj, hc]
          simp [List.intercalate, List.intersperse]
      · intro piece hp
        rcases List.mem_cons.mp hp with h | h
        · rw [h]; exact List.not_mem_nil sep
        · exact hn piece h
    · have hb : (c == sep) = false := by simp [hc]
      cases hsp : splitOnChar sep cs with
      | nil => rw [hsp] at hl; simp at hl
      | cons piece pieces =>
        rw [hsp] at hj hn hl
        simp only [splitOnChar, hb, Bool.false_eq_true, if_false, hsp, List.filter_cons,
          List.length_cons]
        refine ⟨?_, ?_, by simpa using hl⟩
        · rw [← hj]
          cases pieces with
          | nil => simp [List.intercalate, List.intersperse]
          | cons q qs => simp [List.intercalate, List.intersperse]
        · intro x hx
          rcases List.mem_cons.mp hx with h | h
          · rw [h]
            intro hmem
            rcases List.mem_cons.mp hmem with h2 | h2
            · exact hc h2.symm
            · exact hn piece (List.mem_cons_self _ _) h2
          · exact hn x (List.mem_cons_of_mem _ h)

/-- For a number other than `NaN`, the slice keeps the last `k` elements, with `k`
between 1 and 500. -/
theorem arraySlice_kept_count {α : Type} (maxLines : JsNumber) (xs : List α) :
    maxLines ≠ JsNumber.nan →
    ∃ k : Nat,
      k = (match maxLines with
        | JsNumber.nan => 0
        | JsNumber.posInf => 500
        | JsNumber.negInf => 1
        | JsNumber.finite q => Int.toNat (Int.floor (max 1 (min 500 q)))) ∧
      1 ≤ k ∧ k ≤ 500 ∧
      (∀ n : Int, maxLines = JsNumber.finite n → k = Int.toNat (min 500 (max 1 n))) ∧
      arraySlice (keptLines maxLines).neg xs = sliceLast k xs := by
  intro hnn
  have hslice := arraySlice_neg_keptLines maxLines xs
  cases maxLines with
  | nan => exact absurd rfl hnn
  | posInf =>
    exact ⟨500, rfl, by decide, by decide, (fun n h => nomatch h), hslice⟩
  | negInf =>
    exact ⟨1, rfl, by decide, by decide, (fun n h => nomatch h), hslice⟩
  | finite q =>
    refine ⟨Int.toNat (Int.floor (max 1 (min 500 q))), rfl, (floor_clamp_bounds q).1,
      (floor_clamp_bounds q).2, ?_, hslice⟩
    intro n hn
    have hq : q = (n : Rat) := by
      injection hn
    subst hq
    rw [floor_clamp_int]

/-- What `search-logs` returns for each number `maxLines`, when the guard lets the `file`
argument through. If the file does not exist the tool returns the empty list. If it
exists and can be read: for `NaN` the tool returns every line of the file that contains
`pattern`, however many; for any other number it returns the last `k` of them, in file
order (all of them when there are fewer), where `k` is 500 for `Infinity`, 1 for
`-Infinity` and the integer part of `max(1, min(500, maxLines))` for a finite number,
which is `min(500, max(1, maxLines))` for an integer; then `k` lies between 1 and 500.
The lines of the file are the pieces between its line feeds. -/
theorem searchLogs_last_lines (fs : FsHost) (file pattern : String) (maxLines : JsNumber)
    (hguard : jsStartsWith (logPathOf fs file) (logsDir fs) = true) :
    (fs.existsSync (logPathOf fs file) = false →
      searchLogs fs file pattern maxLines = Except.ok []) ∧
    (∀ content : String, fs.existsSync (logPathOf fs file) = true →
      fs.readFileSync (logPathOf fs file) = Except.ok content →
      (maxLines = JsNumber.nan →
        searchLogs fs file pattern maxLines =
          Except.ok ((jsSplit content '\n').filter (fun line => jsIncludes line pattern))) ∧
      (maxLines ≠ JsNumber.nan →
        ∃ (k : Nat) (result : List String),
          k = (match maxLines with
            | JsNumber.nan => 0
            | JsNumber.posInf => 500
            | JsNumber.negInf => 1
            | JsNumber.finite q => Int.toNat (Int.floor (max 1 (min 500 q)))) ∧
          1 ≤ k ∧ k ≤ 500 ∧
          (∀ n : Int, maxLines = JsNumber.finite n → k = Int.toNat (min 500 (max 1 n))) ∧
          searchLogs fs file pattern maxLines = Except.ok result ∧
          result = sliceLast k
            ((jsSplit content '\n').filter (fun line => jsIncludes line pattern)) ∧
          result.length = min k
            ((jsSplit content '\n').filter (fun line => jsIncludes line pattern)).length ∧
          result.length ≤ 500 ∧
          (∃ dropped : List String,
            (jsSplit content '\n').filter (fun line => jsIncludes line pattern) =
              dropped ++ result) ∧
          (((jsSplit content '\n').filter (fun line => jsIncludes line pattern)).length ≤ k →
            result = (jsSplit content '\n').filter (fun line => jsIncludes line pattern)) ∧
          (∀ line : String, line ∈ result →
            line ∈ jsSplit content '\n' ∧
            ∃ pre post : List Char, line.data = pre ++ pattern.data ++ post))) ∧
    (∀ line : String, jsIncludes line pattern = true ↔
      ∃ pre post : List Char, line.data = pre ++ pattern.data ++ post) ∧
    (∀ content : String,
      List.intercalate ['\n'] ((jsSplit content '\n').map String.data) = content.data ∧
      (∀ line ∈ jsSplit content '\n', '\n' ∉ line.data) ∧
      (jsSplit content '\n').length =
        (content.data.filter (fun c => c == '\n')).length + 1) := by
  refine ⟨?_, ?_, fun line => includesChars_iff pattern.data line.data, ?_⟩
  · intro hex
    simp [searchLogs, hguard, hex]
  · intro content hex hread
    have hs : searchLogs fs file pattern maxLines =
        Except.ok (arraySlice (keptLines maxLines).neg
          ((jsSplit content '\n').filter (fun line => jsIncludes line pattern))) := by
      simp [searchLogs, hguard, hex, hread]
    refine ⟨?_, ?_⟩
    · intro hnan
      rw [hs, arraySlice_neg_keptLines, hnan]
    · intro hnn
      obtain ⟨k, hk, hk1, hk500, hkint, hsl⟩ := arraySlice_kept_count maxLines
        ((jsSplit content '\n').filter (fun line => jsIncludes line pattern)) hnn
      refine ⟨k, _, hk, hk1, hk500, hkint, hs, hsl, ?_, ?_, ?_, ?_, ?_⟩
      · rw [hsl, sliceLast_length]
      · rw [hsl]
        have := sliceLast_length_le k
          ((jsSplit content '\n').filter (fun line => jsIncludes line pattern))
        omega
      · rw [hsl]; exact sliceLast_suffix _ _
      · intro hlen
        rw [hsl]
        exact sliceLast_of_le _ _ hlen
      · intro line hl
        rw [hsl] at hl
        have hmem : line ∈
            (jsSplit content '\n').filter (fun line => jsIncludes line pattern) := by
          unfold sliceLast at hl
          exact List.mem_of_mem_drop hl
        rw [List.mem_filter] at hmem
        exact ⟨hmem.1, (includesChars_iff pattern.data line.data).mp hmem.2⟩
  · intro content
    obtain ⟨hj, hn, hl⟩ := splitOnChar_join '\n' content.data
    refine ⟨?_, ?_, ?_⟩
    · unfold jsSplit
      rw [List.map_map]
      have : (String.data ∘ String.mk) = (id : List Char → List Char) := by
        funext x; rfl
      rw [this, List.map_id]
      exact hj
    · intro line hline
      unfold jsSplit at hline
      obtain ⟨piece, hp, rfl⟩ := List.mem_map.mp hline
      exact hn piece hp
    · unfold jsSplit
      rw [List.length_map]
      exact hl

/-- An instance of `searchLogs_last_lines`: with `maxLines` 1 the demo log gives its last
matching line. -/
theorem searchLogs_last_lines_demo :
    ∃ (k : Nat) (result : List String),
      k = 1 ∧ searchLogs fsDemo "passwd" "ERROR" 1 = Except.ok result ∧
      result = ["ERROR net"] ∧ result.length ≤ 500 :=
  let ⟨k, result, h1, _, _, _, h5, h6, _, h8, _⟩ :=
    ((searchLogs_last_lines fsDemo "passwd" "ERROR" 1 (by decide)).2.1
      "boot ok\nERROR disk\nERROR net\n" (by decide) rfl).2 (by decide)
  ⟨k, result, by rw [h1]; rfl, h5, by rw [h6, h1]; rfl, h8⟩

set_option maxRecDepth 100000 in
/-- C16, the failing input. For `maxLines` equal to `NaN` (what `Math.min` makes of the
string `abc` as well) the number `Math.max(1, Math.min(500, maxLines))` is `NaN`, the
start of the slice is 0, and the tool returns every matching line: all 600 lines of a
log of 600 lines `ERROR`, more than 500. On the same log `maxLines` 600 gives the last
500 lines and `maxLines` 50 gives 50. On the demo log, `NaN` gives both matching lines
where `maxLines` 1 gives the last one. -/
theorem searchLogs_nan_uncapped :
    keptLines JsNumber.nan = JsNumber.nan ∧
    toIntegerOrInfinity (keptLines JsNumber.nan).neg = IntegerOrInfinity.integer 0 ∧
    (jsSplit logLong '\n').length = 601 ∧
    (searchLogs fsLong "gateway.log" "ERROR" JsNumber.nan).toOption =
      some (List.replicate 600 "ERROR") ∧
    (searchLogs fsLong "gateway.log" "ERROR" 600).toOption =
      some (List.replicate 500 "ERROR") ∧
    (searchLogs fsLong "gateway.log" "ERROR" 50).toOption =
      some (List.replicate 50 "ERROR") ∧
    searchLogs fsDemo "passwd" "ERROR" JsNumber.nan =
      Except.ok ["ERROR disk", "ERROR net"] ∧
    searchLogs fsDemo "passwd" "ERROR" 1 = Except.ok ["ERROR net"] := by
  refine ⟨by decide, by decide, by decide, by decide, by decide, by decide, by rfl, by rfl⟩

/-! ## The `search-logs` tool: the path read -/

theorem basenameChars_no_slash (cs : List Char) : ∀ c ∈ basenameChars cs, c ≠ '/' := by
  intro c hc
  unfold basenameChars at hc
  rw [List.mem_reverse] at hc
  have := List.mem_takeWhile_imp hc
  simpa using this

theorem splitOnChar_no_sep (sep : Char) (cs : List Char) (h : ∀ c ∈ cs, c ≠ sep) :
    splitOnChar sep cs = [cs] := by
  induction cs with
  | nil => rfl
  | cons c cs ih =>
    have hc : (c == sep) = false := by simp [h c (by simp)]
    simp only [splitOnChar, hc, Bool.false_eq_true, if_false,
      ih (fun x hx => h x (by simp [hx]))]

theorem jsSplit_no_sep (b : String) (h : ∀ c ∈ b.data, c ≠ '/') : jsSplit b '/' = [b] := by
  simp only [jsSplit, splitOnChar_no_sep '/' b.data h, List.map_cons, List.map_nil]

theorem not_absolute_of_no_slash (b : String) (h : ∀ c ∈ b.data, c ≠ '/') :
    jsStartsWith b "/" = false := by
  unfold jsStartsWith
  cases hb : b.data with
  | nil => rfl
  | cons c cs =>
    have hc : c ≠ '/' := h c (by simp [hb])
    have : (("/" : String).data) = ['/'] := rfl
    rw [this]
    simp [List.isPrefixOf, hc, Ne.symm hc]

theorem ne_empty_of_absolute (p : String) (h : jsStartsWith p "/" = true) : p ≠ "" := by
  intro hp
  rw [hp] at h
  exact absurd h (by decide)

theorem joinSegs_append_one (segs : List String) (x : String) (h : segs ≠ []) :
    joinSegs (segs ++ [x]) = joinSegs segs ++ "/" ++ x := by
  induction segs with
  | nil => exact absurd rfl h
  | cons s rest ih =>
    cases rest with
    | nil => rfl
    | cons r rest2 =>
      have := ih (by simp)
      simp only [List.cons_append] at this ⊢
      simp only [joinSegs, this, String.append_assoc]

/-- The segments of the normalized working directory. -/
theorem collectParts_logs (cwd : String) (hcwd : jsStartsWith cwd "/" = true) :
    collectParts ["logs", cwd] = [cwd, "logs"] := by
  have hne := ne_empty_of_absolute cwd hcwd
  have h1 : ¬ ("logs" : String) = "" := by decide
  have h2 : jsStartsWith "logs" "/" = false := by decide
  simp [collectParts, h1, h2, hne, hcwd]

theorem pathSegments_two (cwd a : String) (ha : ∀ c ∈ a.data, c ≠ '/') :
    pathSegments [cwd, a] = jsSplit cwd '/' ++ [a] := by
  simp [pathSegments, jsSplit_no_sep a ha]

theorem pathSegments_three (cwd a b : String) (ha : ∀ c ∈ a.data, c ≠ '/')
    (hb : ∀ c ∈ b.data, c ≠ '/') :
    pathSegments [cwd, a, b] = jsSplit cwd '/' ++ [a] ++ [b] := by
  simp [pathSegments, jsSplit_no_sep a ha, jsSplit_no_sep b hb]

theorem logs_no_slash : ∀ c ∈ ("logs" : String).data, c ≠ '/' := by decide

/-- The logs directory is the normalized working directory followed by `logs`. -/
theorem logsDir_eq (fs : FsHost) (hcwd : jsStartsWith fs.cwd "/" = true) :
    logsDir fs =
      "/" ++ joinSegs ((jsSplit fs.cwd '/').foldl (normalizeStep false) [] ++ ["logs"]) := by
  have hstep : ∀ stack : List String, normalizeStep false stack "logs" = stack ++ ["logs"] := by
    intro stack
    have h1 : ¬ (("logs" : String) = "" ∨ ("logs" : String) = ".") := by decide
    have h2 : ¬ ("logs" : String) = ".." := by decide
    simp only [normalizeStep, h1, h2, if_false]
  simp only [logsDir, pathResolve, List.reverse_cons, List.reverse_nil, List.nil_append,
    List.singleton_append, collectParts_logs fs.cwd hcwd, hcwd, Bool.not_true,
    pathSegments_two fs.cwd "logs" logs_no_slash, List.foldl_append, List.foldl_cons,
    List.foldl_nil, hstep, if_true]

/-- The path built from a slash-free file name: the logs directory for an empty name or
`.`, its parent for `..`, and the direct child of that name otherwise. -/
theorem pathResolve_logs_file (fs : FsHost) (b : String)
    (hcwd : jsStartsWith fs.cwd "/" = true) (hb : ∀ c ∈ b.data, c ≠ '/') :
    pathResolve fs.cwd ["logs", b] =
      if b = "" ∨ b = "." then logsDir fs
      else if b = ".." then
        "/" ++ joinSegs ((jsSplit fs.cwd '/').foldl (normalizeStep false) [])
      else logsDir fs ++ "/" ++ b := by
  have hstep : ∀ stack : List String, normalizeStep false stack "logs" = stack ++ ["logs"] := by
    intro stack
    have h1 : ¬ (("logs" : String) = "" ∨ ("logs" : String) = ".") := by decide
    have h2 : ¬ ("logs" : String) = ".." := by decide
    simp only [normalizeStep, h1, h2, if_false]
  by_cases he : b = ""
  · subst he
    have hparts : collectParts ["", "logs", fs.cwd] = [fs.cwd, "logs"] := by
      rw [collectParts]
      simp only [if_true]
      exact collectParts_logs fs.cwd hcwd
    rw [if_pos (Or.inl rfl), logsDir_eq fs hcwd]
    simp only [pathResolve, List.reverse_cons, List.reverse_nil, List.nil_append,
      List.singleton_append, List.cons_append, hparts, hcwd, Bool.not_true,
      pathSegments_two fs.cwd "logs" logs_no_slash, List.foldl_append, List.foldl_cons,
      List.foldl_nil, hstep, if_true]
  · have hrel := not_absolute_of_no_slash b hb
    have hparts : collectParts [b, "logs", fs.cwd] = [fs.cwd, "logs", b] := by
      rw [collectParts]
      simp only [he, if_false, hrel, Bool.false_eq_true, collectParts_logs fs.cwd hcwd,
        List.cons_append, List.nil_append]
    have hres : pathResolve fs.cwd ["logs", b] =
        "/" ++ joinSegs (normalizeStep false
          ((jsSplit fs.cwd '/').foldl (normalizeStep false) [] ++ ["logs"]) b) := by
      simp only [pathResolve, List.reverse_cons, List.reverse_nil, List.nil_append,
        List.singleton_append, List.cons_append, hparts, hcwd, Bool.not_true,
        pathSegments_three fs.cwd "logs" b logs_no_slash hb, List.foldl_append,
        List.foldl_cons, List.foldl_nil, hstep, if_true]
    rw [hres]
    by_cases hdot : b = "."
    · have hc : b = "" ∨ b = "." := Or.inr hdot
      rw [if_pos hc, logsDir_eq fs hcwd]
      simp only [normalizeStep, hc, if_true]
    · have hc : ¬ (b = "" ∨ b = ".") := by
        intro h; rcases h with h | h
        · exact he h
        · exact hdot h
      rw [if_neg hc]
      by_cases hdd : b = ".."
      · rw [if_pos hdd]
        have hlast : ((jsSplit fs.cwd '/').foldl (normalizeStep false) [] ++
            ["logs"]).getLast? = some "logs" := by simp
        have hnd : ¬ ("logs" : String) = ".." := by decide
        subst hdd
        have hc2 : ¬ ((".." : String) = "" ∨ (".." : String) = ".") := by decide
        simp only [normalizeStep, hc2, if_false, if_true, hlast, hnd,
          List.dropLast_concat]
      · rw [if_neg hdd, logsDir_eq fs hcwd]
        simp only [normalizeStep, hc, hdd, if_false]
        rw [joinSegs_append_one _ b (by simp)]
        simp only [String.append_assoc]

theorem jsStartsWith_self_append (s t : String) : jsStartsWith (s ++ t) s = true := by
  unfold jsStartsWith
  rw [String.data_append]
  exact ( List.isPrefixOf_iff_prefix).mpr (List.prefix_append _ _)

theorem jsStartsWith_self (s : String) : jsStartsWith s s = true := by
  unfold jsStartsWith
  exact ( List.isPrefixOf_iff_prefix).mpr (List.prefix_refl _)

/-- The parent of the logs directory does not start with the logs directory. -/
theorem parent_not_inside (segs : List String) :
    jsStartsWith ("/" ++ joinSegs segs) ("/" ++ joinSegs (segs ++ ["logs"])) = false := by
  cases hx : jsStartsWith ("/" ++ joinSegs segs) ("/" ++ joinSegs (segs ++ ["logs"])) with
  | false => rfl
  | true =>
    exfalso
    unfold jsStartsWith at hx
    have hlen := (( List.isPrefixOf_iff_prefix).mp hx).length_le
    have l4 : ("logs" : String).data.length = 4 := by decide
    by_cases hs : segs = []
    · subst hs
      simp only [List.nil_append, joinSegs, String.data_append, List.length_append, l4,
        List.length_cons, List.length_nil] at hlen
      have : ("" : String).data.length = 0 := by decide
      omega
    · rw [joinSegs_append_one segs "logs" hs] at hlen
      simp only [String.data_append, List.length_append, l4, List.length_cons,
        List.length_nil] at hlen
      omega

/-- C17, counterexample. File arguments that escape the logs directory, one through `..`
segments and one absolute, are not rejected: the tool reads `logs/passwd` and returns its
matching lines. -/
theorem searchLogs_guard_counterexample :
    logPathOf fsDemo "../../etc/passwd" = "/app/logs/passwd" ∧
    searchLogs fsDemo "../../etc/passwd" "ERROR" 50 =
      Except.ok ["ERROR disk", "ERROR net"] ∧
    logPathOf fsDemo "/etc/passwd" = "/app/logs/passwd" ∧
    searchLogs fsDemo "/etc/passwd" "ERROR" 50 = Except.ok ["ERROR disk", "ERROR net"] := by
  refine ⟨by decide, by rfl, by decide, by rfl⟩

/-- C17, amended. With an absolute working directory, for every `file` argument the tool
keeps only the base name of the argument, which holds no slash. When the base name is
`..` the call is rejected with `Only logs/ directory is allowed`. Otherwise the call is
not rejected and the one path the tool looks at is the logs directory itself (base name
empty or `.`) or the direct child of the logs directory with that base name: directory
parts of the argument, `..` segments before the base name and an absolute prefix are
dropped, not rejected. The result depends on the file system only through that path. -/
theorem searchLogs_reads_inside_logs (fs : FsHost) (file pattern : String)
    (maxLines : JsNumber)
    (hcwd : jsStartsWith fs.cwd "/" = true) :
    (∀ c ∈ (pathBasename file).data, c ≠ '/') ∧
    (pathBasename file = ".." →
      searchLogs fs file pattern maxLines = Except.error "Only logs/ directory is allowed") ∧
    (pathBasename file ≠ ".." →
      logPathOf fs file =
        (if pathBasename file = "" ∨ pathBasename file = "." then logsDir fs
         else logsDir fs ++ "/" ++ pathBasename file) ∧
      jsStartsWith (logPathOf fs file) (logsDir fs) = true) ∧
    (∀ fs2 : FsHost, fs2.cwd = fs.cwd →
      fs2.existsSync (logPathOf fs file) = fs.existsSync (logPathOf fs file) →
      fs2.readFileSync (logPathOf fs file) = fs.readFileSync (logPathOf fs file) →
      searchLogs fs2 file pattern maxLines = searchLogs fs file pattern maxLines) := by
  have hb : ∀ c ∈ (pathBasename file).data, c ≠ '/' := basenameChars_no_slash file.data
  have hpath := pathResolve_logs_file fs (pathBasename file) hcwd hb
  refine ⟨hb, ?_, ?_, ?_⟩
  · intro hdd
    have hc : ¬ (pathBasename file = "" ∨ pathBasename file = ".") := by
      rw [hdd]; decide
    rw [if_neg hc, if_pos hdd] at hpath
    have hlp : logPathOf fs file =
        "/" ++ joinSegs ((jsSplit fs.cwd '/').foldl (normalizeStep false) []) := hpath
    have hg : jsStartsWith (logPathOf fs file) (logsDir fs) = false := by
      rw [hlp, logsDir_eq fs hcwd]
      exact parent_not_inside _
    simp [searchLogs, hg]
  · intro hdd
    have hlp : logPathOf fs file =
        (if pathBasename file = "" ∨ pathBasename file = "." then logsDir fs
         else logsDir fs ++ "/" ++ pathBasename file) := by
      unfold logPathOf
      rw [hpath]
      by_cases hc : pathBasename file = "" ∨ pathBasename file = "."
      · rw [if_pos hc, if_pos hc]
      · rw [if_neg hc, if_neg hc, if_neg hdd]
    refine ⟨hlp, ?_⟩
    rw [hlp]
    by_cases hc : pathBasename file = "" ∨ pathBasename file = "."
    · rw [if_pos hc]; exact jsStartsWith_self _
    · rw [if_neg hc, String.append_assoc]; exact jsStartsWith_self_append _ _
  · intro fs2 hcwd2 hex hread
    have h1 : logPathOf fs2 file = logPathOf fs file := by
      simp only [logPathOf, hcwd2]
    have h2 : logsDir fs2 = logsDir fs := by
      simp only [logsDir, hcwd2]
    simp only [searchLogs, h1, h2, hex, hread]

/-- Witness for C17: a plain file name on the demo host. -/
theorem searchLogs_reads_inside_logs_witness :
    logPathOf fsDemo "gateway.log" =
        (if pathBasename "gateway.log" = "" ∨ pathBasename "gateway.log" = "." then
          logsDir fsDemo
         else logsDir fsDemo ++ "/" ++ pathBasename "gateway.log") ∧
      jsStartsWith (logPathOf fsDemo "gateway.log") (logsDir fsDemo) = true :=
  (searchLogs_reads_inside_logs fsDemo "gateway.log" "ERROR" 50 (by decide)).2.2.1
    (by decide)

/-! ## Scheduler: the map `jobs` -/

theorem jobsGet_some_mem (jobs : List (String × Nat)) (name : String) (id : Nat)
    (h : scheduler.jobsGet jobs name = some id) : (name, id) ∈ jobs := by
  unfold scheduler.jobsGet at h
  cases hf : jobs.find? (fun e => e.1 == name) with
  | none => rw [hf] at h; cases h
  | some e =>
    rw [hf] at h
    have hmem := List.mem_of_find?_eq_some hf
    have hp := List.find?_some hf
    simp only [beq_iff_eq] at hp
    simp only [Option.map_some', Option.some.injEq] at h
    have : e = (name, id) := by
      cases e with
      | mk a b => simp only at hp h; rw [hp, h]
    rw [← this]; exact hmem

theorem jobsGet_none (jobs : List (String × Nat)) (name : String)
    (h : scheduler.jobsGet jobs name = none) : ∀ e ∈ jobs, e.1 ≠ name := by
  unfold scheduler.jobsGet at h
  cases hf : jobs.find? (fun e => e.1 == name) with
  | some e => rw [hf] at h; cases h
  | none =>
    intro e he
    have := List.find?_eq_none.mp hf e he
    simpa using this

theorem jobs_functional (jobs : List (String × Nat))
    (hnd : (jobs.map (fun e => e.1)).Nodup) (name : String) (a b : Nat)
    (ha : (name, a) ∈ jobs) (hb : (name, b) ∈ jobs) : a = b := by
  have := List.inj_on_of_nodup_map hnd ha hb rfl
  exact (Prod.mk.inj this).2

theorem jobsGet_of_mem (jobs : List (String × Nat))
    (hnd : (jobs.map (fun e => e.1)).Nodup) (name : String) (id : Nat)
    (h : (name, id) ∈ jobs) : scheduler.jobsGet jobs name = some id := by
  cases hg : scheduler.jobsGet jobs name with
  | none => exact absurd rfl (jobsGet_none jobs name hg (name, id) h)
  | some x =>
    have := jobs_functional jobs hnd name x id (jobsGet_some_mem jobs name x hg) h
    rw [this]

theorem mem_jobsDelete (jobs : List (String × Nat)) (name : String) (e : String × Nat) :
    e ∈ scheduler.jobsDelete jobs name ↔ e ∈ jobs ∧ e.1 ≠ name := by
  simp [scheduler.jobsDelete, List.mem_filter]

theorem jobsSet_absent (name : String) (id : Nat) (jobs : List (String × Nat))
    (h : ∀ e ∈ jobs, e.1 ≠ name) : scheduler.jobsSet name id jobs = jobs ++ [(name, id)] := by
  induction jobs with
  | nil => rfl
  | cons e rest ih =>
    have he : (e.1 == name) = false := by simp [h e (by simp)]
    simp only [scheduler.jobsSet, he, Bool.false_eq_true, if_false, List.cons_append,
      ih (fun x hx => h x (by simp [hx]))]

theorem jobsDelete_nodup (jobs : List (String × Nat)) (name : String)
    (hnd : (jobs.map (fun e => e.1)).Nodup) :
    ((scheduler.jobsDelete jobs name).map (fun e => e.1)).Nodup :=
  List.Nodup.sublist ((List.filter_sublist jobs).map _) hnd

theorem stopTask_ids {W : Type} (id : Nat) (tasks : List (CronTask W)) :
    (scheduler.stopTask id tasks).map (fun t => t.id) = tasks.map (fun t => t.id) ∧
    (scheduler.stopTask id tasks).length = tasks.length := by
  constructor
  · unfold scheduler.stopTask
    rw [List.map_map]
    apply List.map_congr_left
    intro t _
    simp only [Function.comp]
    split <;> rfl
  · simp [scheduler.stopTask]

theorem mem_stopTask {W : Type} (id : Nat) (tasks : List (CronTask W)) (t : CronTask W) :
    t ∈ scheduler.stopTask id tasks ↔
      ∃ t0 ∈ tasks, t = (if t0.id == id then { t0 with running := false } else t0) := by
  unfold scheduler.stopTask
  rw [List.mem_map]
  constructor
  · rintro ⟨t0, h0, rfl⟩; exact ⟨t0, h0, rfl⟩
  · rintro ⟨t0, h0, rfl⟩; exact ⟨t0, h0, rfl⟩

theorem tasks_unique {W : Type} (tasks : List (CronTask W))
    (hids : tasks.map (fun t => t.id) = List.range tasks.length)
    (t1 t2 : CronTask W) (h1 : t1 ∈ tasks) (h2 : t2 ∈ tasks) (h : t1.id = t2.id) : t1 = t2 := by
  have hnd : (tasks.map (fun t => t.id)).Nodup := by rw [hids]; exact List.nodup_range _
  exact List.inj_on_of_nodup_map hnd h1 h2 h

theorem tasks_id_lt {W : Type} (tasks : List (CronTask W))
    (hids : tasks.map (fun t => t.id) = List.range tasks.length)
    (t : CronTask W) (h : t ∈ tasks) : t.id < tasks.length := by
  have : t.id ∈ tasks.map (fun t => t.id) := List.mem_map_of_mem _ h
  rw [hids] at this
  exact List.mem_range.mp this

/-! ## Scheduler: `register` and `stop` keep the state consistent -/

theorem jobsDelete_absent (jobs : List (String × Nat)) (name : String)
    (h : ∀ e ∈ jobs, e.1 ≠ name) : scheduler.jobsDelete jobs name = jobs := by
  unfold scheduler.jobsDelete
  rw [List.filter_eq_self]
  intro e he
  simp [h e he]

/-- The state after a call of `register` that passes validation: the task registered
under the name before, if any, is stopped, a new running task is created, and `jobs`
binds the name to it. -/
theorem register_ok_state {W : Type} (validate : String → Bool) (s : Scheduler W)
    (name cronExpr : String) (handler : W → Except Thrown Unit × W)
    (hvalid : validate cronExpr = true) :
    (scheduler.register validate s name cronExpr handler).1 = Except.ok true ∧
    (scheduler.register validate s name cronExpr handler).2.tasks =
      s.tasks.map (fun t =>
        if scheduler.jobsGet s.jobs name = some t.id then { t with running := false } else t)
      ++ [{ id := s.tasks.length, name := name, cronExpr := cronExpr, handler := handler,
            running := true }] ∧
    (scheduler.register validate s name cronExpr handler).2.jobs =
      scheduler.jobsDelete s.jobs name ++ [(name, s.tasks.length)] ∧
    (scheduler.register validate s name cronExpr handler).2.started = s.started ∧
    (scheduler.register validate s name cronExpr handler).2.log = s.log := by
  have hset : scheduler.jobsSet name s.tasks.length (scheduler.jobsDelete s.jobs name) =
      scheduler.jobsDelete s.jobs name ++ [(name, s.tasks.length)] :=
    jobsSet_absent name _ _ (fun e he => ((mem_jobsDelete s.jobs name e).mp he).2)
  cases hg : scheduler.jobsGet s.jobs name with
  | none =>
    have hdel := jobsDelete_absent s.jobs name (jobsGet_none s.jobs name hg)
    have hmap : s.tasks.map (fun t =>
        if (none : Option Nat) = some t.id then { t with running := false } else t) =
        s.tasks := by
      simp
    rw [hdel] at hset
    simp only [scheduler.register, hvalid, Bool.not_true, Bool.false_eq_true, if_false, hg,
      hmap, hdel, hset, and_self]
  | some old =>
    have hmap : s.tasks.map (fun t =>
        if some old = some t.id then { t with running := false } else t) =
        scheduler.stopTask old s.tasks := by
      unfold scheduler.stopTask
      apply List.map_congr_left
      intro t _
      by_cases h : t.id = old
      · simp [h]
      · have h2 : ¬ old = t.id := fun hc => h hc.symm
        simp [h, h2]
    simp only [scheduler.register, hvalid, Bool.not_true, Bool.false_eq_true, if_false, hg,
      hmap, (stopTask_ids old s.tasks).2, hset, and_self]

theorem wf_init (W : Type) : scheduler.WellFormed (scheduler.init W) := by
  simp [scheduler.WellFormed, scheduler.init]

theorem wf_register {W : Type} (validate : String → Bool) (s : Scheduler W)
    (name cronExpr : String) (handler : W → Except Thrown Unit × W)
    (hwf : scheduler.WellFormed s) :
    scheduler.WellFormed (scheduler.register validate s name cronExpr handler).2 := by
  cases hvalid : validate cronExpr with
  | false =>
    have : (scheduler.register validate s name cronExpr handler).2 = s := by
      simp [scheduler.register, hvalid]
    rw [this]; exact hwf
  | true =>
    obtain ⟨h1, h2, h3, h4⟩ := hwf
    obtain ⟨_, ht, hj, _, _⟩ := register_ok_state validate s name cronExpr handler hvalid
    unfold scheduler.WellFormed
    rw [ht, hj]
    refine ⟨?_, ?_, ?_, ?_⟩
    · simp only [List.map_append, List.map_map, List.map_cons, List.map_nil,
        List.length_append, List.length_map, List.length_cons, List.length_nil]
      rw [List.range_succ]
      congr 1
      rw [← h1]
      apply List.map_congr_left
      intro t _
      simp only [Function.comp]
      split <;> rfl
    · rw [List.map_append, List.nodup_append]
      refine ⟨jobsDelete_nodup s.jobs name h2, by simp, ?_⟩
      intro a ha hb
      simp only [List.map_cons, List.map_nil, List.mem_singleton] at hb
      obtain ⟨e, he, hea⟩ := List.mem_map.mp ha
      exact ((mem_jobsDelete s.jobs name e).mp he).2 (hea.trans hb)
    · intro t htm hrun
      rcases List.mem_append.mp htm with hm | hm
      · obtain ⟨t0, ht0, rfl⟩ := List.mem_map.mp hm
        by_cases hst : scheduler.jobsGet s.jobs name = some t0.id
        · simp [hst] at hrun
        · simp only [hst, if_false] at hrun ⊢
          have hin := h3 t0 ht0 hrun
          apply List.mem_append_left
          rw [mem_jobsDelete]
          refine ⟨hin, ?_⟩
          intro hn
          apply hst
          apply jobsGet_of_mem s.jobs h2
          have : (t0.name, t0.id) = (name, t0.id) := by rw [show t0.name = name from hn]
          rw [← this]; exact hin
      · simp only [List.mem_singleton] at hm
        subst hm
        exact List.mem_append_right _ (by simp)
    · intro e he
      rcases List.mem_append.mp he with hm | hm
      · obtain ⟨hin, hne⟩ := (mem_jobsDelete s.jobs name e).mp hm
        obtain ⟨t0, ht0, hid, hname, hrun⟩ := h4 e hin
        have hst : ¬ scheduler.jobsGet s.jobs name = some t0.id := by
          intro hc
          have hmem := jobsGet_some_mem s.jobs name t0.id hc
          obtain ⟨t1, ht1, hid1, hname1, _⟩ := h4 _ hmem
          have := tasks_unique s.tasks h1 t1 t0 ht1 ht0 hid1
          rw [this] at hname1
          exact hne (hname.symm.trans hname1)
        refine ⟨t0, ?_, hid, hname, hrun⟩
        apply List.mem_append_left
        apply List.mem_map.mpr
        exact ⟨t0, ht0, by simp [hst]⟩
      · simp only [List.mem_singleton] at hm
        subst hm
        exact ⟨_, List.mem_append_right _ (List.mem_singleton.mpr rfl), rfl, rfl, rfl⟩

/-- After `stop` no task is running, `jobs` is empty and `started` is false. -/
theorem stop_state {W : Type} (s : Scheduler W) (hwf : scheduler.WellFormed s) :
    (scheduler.stop s).jobs = [] ∧ (scheduler.stop s).started = false ∧
    (∀ t ∈ (scheduler.stop s).tasks, t.running = false) ∧
    (scheduler.stop s).tasks.map (fun t => t.id) = s.tasks.map (fun t => t.id) := by
  obtain ⟨_, _, h3, _⟩ := hwf
  refine ⟨rfl, rfl, ?_, ?_⟩
  · intro t ht
    simp only [scheduler.stop, scheduler.logLine] at ht
    obtain ⟨t0, ht0, rfl⟩ := List.mem_map.mp ht
    by_cases hany : s.jobs.any (fun e => e.2 == t0.id) = true
    · simp [hany]
    · simp only [hany, Bool.false_eq_true, if_false]
      cases hr : t0.running with
      | false => rfl
      | true =>
        exfalso
        apply hany
        rw [List.any_eq_true]
        exact ⟨(t0.name, t0.id), h3 t0 ht0 hr, by simp⟩
  · simp only [scheduler.stop, scheduler.logLine, List.map_map]
    apply List.map_congr_left
    intro t _
    simp only [Function.comp]
    split <;> rfl

theorem wf_stop {W : Type} (s : Scheduler W) (hwf : scheduler.WellFormed s) :
    scheduler.WellFormed (scheduler.stop s) := by
  obtain ⟨hj, _, hrun, hids⟩ := stop_state s hwf
  obtain ⟨h1, _, _, _⟩ := hwf
  refine ⟨?_, ?_, ?_, ?_⟩
  · rw [hids, h1]
    simp [scheduler.stop, scheduler.logLine]
  · rw [hj]; simp
  · intro t ht hr
    rw [hrun t ht] at hr
    cases hr
  · intro e he
    rw [hj] at he
    cases he

theorem wf_run {W : Type} (validate : String → Bool) (calls : List (SchedulerCall W)) :
    ∀ s : Scheduler W, scheduler.WellFormed s →
      scheduler.WellFormed (scheduler.run validate s calls) := by
  induction calls with
  | nil => intro s h; exact h
  | cons c rest ih =>
    intro s h
    apply ih
    cases c with
    | register name cronExpr handler => exact wf_register validate s name cronExpr handler h
    | stop => exact wf_stop s h

/-- In a consistent state at most one running task carries a given name. -/
theorem activeUnder_le_one {W : Type} (s : Scheduler W) (hwf : scheduler.WellFormed s)
    (name : String) : (scheduler.activeUnder s name).length ≤ 1 := by
  obtain ⟨h1, h2, h3, _⟩ := hwf
  have hsub : List.Sublist (scheduler.activeUnder s name) s.tasks := List.filter_sublist _
  have hnd : ((scheduler.activeUnder s name).map (fun t => t.id)).Nodup := by
    apply List.Nodup.sublist (hsub.map _)
    rw [h1]; exact List.nodup_range _
  have hsame : ∀ t1 ∈ scheduler.activeUnder s name, ∀ t2 ∈ scheduler.activeUnder s name,
      t1.id = t2.id := by
    intro t1 ht1 t2 ht2
    simp only [scheduler.activeUnder, List.mem_filter, Bool.and_eq_true, beq_iff_eq] at ht1 ht2
    have m1 := h3 t1 ht1.1 ht1.2.1
    have m2 := h3 t2 ht2.1 ht2.2.1
    rw [ht1.2.2] at m1
    rw [ht2.2.2] at m2
    exact jobs_functional s.jobs h2 name _ _ m1 m2
  cases hl : scheduler.activeUnder s name with
  | nil => simp
  | cons a rest =>
    cases rest with
    | nil => simp
    | cons b rest2 =>
      exfalso
      rw [hl] at hnd hsame
      have hab := hsame a (by simp) b (by simp)
      simp only [List.map_cons, List.nodup_cons, List.mem_cons, not_or] at hnd
      exact hnd.1.1 hab

/-! ## Scheduler: `register`, `stop` and the guarded callback -/

theorem wf_after {W : Type} (validate : String → Bool) (calls : List (SchedulerCall W)) :
    scheduler.WellFormed (scheduler.after validate calls) :=
  wf_run validate calls _ (wf_init W)

theorem filter_map_same {α : Type} (p : α → Bool) (f : α → α) (l : List α)
    (h : ∀ t ∈ l, f t = t ∨ (p (f t) = false ∧ p t = false)) :
    (l.map f).filter p = l.filter p := by
  induction l with
  | nil => rfl
  | cons a rest ih =>
    have ihr := ih (fun t ht => h t (by simp [ht]))
    rcases h a (by simp) with ha | ⟨h1, h2⟩
    · simp only [List.map_cons, List.filter_cons, ha, ihr]
    · simp only [List.map_cons, List.filter_cons, h1, h2, Bool.false_eq_true, if_false, ihr]

/-- C18. A call of `register` with a cron expression that fails validation throws
`Invalid cron expression for <name>: <expr>` and leaves the scheduler state as it was:
the map of jobs, every task and its running flag, and so also a job registered under the
same name, which is neither stopped nor removed. -/
theorem register_invalid {W : Type} (validate : String → Bool) (s : Scheduler W)
    (name cronExpr : String) (handler : W → Except Thrown Unit × W)
    (hbad : validate cronExpr = false) :
    (scheduler.register validate s name cronExpr handler).1 =
      Except.error ("Invalid cron expression for " ++ name ++ ": " ++ cronExpr) ∧
    (scheduler.register validate s name cronExpr handler).2 = s ∧
    scheduler.listTasks (scheduler.register validate s name cronExpr handler).2 =
      scheduler.listTasks s ∧
    (scheduler.register validate s name cronExpr handler).2.tasks = s.tasks ∧
    scheduler.jobsGet (scheduler.register validate s name cronExpr handler).2.jobs name =
      scheduler.jobsGet s.jobs name ∧
    scheduler.activeUnder (scheduler.register validate s name cronExpr handler).2 name =
      scheduler.activeUnder s name := by
  have h : scheduler.register validate s name cronExpr handler =
      (Except.error ("Invalid cron expression for " ++ name ++ ": " ++ cronExpr), s) := by
    simp [scheduler.register, hbad]
  rw [h]
  exact ⟨rfl, rfl, rfl, rfl, rfl, rfl⟩

/-- Witness for C18: an invalid expression for a name that has a job. -/
theorem register_invalid_witness :
    (scheduler.register cronDemoValid schedulerOne "memory-save" "every minute"
      handlerBoom).2 = schedulerOne :=
  (register_invalid cronDemoValid schedulerOne "memory-save" "every minute" handlerBoom
    (by decide)).2.1

/-- C19. After any sequence of `register` and `stop` calls every task name has at most one
running task. In such a state, a call of `register` that passes validation returns
`true`, stops the task registered under the name before (if any), and leaves exactly one
running task under the name, the new one, to which `jobs` binds the name; under every
other name the entry of `jobs` and the running task are as before. A call of `stop`
leaves no running task and an empty `jobs`. -/
theorem scheduler_one_timer_per_name {W : Type} (validate : String → Bool)
    (calls : List (SchedulerCall W)) (name cronExpr : String)
    (handler : W → Except Thrown Unit × W) :
    (∀ n : String, (scheduler.activeUnder (scheduler.after validate calls) n).length ≤ 1) ∧
    (validate cronExpr = true →
      (scheduler.register validate (scheduler.after validate calls) name cronExpr
        handler).1 = Except.ok true ∧
      (∀ old : Nat,
        scheduler.jobsGet (scheduler.after validate calls).jobs name = some old →
        ∀ t ∈ (scheduler.register validate (scheduler.after validate calls) name cronExpr
          handler).2.tasks, t.id = old → t.running = false) ∧
      scheduler.jobsGet (scheduler.register validate (scheduler.after validate calls) name
        cronExpr handler).2.jobs name = some (scheduler.after validate calls).tasks.length ∧
      scheduler.activeUnder (scheduler.register validate (scheduler.after validate calls)
        name cronExpr handler).2 name =
        [{ id := (scheduler.after validate calls).tasks.length, name := name,
           cronExpr := cronExpr, handler := handler, running := true }] ∧
      (∀ n : String, n ≠ name →
        scheduler.jobsGet (scheduler.register validate (scheduler.after validate calls)
          name cronExpr handler).2.jobs n =
          scheduler.jobsGet (scheduler.after validate calls).jobs n ∧
        scheduler.activeUnder (scheduler.register validate (scheduler.after validate calls)
          name cronExpr handler).2 n =
          scheduler.activeUnder (scheduler.after validate calls) n)) ∧
    ((scheduler.stop (scheduler.after validate calls)).jobs = [] ∧
      (∀ t ∈ (scheduler.stop (scheduler.after validate calls)).tasks, t.running = false) ∧
      (∀ n : String,
        scheduler.activeUnder (scheduler.stop (scheduler.after validate calls)) n = [])) := by
  have hwf := wf_after validate calls
  refine ⟨fun n => activeUnder_le_one _ hwf n, ?_, ?_⟩
  · intro hvalid
    have hwf2 := wf_register validate (scheduler.after validate calls) name cronExpr handler hwf
    obtain ⟨hres, ht, hj, _, _⟩ :=
      register_ok_state validate (scheduler.after validate calls) name cronExpr handler hvalid
    obtain ⟨h1, h2, h3, h4⟩ := hwf
    have hnewmem : CronTask.mk (scheduler.after validate calls).tasks.length name cronExpr
        handler true ∈
        scheduler.activeUnder (scheduler.register validate (scheduler.after validate calls)
          name cronExpr handler).2 name := by
      simp only [scheduler.activeUnder, List.mem_filter, ht]
      exact ⟨List.mem_append_right _ (List.mem_singleton.mpr rfl), by simp⟩
    refine ⟨hres, ?_, ?_, ?_, ?_⟩
    · intro old hold t htm hid
      rw [ht] at htm
      rcases List.mem_append.mp htm with hm | hm
      · obtain ⟨t0, _, rfl⟩ := List.mem_map.mp hm
        by_cases hst : scheduler.jobsGet (scheduler.after validate calls).jobs name =
            some t0.id
        · simp [hst]
        · exfalso
          simp only [hst, if_false] at hid
          apply hst
          rw [hold, hid]
      · exfalso
        simp only [List.mem_singleton] at hm
        subst hm
        obtain ⟨t1, ht1, hid1, _, _⟩ := h4 _ (jobsGet_some_mem _ name old hold)
        have := tasks_id_lt _ h1 t1 ht1
        simp only at hid hid1
        omega
    · apply jobsGet_of_mem _ hwf2.2.1
      rw [hj]
      exact List.mem_append_right _ (List.mem_singleton.mpr rfl)
    · have hle := activeUnder_le_one _ hwf2 name
      cases hl : scheduler.activeUnder (scheduler.register validate
          (scheduler.after validate calls) name cronExpr handler).2 name with
      | nil => rw [hl] at hnewmem; cases hnewmem
      | cons a rest =>
        rw [hl] at hnewmem hle
        cases rest with
        | nil =>
          simp only [List.mem_singleton] at hnewmem
          rw [hnewmem]
        | cons b rest2 =>
          simp only [List.length_cons] at hle
          omega
    · intro n hn
      constructor
      · have hiff : ∀ i : Nat, (n, i) ∈ (scheduler.register validate
            (scheduler.after validate calls) name cronExpr handler).2.jobs ↔
            (n, i) ∈ (scheduler.after validate calls).jobs := by
          intro i
          rw [hj, List.mem_append, mem_jobsDelete]
          constructor
          · rintro (h | h)
            · exact h.1
            · simp only [List.mem_singleton, Prod.mk.injEq] at h
              exact absurd h.1 hn
          · intro h
            exact Or.inl ⟨h, hn⟩
        cases hg : scheduler.jobsGet (scheduler.after validate calls).jobs n with
        | some i =>
          exact jobsGet_of_mem _ hwf2.2.1 n i ((hiff i).mpr (jobsGet_some_mem _ n i hg))
        | none =>
          cases hg2 : scheduler.jobsGet (scheduler.register validate
              (scheduler.after validate calls) name cronExpr handler).2.jobs n with
          | none => rfl
          | some i =>
            exfalso
            have hm := (hiff i).mp (jobsGet_some_mem _ n i hg2)
            exact jobsGet_none _ n hg (n, i) hm rfl
      · simp only [scheduler.activeUnder, ht, List.filter_append]
        have hnew : List.filter (fun t => t.running && t.name == n)
            [CronTask.mk (scheduler.after validate calls).tasks.length name cronExpr
              handler true] = [] := by
          have hne : ¬ name = n := fun hc => hn hc.symm
          simp [List.filter_cons, hne]
        rw [hnew, List.append_nil]
        apply filter_map_same
        intro t0 ht0
        by_cases hst : scheduler.jobsGet (scheduler.after validate calls).jobs name =
            some t0.id
        · right
          obtain ⟨t1, ht1, hid1, hname1, _⟩ := h4 _ (jobsGet_some_mem _ name t0.id hst)
          have := tasks_unique _ h1 t1 t0 ht1 ht0 hid1
          rw [this] at hname1
          have hne : ¬ name = n := fun hc => hn hc.symm
          simp only at hname1
          simp [hst, hname1, hne]
        · left
          simp [hst]
  · obtain ⟨hj, _, hrun, _⟩ := stop_state _ hwf
    refine ⟨hj, hrun, fun n => ?_⟩
    simp only [scheduler.activeUnder]
    rw [List.filter_eq_nil_iff]
    intro t ht
    simp [hrun t ht]

/-- What the guarded callback that `register` installs does, for every handler. It
leaves `started`, `jobs` and every task as they were, keeps what the handler did to its
world, and logs `started` first. When the handler succeeds it logs `succeeded` and
resolves. When the handler fails with a value whose `message` can be put into the log
line, it logs `failed` with that text and resolves. When the handler fails with
`undefined` or `null`, or with a value whose `message` cannot be read or converted, the
`catch` block raises: the callback is rejected and logs nothing after `started`. -/
theorem guardedCallback_cases {W : Type} (name : String)
    (handler : W → Except Thrown Unit × W) (startMs endMs : Int) (w : W) (s : Scheduler W) :
    (scheduler.guardedCallback name handler startMs endMs w s).2.1 = (handler w).2 ∧
    (scheduler.guardedCallback name handler startMs endMs w s).2.2.started = s.started ∧
    (scheduler.guardedCallback name handler startMs endMs w s).2.2.jobs = s.jobs ∧
    (scheduler.guardedCallback name handler startMs endMs w s).2.2.tasks = s.tasks ∧
    ((handler w).1 = Except.ok () →
      (scheduler.guardedCallback name handler startMs endMs w s).1 = Except.ok () ∧
      (scheduler.guardedCallback name handler startMs endMs w s).2.2.log =
        s.log ++
          [{ tag := "SCHEDULER", level := "INFO",
             message := "Task '" ++ name ++ "' started" },
           { tag := "SCHEDULER", level := "INFO",
             message := "Task '" ++ name ++ "' succeeded (" ++
               toString (endMs - startMs) ++ "ms)" }]) ∧
    (∀ message : String, (handler w).1 = Except.error (Thrown.value (Except.ok message)) →
      (scheduler.guardedCallback name handler startMs endMs w s).1 = Except.ok () ∧
      (scheduler.guardedCallback name handler startMs endMs w s).2.2.log =
        s.log ++
          [{ tag := "SCHEDULER", level := "INFO",
             message := "Task '" ++ name ++ "' started" },
           { tag := "SCHEDULER", level := "ERROR",
             message := "Task '" ++ name ++ "' failed (" ++ toString (endMs - startMs) ++
               "ms): " ++ message }]) ∧
    (∀ raised : String,
      ((handler w).1 = Except.error Thrown.undefined ∧
          raised = "Cannot read properties of undefined (reading 'message')") ∨
        ((handler w).1 = Except.error Thrown.null ∧
          raised = "Cannot read properties of null (reading 'message')") ∨
        (handler w).1 = Except.error (Thrown.value (Except.error raised)) →
      (scheduler.guardedCallback name handler startMs endMs w s).1 = Except.error raised ∧
      (scheduler.guardedCallback name handler startMs endMs w s).2.2.log =
        s.log ++
          [{ tag := "SCHEDULER", level := "INFO",
             message := "Task '" ++ name ++ "' started" }]) := by
  cases hh : handler w with
  | mk res w1 =>
    cases res with
    | ok u =>
      have hcb : scheduler.guardedCallback name handler startMs endMs w s =
          (Except.ok (), w1,
            scheduler.logLine (scheduler.logLine s ("Task '" ++ name ++ "' started") "INFO")
              ("Task '" ++ name ++ "' succeeded (" ++ toString (endMs - startMs) ++ "ms)")
              "INFO") := by
        simp only [scheduler.guardedCallback, hh]
      rw [hcb]
      refine ⟨rfl, rfl, rfl, rfl, ?_, ?_, ?_⟩
      · intro _
        exact ⟨rfl, by simp [scheduler.logLine]⟩
      · intro message he
        cases he
      · intro raised he
        rcases he with ⟨he, _⟩ | ⟨he, _⟩ | he <;> cases he
    | error thrown =>
      cases thrown with
      | undefined =>
        have hcb : scheduler.guardedCallback name handler startMs endMs w s =
            (Except.error "Cannot read properties of undefined (reading 'message')", w1,
              scheduler.logLine s ("Task '" ++ name ++ "' started") "INFO") := by
          simp only [scheduler.guardedCallback, hh]
        rw [hcb]
        refine ⟨rfl, rfl, rfl, rfl, ?_, ?_, ?_⟩
        · intro he; cases he
        · intro message he; cases he
        · intro raised he
          rcases he with ⟨_, hr⟩ | ⟨he, _⟩ | he
          · rw [hr]; exact ⟨rfl, rfl⟩
          · cases he
          · cases he
      | null =>
        have hcb : scheduler.guardedCallback name handler startMs endMs w s =
            (Except.error "Cannot read properties of null (reading 'message')", w1,
              scheduler.logLine s ("Task '" ++ name ++ "' started") "INFO") := by
          simp only [scheduler.guardedCallback, hh]
        rw [hcb]
        refine ⟨rfl, rfl, rfl, rfl, ?_, ?_, ?_⟩
        · intro he; cases he
        · intro message he; cases he
        · intro raised he
          rcases he with ⟨he, _⟩ | ⟨_, hr⟩ | he
          · cases he
          · rw [hr]; exact ⟨rfl, rfl⟩
          · cases he
      | value m =>
        cases m with
        | error e =>
          have hcb : scheduler.guardedCallback name handler startMs endMs w s =
              (Except.error e, w1,
                scheduler.logLine s ("Task '" ++ name ++ "' started") "INFO") := by
            simp only [scheduler.guardedCallback, hh]
          rw [hcb]
          refine ⟨rfl, rfl, rfl, rfl, ?_, ?_, ?_⟩
          · intro he; cases he
          · intro message he; cases he
          · intro raised he
            rcases he with ⟨he, _⟩ | ⟨he, _⟩ | he
            · cases he
            · cases he
            · cases he
              exact ⟨rfl, rfl⟩
        | ok text =>
          have hcb : scheduler.guardedCallback name handler startMs endMs w s =
              (Except.ok (), w1,
                scheduler.logLine (scheduler.logLine s ("Task '" ++ name ++ "' started") "INFO")
                  ("Task '" ++ name ++ "' failed (" ++ toString (endMs - startMs) ++ "ms): " ++
                    text)
                  "ERROR") := by
            simp only [scheduler.guardedCallback, hh]
          rw [hcb]
          refine ⟨rfl, rfl, rfl, rfl, ?_, ?_, ?_⟩
          · intro he; cases he
          · intro message he
            cases he
            exact ⟨rfl, by simp [scheduler.logLine]⟩
          · intro raised he
            rcases he with ⟨he, _⟩ | ⟨he, _⟩ | he <;> cases he

/-- Witness for C19: a second registration under a name that has a job. -/
theorem scheduler_one_timer_per_name_witness :
    scheduler.activeUnder
      (scheduler.register cronDemoValid
        (scheduler.after cronDemoValid
          [SchedulerCall.register "memory-save" "* * * * *" handlerFine])
        "memory-save" "0 * * * *" handlerBoom).2 "memory-save" =
      [{ id := (scheduler.after cronDemoValid
            [SchedulerCall.register "memory-save" "* * * * *" handlerFine]).tasks.length,
         name := "memory-save", cronExpr := "0 * * * *", handler := handlerBoom,
         running := true }] :=
  ((scheduler_one_timer_per_name cronDemoValid
    [SchedulerCall.register "memory-save" "* * * * *" handlerFine]
    "memory-save" "0 * * * *" handlerBoom).2.1 (by decide)).2.2.2.1

/-- An instance of `guardedCallback_cases`: a handler that throws an `Error`, on a
scheduler with one job. -/
theorem guardedCallback_cases_demo :
    (scheduler.guardedCallback "memory-save" handlerBoom 5 12 0 schedulerOne).1 =
      Except.ok () ∧
    (scheduler.guardedCallback "memory-save" handlerBoom 5 12 0 schedulerOne).2.2.log =
      schedulerOne.log ++
        [{ tag := "SCHEDULER", level := "INFO",
           message := "Task '" ++ "memory-save" ++ "' started" },
         { tag := "SCHEDULER", level := "ERROR",
           message := "Task '" ++ "memory-save" ++ "' failed (" ++ toString ((12 : Int) - 5) ++
             "ms): " ++ "boom" }] :=
  (guardedCallback_cases "memory-save" handlerBoom 5 12 0 schedulerOne).2.2.2.2.2.1
    "boom" rfl

/-- C20, the failing input. The handler `() => Promise.reject()` fails with `undefined`:
the `catch` block of the guarded callback evaluates `err.message`, which raises a
`TypeError`, so the callback is rejected instead of completing, and logs nothing after
the `started` line; a handler that runs `throw null` does the same. A handler that throws
an `Error` is caught: the callback completes and logs `failed` with the message. In each
case `started`, `jobs` and the tasks stay as they were. -/
theorem guardedCallback_rejects_on_nullish :
    (scheduler.guardedCallback "memory-save" handlerRejectUndefined 5 12 0 schedulerOne).1 =
      Except.error "Cannot read properties of undefined (reading 'message')" ∧
    (scheduler.guardedCallback "memory-save" handlerRejectUndefined 5 12 0
        schedulerOne).2.2.log =
      schedulerOne.log ++
        [{ tag := "SCHEDULER", level := "INFO", message := "Task 'memory-save' started" }] ∧
    (scheduler.guardedCallback "memory-save" handlerThrowNull 5 12 0 schedulerOne).1 =
      Except.error "Cannot read properties of null (reading 'message')" ∧
    (scheduler.guardedCallback "memory-save" handlerThrowNull 5 12 0 schedulerOne).2.2.log =
      schedulerOne.log ++
        [{ tag := "SCHEDULER", level := "INFO", message := "Task 'memory-save' started" }] ∧
    (scheduler.guardedCallback "memory-save" handlerBoom 5 12 0 schedulerOne).1 =
      Except.ok () ∧
    (scheduler.guardedCallback "memory-save" handlerBoom 5 12 0 schedulerOne).2.2.log =
      schedulerOne.log ++
        [{ tag := "SCHEDULER", level := "INFO", message := "Task 'memory-save' started" },
         { tag := "SCHEDULER", level := "ERROR",
           message := "Task 'memory-save' failed (7ms): boom" }] ∧
    (scheduler.guardedCallback "memory-save" handlerRejectUndefined 5 12 0
        schedulerOne).2.2.started = schedulerOne.started ∧
    (scheduler.guardedCallback "memory-save" handlerRejectUndefined 5 12 0
        schedulerOne).2.2.jobs = [("memory-save", 0)] ∧
    (scheduler.guardedCallback "memory-save" handlerRejectUndefined 5 12 0
        schedulerOne).2.2.jobs = schedulerOne.jobs := by
  refine ⟨rfl, by decide, rfl, by decide, rfl, by decide, rfl, by decide, rfl⟩

/-! ## MemoryStore: `save` -/

/-- The outcome of `save` when no write is in progress, by the size of the serialized
state and the outcome of the file write. -/
theorem save_outcomes (env : Env) (rt : Runtime)
    (hflag : rt.memory.writeInProgress = false) :
    ((env.serialize rt.memory.state).utf8ByteSize > maxBytes →
      (memory.save env rt).1 = false ∧ (memory.save env rt).2.memory = rt.memory) ∧
    ((env.serialize rt.memory.state).utf8ByteSize ≤ maxBytes →
      env.fsWrite (env.serialize rt.memory.state) = none →
      (memory.save env rt).1 = true ∧
      (memory.save env rt).2.memory =
        { rt.memory with disk := some (env.serialize rt.memory.state) }) ∧
    (∀ err : String, (env.serialize rt.memory.state).utf8ByteSize ≤ maxBytes →
      env.fsWrite (env.serialize rt.memory.state) = some err →
      (memory.save env rt).1 = false ∧ (memory.save env rt).2.memory = rt.memory) := by
  refine ⟨?_, ?_, ?_⟩
  · intro hs
    simp only [memory.save, hflag, Bool.false_eq_true, if_false, hs, if_true, logLine_memory,
      and_self]
  · intro hs hio
    have hs2 : ¬ ((env.serialize rt.memory.state).utf8ByteSize > maxBytes) := by omega
    simp only [memory.save, hflag, Bool.false_eq_true, if_false, hs2, hio, true_and]
  · intro err hs hio
    have hs2 : ¬ ((env.serialize rt.memory.state).utf8ByteSize > maxBytes) := by omega
    simp only [memory.save, hflag, Bool.false_eq_true, if_false, hs2, hio, logLine_memory,
      and_self]

/-- The file changes only when `save` returns true, and then to the serialized state,
whose size is within `maxBytes`. -/
theorem save_disk_cases (env : Env) (rt : Runtime) :
    ((memory.save env rt).1 = false ∧ (memory.save env rt).2.memory.disk = rt.memory.disk) ∨
    ((memory.save env rt).1 = true ∧
      (memory.save env rt).2.memory.disk = some (env.serialize rt.memory.state) ∧
      (env.serialize rt.memory.state).utf8ByteSize ≤ maxBytes) := by
  by_cases hflag : rt.memory.writeInProgress = true
  · left
    simp only [memory.save, hflag, if_true, and_self]
  · have hf : rt.memory.writeInProgress = false := by simpa using hflag
    have ho := save_outcomes env rt hf
    by_cases hs : (env.serialize rt.memory.state).utf8ByteSize > maxBytes
    · left
      have := ho.1 hs
      exact ⟨this.1, by rw [this.2]⟩
    · have hs2 : (env.serialize rt.memory.state).utf8ByteSize ≤ maxBytes := by omega
      cases hio : env.fsWrite (env.serialize rt.memory.state) with
      | none =>
        right
        have := ho.2.1 hs2 hio
        exact ⟨this.1, by rw [this.2], hs2⟩
      | some err =>
        left
        have := ho.2.2 err hs2 hio
        exact ⟨this.1, by rw [this.2]⟩

/-- C21. With no write in progress (the flag is false whenever `save` is entered, as
`save` clears it before it returns): when the serialized state is larger than
`maxBytes = 5 * 1024 * 1024` bytes of UTF-8, `save` returns false and the memory file,
like the rest of the store, is what it was before the call; when it is not larger and
the file write raises no error, `save` returns true and the memory file holds the
serialization of the current state; when the write raises an error, `save` returns false
and the file is unchanged. In every case the file after the call is either what it was
or a serialization of at most `maxBytes` bytes, and the in-memory state and the flag are
unchanged. -/
theorem save_size_guard (env : Env) (rt : Runtime)
    (hflag : rt.memory.writeInProgress = false) :
    maxBytes = 5 * 1024 * 1024 ∧
    ((env.serialize rt.memory.state).utf8ByteSize > maxBytes →
      (memory.save env rt).1 = false ∧
      (memory.save env rt).2.memory.disk = rt.memory.disk ∧
      (memory.save env rt).2.memory = rt.memory) ∧
    ((env.serialize rt.memory.state).utf8ByteSize ≤ maxBytes →
      env.fsWrite (env.serialize rt.memory.state) = none →
      (memory.save env rt).1 = true ∧
      (memory.save env rt).2.memory.disk = some (env.serialize rt.memory.state)) ∧
    (∀ err : String, (env.serialize rt.memory.state).utf8ByteSize ≤ maxBytes →
      env.fsWrite (env.serialize rt.memory.state) = some err →
      (memory.save env rt).1 = false ∧
      (memory.save env rt).2.memory.disk = rt.memory.disk) ∧
    (∀ content : String, (memory.save env rt).2.memory.disk = some content →
      (memory.save env rt).2.memory.disk = rt.memory.disk ∨
      (content = env.serialize rt.memory.state ∧ content.utf8ByteSize ≤ maxBytes)) ∧
    (memory.save env rt).2.memory.state = rt.memory.state ∧
    (memory.save env rt).2.memory.writeInProgress = false := by
  have ho := save_outcomes env rt hflag
  refine ⟨rfl, ?_, ?_, ?_, ?_, (save_state env rt).1, ?_⟩
  · intro hs
    have := ho.1 hs
    exact ⟨this.1, by rw [this.2], this.2⟩
  · intro hs hio
    have := ho.2.1 hs hio
    exact ⟨this.1, by rw [this.2]⟩
  · intro err hs hio
    have := ho.2.2 err hs hio
    exact ⟨this.1, by rw [this.2]⟩
  · intro content hc
    rcases save_disk_cases env rt with h | h
    · exact Or.inl h.2
    · right
      rw [h.2.1] at hc
      have hceq : env.serialize rt.memory.state = content := Option.some.inj hc
      rw [← hceq]
      exact ⟨rfl, h.2.2⟩
  · rw [(save_state env rt).2]; exact hflag

/-- Witness for C21: the fresh store on a host whose writes succeed. -/
theorem save_size_guard_witness :
    (memory.save envSafe rtFresh).1 = true ∧
    (memory.save envSafe rtFresh).2.memory.disk =
      some (envSafe.serialize rtFresh.memory.state) :=
  (save_size_guard envSafe rtFresh (by decide)).2.2.1 (by decide) (by decide)

/-! ## ConnectivityWatchdog: `getStatus` -/

/-- The object `getStatus` returns has the three properties `connected`, `failures` and
`lastCheckAt`, in every state of the watchdog. -/
theorem getStatus_keys (w : Watchdog) :
    (watchdog.getStatus w).keys = ["connected", "failures", "lastCheckAt"] := rfl

/-- C22, the failing input. For the watchdog as constructed, and in fact for every state
of the watchdog, the object that `getStatus` returns has the properties `connected`,
`failures` and `lastCheckAt` and no property named `running`; the health body reports
that object unchanged under `subsystems.watchdog`. -/
theorem getStatus_lacks_running :
    (watchdog.getStatus watchdog.init).hasProperty "running" = false ∧
    (watchdog.getStatus watchdog.init).keys = ["connected", "failures", "lastCheckAt"] ∧
    (∀ w : Watchdog, (watchdog.getStatus w).hasProperty "running" = false) ∧
    (∀ w : Watchdog, (watchdog.getStatus w).prop "running" = none) ∧
    (∀ (uptime schedulerStatus lastBeat : Value) (w : Watchdog) (inbox : Inbox),
      ((gatewayHealth uptime schedulerStatus lastBeat w inbox).prop "subsystems").bind
          (fun s => s.prop "watchdog") = some (watchdog.getStatus w)) := by
  refine ⟨by decide, by decide, fun w => ?_, fun w => ?_, fun _ _ _ _ _ => rfl⟩
  · simp [watchdog.getStatus, Value.hasProperty]
  · simp [watchdog.getStatus, Value.prop]

end Chopper
